import Mathlib

/-!
# Outercorp inventory component

A shallow embedding of `Source/Outercorp/InventoryItemData.h` and
`Source/Outercorp/InventoryComponent.cpp`.

Modelling conventions.

* `int32` values are `Int`.  Signed overflow is undefined behaviour in C++, so
  no wrap-around is modelled.
* Weights (`Weight`, `MaxWeight`, `GetTotalWeight`, `GetCurrentWeight`) are
  exact rationals (`ℚ`): the statements about weights take them as exact
  numbers, without the rounding of `float` sums and products.
* The slot count of `CanAddItem`,
  `CeilToInt(static_cast<float>(RemainingQuantity) / MaxStackSize)`, is computed
  in single precision: the conversion of the two integers and the division
  round to the nearest `float` (`RoundFloat`).
* A `UInventoryItemData*` is an `Option UInventoryItemData`; `none` is
  `nullptr`.  The record carries the address of the object (`Addr`), so that
  two catalogue objects with identical fields are still different pointers,
  and pointer comparison is equality of the records.
* `FGuid::NewGuid()` is a counter (`NextGuid`) kept with the component state:
  every constructor call of `FInventoryItem` takes the current value and
  advances the counter.
* `Broadcast` calls on the two delegates are appended to the list
  `Broadcasts`, oldest first.
* `TArray<FInventoryItem>` is a `List`; `Items[i]` is read with `ItemAt` and
  written with `List.set`.
* The engine calls `TArray::SetNum`, `TArray::Sort` and `FString::operator<`
  are not part of the sources; their models are marked as such where they are
  defined.
* An access outside the array and a negative array size stop the engine; a
  function that can reach one returns an `Option`, with `none` for that case.
-/

namespace Outercorp

/-- Item rarity, `EItemRarity`. -/
inductive EItemRarity
  | Common
  | Uncommon
  | Rare
  | Epic
  | Legendary
  deriving DecidableEq, Repr

/-- Underlying `uint8` value of an `EItemRarity`. -/
def EItemRarity.toNat : EItemRarity → Nat
  | .Common => 0
  | .Uncommon => 1
  | .Rare => 2
  | .Epic => 3
  | .Legendary => 4

/-- Catalogue entry `UInventoryItemData` (the fields the component reads). -/
structure UInventoryItemData where
  Addr : Nat
  ItemID : String
  ItemName : String
  Rarity : EItemRarity
  MaxStackSize : Int
  BaseValue : Int
  Weight : ℚ
  deriving DecidableEq

/-- Identifier `FGuid`. -/
abbrev FGuid := Nat

/-- Runtime stack `FInventoryItem`. -/
structure FInventoryItem where
  ItemData : Option UInventoryItemData
  Quantity : Int
  InstanceID : FGuid
  InstanceMetadata : List (String × String)
  deriving DecidableEq

namespace FInventoryItem

/-- Default constructor `FInventoryItem()`; `g` is the value of `FGuid::NewGuid()`. -/
def mkDefault (g : FGuid) : FInventoryItem :=
  { ItemData := none, Quantity := 1, InstanceID := g, InstanceMetadata := [] }

/-- Constructor `FInventoryItem(InItemData, InQuantity)`; `g` is the value of `FGuid::NewGuid()`. -/
def mk2 (InItemData : Option UInventoryItemData) (InQuantity : Int) (g : FGuid) :
    FInventoryItem :=
  { ItemData := InItemData, Quantity := InQuantity, InstanceID := g, InstanceMetadata := [] }

/-- Method `IsValid`: `ItemData != nullptr && Quantity > 0`. -/
def IsValid (it : FInventoryItem) : Bool :=
  it.ItemData.isSome && decide (0 < it.Quantity)

/-- Method `GetTotalWeight`: `ItemData ? ItemData->Weight * Quantity : 0.0f`. -/
def GetTotalWeight (it : FInventoryItem) : ℚ :=
  match it.ItemData with
  | some d => d.Weight * (it.Quantity : ℚ)
  | none => 0

end FInventoryItem

/-- Delegate calls: `OnInventoryUpdated.Broadcast` and `OnInventoryCapacityChanged.Broadcast`. -/
inductive Notification
  | InventoryUpdated (SlotIndex : Int) (Item : FInventoryItem)
  | InventoryCapacityChanged (NewCapacity : Int)
  deriving DecidableEq

/-- State of a `UInventoryComponent`, with the identifier counter and the
list of delegate calls made so far. -/
structure UInventoryComponent where
  Items : List FInventoryItem
  MaxSlots : Int
  MaxWeight : ℚ
  NextGuid : Nat
  Broadcasts : List Notification
  deriving DecidableEq

/-- Read `Items[i]` for an index that passed `IsValidIndex`. -/
def ItemAt (Items : List FInventoryItem) (i : Int) : FInventoryItem :=
  Items.getD i.toNat (FInventoryItem.mkDefault 0)

/-! ## Single-precision arithmetic

`CanAddItem` converts the remaining quantity to `float` and divides it by the
maximum stack size in `float`.  Both steps round to the nearest `float`, a tie
going to the even significand (IEEE 754 binary32, 24 significant bits).  The
range of the exponent is not modelled: the quantities are `int32`, so every
non-zero value that occurs has a magnitude between `2^-31` and `2^31`, far
inside the normal numbers. -/

/-- Rounding of a rational to the nearest integer, a tie going to the even one. -/
def RoundHalfEven (r : ℚ) : Int :=
  if r - (⌊r⌋ : ℚ) < 1 / 2 then ⌊r⌋
  else if 1 / 2 < r - (⌊r⌋ : ℚ) then ⌊r⌋ + 1
  else if ⌊r⌋ % 2 = 0 then ⌊r⌋ else ⌊r⌋ + 1

/-- The `float` nearest to `x`: with `2^e ≤ |x| < 2^(e+1)` the unit in the last
place is `2^(e-23)`, and `x` is rounded to a multiple of it. -/
def RoundFloat (x : ℚ) : ℚ :=
  if x = 0 then 0
  else (RoundHalfEven (x / 2 ^ (Int.log 2 |x| - 23)) : ℚ) * 2 ^ (Int.log 2 |x| - 23)

/-- Conversion `static_cast<float>(n)` of an `int32`, also the implicit one of
an `int32` operand of a `float` division. -/
def IntToFloat (n : Int) : ℚ := RoundFloat (n : ℚ)

/-- Division of two `float` values.  A zero divisor, which gives an infinity
or a NaN in C++, is not modelled: the quotient is then that of `ℚ`, zero. -/
def FloatDiv (a b : ℚ) : ℚ := RoundFloat (a / b)

/-- Modelled from the spec: the engine call `FMath::CeilToInt`, which is not
part of the sources; the specification has "required new slots =
ceil(remaining / maxStackSize)", so it is the least integer at or above its
argument. -/
def CeilToInt (x : ℚ) : Int := ⌈x⌉

namespace UInventoryComponent

/-- Engine call `Items.IsValidIndex(i)`. -/
def IsValidIndex (S : UInventoryComponent) (i : Int) : Bool :=
  decide (0 ≤ i) && decide (i < (S.Items.length : Int))

/-- Method `GetOccupiedSlots`. -/
def GetOccupiedSlots (S : UInventoryComponent) : Int :=
  S.Items.foldl (fun Count Item => if Item.IsValid then Count + 1 else Count) 0

/-- Method `GetCurrentWeight`, the sum taken in exact numbers. -/
def GetCurrentWeight (S : UInventoryComponent) : ℚ :=
  S.Items.foldl
    (fun TotalWeight Item =>
      if Item.IsValid then TotalWeight + Item.GetTotalWeight else TotalWeight) 0

/-- The range-for of `CanAddItem` over the existing stacks: `none` when the
loop leaves through `return true`, otherwise the remaining quantity. -/
def CanAddItemLoop (ItemData : UInventoryItemData) :
    List FInventoryItem → Int → Option Int
  | [], RemainingQuantity => some RemainingQuantity
  | Item :: rest, RemainingQuantity =>
    if Item.IsValid && decide (Item.ItemData = some ItemData) then
      let SpaceInStack := ItemData.MaxStackSize - Item.Quantity
      let RemainingQuantity := RemainingQuantity - SpaceInStack
      if RemainingQuantity ≤ 0 then none
      else CanAddItemLoop ItemData rest RemainingQuantity
    else CanAddItemLoop ItemData rest RemainingQuantity

/-- The tail of `CanAddItem`: the empty-slot check.  `RequiredSlots` is
`CeilToInt(static_cast<float>(RemainingQuantity) / MaxStackSize)`, computed in
single precision. -/
def CanAddItemSlots (S : UInventoryComponent) (ItemData : UInventoryItemData)
    (RemainingQuantity : Int) : Bool :=
  let RequiredSlots : Int :=
    CeilToInt (FloatDiv (IntToFloat RemainingQuantity) (IntToFloat ItemData.MaxStackSize))
  let EmptySlots := S.MaxSlots - S.GetOccupiedSlots
  decide (EmptySlots ≥ RequiredSlots)

/-- Method `CanAddItem`.  The weight test is taken in exact numbers; the slot
count of `CanAddItemSlots` is the one of the `float` computation. -/
def CanAddItem (S : UInventoryComponent) (ItemData : Option UInventoryItemData)
    (Quantity : Int) : Bool :=
  match ItemData with
  | none => false
  | some D =>
    if Quantity ≤ 0 then false
    else if 0 < S.MaxWeight ∧ S.GetCurrentWeight + D.Weight * (Quantity : ℚ) > S.MaxWeight then
      false
    else if 1 < D.MaxStackSize then
      match CanAddItemLoop D S.Items Quantity with
      | none => true
      | some RemainingQuantity => CanAddItemSlots S D RemainingQuantity
    else CanAddItemSlots S D Quantity

/-- The loop of `FindEmptySlot` from index `i` on. -/
def FindEmptySlotFrom : List FInventoryItem → Int → Int
  | [], _ => -1
  | Item :: rest, i => if !Item.IsValid then i else FindEmptySlotFrom rest (i + 1)

/-- Method `FindEmptySlot`. -/
def FindEmptySlot (S : UInventoryComponent) : Int :=
  FindEmptySlotFrom S.Items 0

/-- Result of the loop of `TryStackItem`: the slots it went through, the two
reference parameters, the flag `bStackedAny` and the delegate calls made. -/
structure StackResult where
  Items : List FInventoryItem
  Quantity : Int
  OutSlotIndex : Int
  bStackedAny : Bool
  Broadcasts : List Notification

/-- The loop of `TryStackItem` over the slots from index `i` on. -/
def TryStackItemFrom (ItemData : UInventoryItemData) :
    List FInventoryItem → Int → Int → Int → Bool → StackResult
  | [], _, Quantity, OutSlotIndex, bStackedAny =>
    { Items := [], Quantity := Quantity, OutSlotIndex := OutSlotIndex,
      bStackedAny := bStackedAny, Broadcasts := [] }
  | Item :: rest, i, Quantity, OutSlotIndex, bStackedAny =>
    if 0 < Quantity then
      if Item.IsValid && decide (Item.ItemData = some ItemData) then
        let SpaceInStack := ItemData.MaxStackSize - Item.Quantity
        if 0 < SpaceInStack then
          let QuantityToAdd := min SpaceInStack Quantity
          let Item1 := { Item with Quantity := Item.Quantity + QuantityToAdd }
          let r := TryStackItemFrom ItemData rest (i + 1) (Quantity - QuantityToAdd) i true
          { r with Items := Item1 :: r.Items,
                   Broadcasts := Notification.InventoryUpdated i Item1 :: r.Broadcasts }
        else
          let r := TryStackItemFrom ItemData rest (i + 1) Quantity OutSlotIndex bStackedAny
          { r with Items := Item :: r.Items }
      else
        let r := TryStackItemFrom ItemData rest (i + 1) Quantity OutSlotIndex bStackedAny
        { r with Items := Item :: r.Items }
    else
      { Items := Item :: rest, Quantity := Quantity, OutSlotIndex := OutSlotIndex,
        bStackedAny := bStackedAny, Broadcasts := [] }

/-- Method `TryStackItem`: returns `bStackedAny`, the two reference parameters
and the component afterwards. -/
def TryStackItem (S : UInventoryComponent) (ItemData : UInventoryItemData)
    (Quantity OutSlotIndex : Int) : Bool × Int × Int × UInventoryComponent :=
  let r := TryStackItemFrom ItemData S.Items 0 Quantity OutSlotIndex false
  (r.bStackedAny, r.Quantity, r.OutSlotIndex,
    { S with Items := r.Items, Broadcasts := S.Broadcasts ++ r.Broadcasts })

/-- The `while (RemainingQuantity > 0)` loop of `AddItem`.  `fuel` bounds the
number of iterations; `none` means the bound was reached. -/
def AddItemLoop (ItemData : UInventoryItemData) :
    Nat → UInventoryComponent → Int → Int → Option (Bool × Int × UInventoryComponent)
  | fuel, S, RemainingQuantity, OutSlotIndex =>
    if 0 < RemainingQuantity then
      match fuel with
      | 0 => none
      | fuel + 1 =>
        let EmptySlot := S.FindEmptySlot
        if EmptySlot = -1 then some (false, -1, S)
        else
          let QuantityToAdd := min RemainingQuantity ItemData.MaxStackSize
          let NewItem := FInventoryItem.mk2 (some ItemData) QuantityToAdd S.NextGuid
          let S1 := { S with Items := S.Items.set EmptySlot.toNat NewItem,
                             NextGuid := S.NextGuid + 1,
                             Broadcasts := S.Broadcasts ++
                               [Notification.InventoryUpdated EmptySlot NewItem] }
          AddItemLoop ItemData fuel S1 (RemainingQuantity - QuantityToAdd) EmptySlot
    else some (true, OutSlotIndex, S)

/-- Method `AddItem`: the returned flag, `OutSlotIndex` and the component
afterwards.  `OutSlotIndex` is a reference parameter and is read on entry;
`fuel` bounds the iterations of the while loop. -/
def AddItem (fuel : Nat) (S : UInventoryComponent) (ItemData : Option UInventoryItemData)
    (Quantity OutSlotIndex : Int) : Option (Bool × Int × UInventoryComponent) :=
  match ItemData with
  | none => some (false, -1, S)
  | some D =>
    if Quantity ≤ 0 then some (false, -1, S)
    else if !S.CanAddItem (some D) Quantity then some (false, -1, S)
    else if 1 < D.MaxStackSize then
      match S.TryStackItem D Quantity OutSlotIndex with
      | (bStackedAny, RemainingQuantity, OutSlotIndex, S1) =>
        if bStackedAny && decide (RemainingQuantity ≤ 0) then some (true, OutSlotIndex, S1)
        else AddItemLoop D fuel S1 RemainingQuantity OutSlotIndex
    else AddItemLoop D fuel S Quantity OutSlotIndex

/-- Method `RemoveItemAtSlot`. -/
def RemoveItemAtSlot (S : UInventoryComponent) (SlotIndex Quantity : Int) :
    Bool × UInventoryComponent :=
  if !S.IsValidIndex SlotIndex || !(ItemAt S.Items SlotIndex).IsValid then (false, S)
  else if Quantity ≤ 0 ∨ Quantity > (ItemAt S.Items SlotIndex).Quantity then (false, S)
  else
    let Item := ItemAt S.Items SlotIndex
    let Item1 := { Item with Quantity := Item.Quantity - Quantity }
    if Item1.Quantity ≤ 0 then
      let Item2 := FInventoryItem.mkDefault S.NextGuid
      (true, { S with Items := S.Items.set SlotIndex.toNat Item2,
                      NextGuid := S.NextGuid + 1,
                      Broadcasts := S.Broadcasts ++
                        [Notification.InventoryUpdated SlotIndex Item2] })
    else
      (true, { S with Items := S.Items.set SlotIndex.toNat Item1,
                      Broadcasts := S.Broadcasts ++
                        [Notification.InventoryUpdated SlotIndex Item1] })

/-- Method `CanStack`. -/
def CanStack (ItemA ItemB : FInventoryItem) : Bool :=
  if !ItemA.IsValid || !ItemB.IsValid then false
  else if ItemA.ItemData ≠ ItemB.ItemData then false
  else
    match ItemA.ItemData with
    | some D => if D.MaxStackSize ≤ 1 then false else true
    | none => false

/-- Method `SplitStack`. -/
def SplitStack (S : UInventoryComponent) (SourceSlot TargetSlot Quantity : Int) :
    Bool × UInventoryComponent :=
  if !S.IsValidIndex SourceSlot || !S.IsValidIndex TargetSlot then (false, S)
  else if !(ItemAt S.Items SourceSlot).IsValid || (ItemAt S.Items TargetSlot).IsValid then
    (false, S)
  else if Quantity ≤ 0 ∨ Quantity ≥ (ItemAt S.Items SourceSlot).Quantity then (false, S)
  else
    let NewStack0 := FInventoryItem.mk2 (ItemAt S.Items SourceSlot).ItemData Quantity S.NextGuid
    let NewStack := { NewStack0 with
                      InstanceMetadata := (ItemAt S.Items SourceSlot).InstanceMetadata }
    let Items1 := S.Items.set TargetSlot.toNat NewStack
    let Source := ItemAt Items1 SourceSlot
    let Items2 := Items1.set SourceSlot.toNat { Source with Quantity := Source.Quantity - Quantity }
    (true, { S with Items := Items2,
                    NextGuid := S.NextGuid + 1,
                    Broadcasts := S.Broadcasts ++
                      [Notification.InventoryUpdated SourceSlot (ItemAt Items2 SourceSlot),
                       Notification.InventoryUpdated TargetSlot (ItemAt Items2 TargetSlot)] })

/-- Method `MergeStacks`.  After `CanStack` the target's `ItemData` is
non-null, so the `none` branch of the dereference is never taken. -/
def MergeStacks (S : UInventoryComponent) (SourceSlot TargetSlot : Int) :
    Bool × UInventoryComponent :=
  if !S.IsValidIndex SourceSlot || !S.IsValidIndex TargetSlot then (false, S)
  else if !CanStack (ItemAt S.Items SourceSlot) (ItemAt S.Items TargetSlot) then (false, S)
  else
    match (ItemAt S.Items TargetSlot).ItemData with
    | none => (false, S)
    | some TargetData =>
      let SpaceAvailable := TargetData.MaxStackSize - (ItemAt S.Items TargetSlot).Quantity
      let QuantityToMove := min SpaceAvailable (ItemAt S.Items SourceSlot).Quantity
      let Target := ItemAt S.Items TargetSlot
      let Items1 := S.Items.set TargetSlot.toNat
        { Target with Quantity := Target.Quantity + QuantityToMove }
      let Source := ItemAt Items1 SourceSlot
      let Items2 := Items1.set SourceSlot.toNat
        { Source with Quantity := Source.Quantity - QuantityToMove }
      if (ItemAt Items2 SourceSlot).Quantity ≤ 0 then
        let Items3 := Items2.set SourceSlot.toNat (FInventoryItem.mkDefault S.NextGuid)
        (true, { S with Items := Items3,
                        NextGuid := S.NextGuid + 1,
                        Broadcasts := S.Broadcasts ++
                          [Notification.InventoryUpdated SourceSlot (ItemAt Items3 SourceSlot),
                           Notification.InventoryUpdated TargetSlot (ItemAt Items3 TargetSlot)] })
      else
        (true, { S with Items := Items2,
                        Broadcasts := S.Broadcasts ++
                          [Notification.InventoryUpdated SourceSlot (ItemAt Items2 SourceSlot),
                           Notification.InventoryUpdated TargetSlot (ItemAt Items2 TargetSlot)] })

/-- Method `MoveItem`. -/
def MoveItem (S : UInventoryComponent) (FromSlot ToSlot Quantity : Int) :
    Bool × UInventoryComponent :=
  if !S.IsValidIndex FromSlot || !S.IsValidIndex ToSlot then (false, S)
  else if !(ItemAt S.Items FromSlot).IsValid then (false, S)
  else
    let QuantityToMove :=
      if Quantity ≤ 0 then (ItemAt S.Items FromSlot).Quantity
      else min Quantity (ItemAt S.Items FromSlot).Quantity
    if !(ItemAt S.Items ToSlot).IsValid then
      if QuantityToMove = (ItemAt S.Items FromSlot).Quantity then
        let Items1 := S.Items.set ToSlot.toNat (ItemAt S.Items FromSlot)
        let Items2 := Items1.set FromSlot.toNat (FInventoryItem.mkDefault S.NextGuid)
        (true, { S with Items := Items2,
                        NextGuid := S.NextGuid + 1,
                        Broadcasts := S.Broadcasts ++
                          [Notification.InventoryUpdated FromSlot (ItemAt Items2 FromSlot),
                           Notification.InventoryUpdated ToSlot (ItemAt Items2 ToSlot)] })
      else S.SplitStack FromSlot ToSlot QuantityToMove
    else if CanStack (ItemAt S.Items FromSlot) (ItemAt S.Items ToSlot) then
      S.MergeStacks FromSlot ToSlot
    else
      let Temp := ItemAt S.Items FromSlot
      let Items1 := S.Items.set FromSlot.toNat (ItemAt S.Items ToSlot)
      let Items2 := Items1.set ToSlot.toNat Temp
      (true, { S with Items := Items2,
                      Broadcasts := S.Broadcasts ++
                        [Notification.InventoryUpdated FromSlot (ItemAt Items2 FromSlot),
                         Notification.InventoryUpdated ToSlot (ItemAt Items2 ToSlot)] })

/-- The loop of `RemoveItemByInstanceID` from index `i` on: the first slot
holding a valid stack with the identifier, if any. -/
def FindInstanceFrom : List FInventoryItem → Int → FGuid → Option Int
  | [], _, _ => none
  | Item :: rest, i, InstanceID =>
    if Item.IsValid && decide (Item.InstanceID = InstanceID) then some i
    else FindInstanceFrom rest (i + 1) InstanceID

/-- Method `RemoveItemByInstanceID`. -/
def RemoveItemByInstanceID (S : UInventoryComponent) (InstanceID : FGuid) (Quantity : Int) :
    Bool × UInventoryComponent :=
  match FindInstanceFrom S.Items 0 InstanceID with
  | some i => S.RemoveItemAtSlot i Quantity
  | none => (false, S)

/-- Modelled from the spec: the engine call `TArray::SetNum(NewNum)` for
`NewNum ≥ 0`, which lies outside the repository.  The array is truncated, or
extended with default-constructed items (each one takes an identifier).  The
result is the array and the identifier counter. -/
def SetNum (Items : List FInventoryItem) (NewNum : Nat) (g : Nat) :
    List FInventoryItem × Nat :=
  if NewNum ≤ Items.length then (Items.take NewNum, g)
  else
    (Items ++ (List.range (NewNum - Items.length)).map (fun j => FInventoryItem.mkDefault (g + j)),
      g + (NewNum - Items.length))

/-- The tail of `SetMaxSlots`: `Items.SetNum(NewMaxSlots)`, the assignment of
`MaxSlots` and the call of `OnInventoryCapacityChanged`.  `none` stands for
the failed engine check on a negative size. -/
def SetMaxSlotsResize (S : UInventoryComponent) (NewMaxSlots : Int) : Option UInventoryComponent :=
  if NewMaxSlots < 0 then none
  else
    let r := SetNum S.Items NewMaxSlots.toNat S.NextGuid
    some { S with Items := r.1, NextGuid := r.2, MaxSlots := NewMaxSlots,
                  Broadcasts := S.Broadcasts ++
                    [Notification.InventoryCapacityChanged NewMaxSlots] }

/-- Method `SetMaxSlots`.  `none` stands for an access outside the array: when
shrinking, the loop starts by reading `Items[NewMaxSlots]`, which for a
negative `NewMaxSlots` is not an element of the array. -/
def SetMaxSlots (S : UInventoryComponent) (NewMaxSlots : Int) : Option UInventoryComponent :=
  if NewMaxSlots < S.MaxSlots then
    if NewMaxSlots < 0 then none
    else
      let bHasItemsBeyondNewSize := (S.Items.drop NewMaxSlots.toNat).any (fun Item => Item.IsValid)
      if bHasItemsBeyondNewSize then some S
      else SetMaxSlotsResize S NewMaxSlots
  else SetMaxSlotsResize S NewMaxSlots

/-- The loop of `ClearInventory` from index `i` on, with identifier counter `g`:
the slots afterwards, the counter and the delegate calls made. -/
def ClearFrom : List FInventoryItem → Int → Nat → List FInventoryItem × Nat × List Notification
  | [], _, g => ([], g, [])
  | Item :: rest, i, g =>
    if Item.IsValid then
      let Blank := FInventoryItem.mkDefault g
      let r := ClearFrom rest (i + 1) (g + 1)
      (Blank :: r.1, r.2.1, Notification.InventoryUpdated i Blank :: r.2.2)
    else
      let r := ClearFrom rest (i + 1) g
      (Item :: r.1, r.2.1, r.2.2)

/-- Method `ClearInventory`. -/
def ClearInventory (S : UInventoryComponent) : UInventoryComponent :=
  let r := ClearFrom S.Items 0 S.NextGuid
  { S with Items := r.1, NextGuid := r.2.1, Broadcasts := S.Broadcasts ++ r.2.2 }

/-- Expression `A.ItemData->ItemName.ToString()` in the sort predicates.  The
elements of `ValidItems` have a non-null `ItemData`; the value for a null
pointer is never used. -/
def NameOf (A : FInventoryItem) : String :=
  match A.ItemData with
  | some d => d.ItemName
  | none => ""

/-- Expression `A.ItemData->Rarity` in the sort predicate.  The value for a null
pointer is never used. -/
def RarityOf (A : FInventoryItem) : EItemRarity :=
  match A.ItemData with
  | some d => d.Rarity
  | none => EItemRarity.Common

/-- Modelled from the spec: `FString::operator<`, engine code outside the
repository, taken as the case-sensitive order of the rendered names. -/
def NameLess (a b : String) : Bool :=
  decide (a < b)

/-- The predicate of `SortInventory(true)`. -/
def SortByName (A B : FInventoryItem) : Bool :=
  NameLess (NameOf A) (NameOf B)

/-- The predicate of `SortInventory(false)`: rarity first, then name. -/
def SortByRarity (A B : FInventoryItem) : Bool :=
  if RarityOf A ≠ RarityOf B then decide ((RarityOf A).toNat > (RarityOf B).toNat)
  else NameLess (NameOf A) (NameOf B)

/-- Modelled from the spec: the engine call `TArray::Sort(Predicate)`, which lies
outside the repository.  The specification describes it as a stable sort by
the predicate; insertion sort is one. -/
def TArraySort (Predicate : FInventoryItem → FInventoryItem → Bool)
    (A : List FInventoryItem) : List FInventoryItem :=
  A.insertionSort (fun a b => Predicate b a = false)

/-- The loop of `SortInventory` that places the sorted stacks back, from index
`i` on: the slots and the delegate calls made. -/
def SortPlaceBack :
    List FInventoryItem → Int → List FInventoryItem → List Notification →
      List FInventoryItem × List Notification
  | [], _, Items, Calls => (Items, Calls)
  | Valid :: rest, i, Items, Calls =>
    SortPlaceBack rest (i + 1) (Items.set i.toNat Valid)
      (Calls ++ [Notification.InventoryUpdated i (ItemAt (Items.set i.toNat Valid) i)])

/-- Method `SortInventory`.  `Items.Init(FInventoryItem(), Items.Num())` fills
every slot with a copy of one default-constructed item. -/
def SortInventory (S : UInventoryComponent) (bByName : Bool) : UInventoryComponent :=
  let ValidItems := S.Items.filter (fun Item => Item.IsValid)
  let Sorted := if bByName then TArraySort SortByName ValidItems
                else TArraySort SortByRarity ValidItems
  let Cleared := List.replicate S.Items.length (FInventoryItem.mkDefault S.NextGuid)
  let r := SortPlaceBack Sorted 0 Cleared []
  { S with Items := r.1, NextGuid := S.NextGuid + 1, Broadcasts := S.Broadcasts ++ r.2 }

end UInventoryComponent

open UInventoryComponent

/-! ## Observations used in the statements -/

/-- Weight the slot contributes to `GetCurrentWeight`. -/
def slotWeight (it : FInventoryItem) : ℚ :=
  if it.IsValid then it.GetTotalWeight else 0

/-- Sum of the weights of the valid stacks of a slot list. -/
def weightOf (Items : List FInventoryItem) : ℚ :=
  (Items.map slotWeight).sum

/-- Number of slots that hold no valid stack. -/
def emptyCount (Items : List FInventoryItem) : Nat :=
  Items.countP (fun it => !it.IsValid)

/-- The slot holds a valid stack of definition `D`. -/
def holds (D : UInventoryItemData) (it : FInventoryItem) : Bool :=
  it.IsValid && decide (it.ItemData = some D)

/-- Remaining capacity of a slot for definition `D`: `MaxStackSize - Quantity`
on a valid stack of `D`, nothing elsewhere. -/
def slotSpace (D : UInventoryItemData) (it : FInventoryItem) : Int :=
  if holds D it then D.MaxStackSize - it.Quantity else 0

/-- Total remaining capacity of the valid stacks of definition `D`. -/
def stackSpace (D : UInventoryItemData) (Items : List FInventoryItem) : Int :=
  (Items.map (slotSpace D)).sum

/-- A valid stack holds at most its definition's `MaxStackSize`. -/
def StackOK (it : FInventoryItem) : Bool :=
  match it.ItemData with
  | some d => !it.IsValid || decide (it.Quantity ≤ d.MaxStackSize)
  | none => true

/-- Store invariants: `Items.Num() = MaxSlots` and no valid stack above its maximum. -/
def StoreInv (S : UInventoryComponent) : Prop :=
  (S.Items.length : Int) = S.MaxSlots ∧ ∀ it ∈ S.Items, StackOK it = true

/-- Every identifier in the slots was handed out by the generator before:
it is below the counter `NextGuid`. -/
def GuidsIssued (S : UInventoryComponent) : Prop :=
  ∀ it ∈ S.Items, it.InstanceID < S.NextGuid

/-- What a slot holds in the sense of the data model: its stack when the stack
is valid, nothing otherwise. -/
def slotContent (it : FInventoryItem) : Option FInventoryItem :=
  if it.IsValid then some it else none

/-- No stack of the component has a negative weight. -/
def NonNegWeights (S : UInventoryComponent) : Prop :=
  ∀ it ∈ S.Items, 0 ≤ slotWeight it

/-! ## Auxiliary functions for the proofs -/

/-- Slots after the while loop of `AddItem`, read off slot by slot: going up the
slots, every slot without a valid stack receives `min remaining MaxStackSize`
units of `D` while a positive quantity remains. -/
def fillEmpty (D : UInventoryItemData) : List FInventoryItem → Int → FGuid → List FInventoryItem
  | [], _, _ => []
  | it :: rest, R, g =>
    if 0 < R ∧ it.IsValid = false then
      FInventoryItem.mk2 (some D) (min R D.MaxStackSize) g ::
        fillEmpty D rest (R - min R D.MaxStackSize) (g + 1)
    else it :: fillEmpty D rest R g

/-- Index of the last slot written by `fillEmpty`, `out` when none is. -/
def fillOut (D : UInventoryItemData) : List FInventoryItem → Int → Int → Int → Int
  | [], _, _, out => out
  | it :: rest, i, R, out =>
    if 0 < R ∧ it.IsValid = false then fillOut D rest (i + 1) (R - min R D.MaxStackSize) i
    else fillOut D rest (i + 1) R out

/-- The stack that the while loop of `AddItem` writes into an empty slot that
has `n` empty slots before it, when `R` units are to be placed and the first
identifier handed out is `g`. -/
def newStack (D : UInventoryItemData) (R : Int) (g : FGuid) (n : Nat) : FInventoryItem :=
  FInventoryItem.mk2 (some D) (min (R - (n : Int) * D.MaxStackSize) D.MaxStackSize) (g + n)

/-- The valid stacks of the component in the order `SortInventory` gives them. -/
def SortedStacks (S : UInventoryComponent) (bByName : Bool) : List FInventoryItem :=
  if bByName then TArraySort SortByName (S.Items.filter (fun Item => Item.IsValid))
  else TArraySort SortByRarity (S.Items.filter (fun Item => Item.IsValid))

/-- The delegate calls of the place-back loop of `SortInventory` from index `i` on. -/
def placeCalls : List FInventoryItem → Int → List Notification
  | [], _ => []
  | v :: rest, i => Notification.InventoryUpdated i v :: placeCalls rest (i + 1)

/-! ## Example data -/

/-- A stackable definition: ten units per stack, weight 1 per unit. -/
def exD : UInventoryItemData :=
  { Addr := 1, ItemID := "ore", ItemName := "Ore", Rarity := EItemRarity.Common,
    MaxStackSize := 10, BaseValue := 5, Weight := 1 }

/-- A store of two slots, both empty, without weight limit. -/
def exEmpty2 : UInventoryComponent :=
  { Items := [FInventoryItem.mkDefault 0, FInventoryItem.mkDefault 1],
    MaxSlots := 2, MaxWeight := 0, NextGuid := 2, Broadcasts := [] }

/-- A store of two slots: slot 0 holds 7 of `exD`, slot 1 is empty. -/
def exPartial2 : UInventoryComponent :=
  { Items := [FInventoryItem.mk2 (some exD) 7 0, FInventoryItem.mkDefault 1],
    MaxSlots := 2, MaxWeight := 0, NextGuid := 2, Broadcasts := [] }

/-- A store of two slots, each holding a full stack of `exD` (10 of 10). -/
def exFull2 : UInventoryComponent :=
  { Items := [FInventoryItem.mk2 (some exD) 10 0, FInventoryItem.mk2 (some exD) 10 1],
    MaxSlots := 2, MaxWeight := 0, NextGuid := 2, Broadcasts := [] }

/-- A definition that does not stack and weighs 9.5 per unit. -/
def exHeavyD : UInventoryItemData :=
  { Addr := 2, ItemID := "plate", ItemName := "Plate", Rarity := EItemRarity.Rare,
    MaxStackSize := 1, BaseValue := 40, Weight := 19 / 2 }

/-- A store of two slots with `MaxWeight = 10`: slot 0 holds one `exHeavyD`
(current weight 9.5), slot 1 is empty. -/
def exWeighted : UInventoryComponent :=
  { Items := [FInventoryItem.mk2 (some exHeavyD) 1 0, FInventoryItem.mkDefault 1],
    MaxSlots := 2, MaxWeight := 10, NextGuid := 2, Broadcasts := [] }

/-- A store of two slots holding 7 and 6 of `exD`. -/
def exMerge2 : UInventoryComponent :=
  { Items := [FInventoryItem.mk2 (some exD) 7 0, FInventoryItem.mk2 (some exD) 6 1],
    MaxSlots := 2, MaxWeight := 0, NextGuid := 2, Broadcasts := [] }

/-- A store of two slots: slot 0 holds 5 of `exD`, slot 1 is empty. -/
def exFive2 : UInventoryComponent :=
  { Items := [FInventoryItem.mk2 (some exD) 5 0, FInventoryItem.mkDefault 1],
    MaxSlots := 2, MaxWeight := 0, NextGuid := 2, Broadcasts := [] }

/-- A store of two slots: slot 0 is empty, slot 1 holds 5 of `exD`. -/
def exGap2 : UInventoryComponent :=
  { Items := [FInventoryItem.mkDefault 0, FInventoryItem.mk2 (some exD) 5 1],
    MaxSlots := 2, MaxWeight := 0, NextGuid := 2, Broadcasts := [] }

/-- A store whose slot list is shorter than `MaxSlots`: one slot holding 5 of
`exD`, with `MaxSlots = 2`. -/
def exShort : UInventoryComponent :=
  { Items := [FInventoryItem.mk2 (some exD) 5 0],
    MaxSlots := 2, MaxWeight := 0, NextGuid := 1, Broadcasts := [] }

/-- A definition with a negative unit weight: `MaxStackSize = 1`,
`Weight = -10`. -/
def exLiftD : UInventoryItemData :=
  { Addr := 3, ItemID := "balloon", ItemName := "Balloon", Rarity := EItemRarity.Common,
    MaxStackSize := 1, BaseValue := 5, Weight := -10 }

/-- An empty store of three slots with `MaxWeight = 10`. -/
def exEmpty3 : UInventoryComponent :=
  { Items := [FInventoryItem.mkDefault 0, FInventoryItem.mkDefault 1, FInventoryItem.mkDefault 2],
    MaxSlots := 3, MaxWeight := 10, NextGuid := 3, Broadcasts := [] }

/-- The store after `AddItem(exLiftD, 1)` on `exEmpty3`. -/
def exLift1 : UInventoryComponent :=
  { Items := [FInventoryItem.mk2 (some exLiftD) 1 3, FInventoryItem.mkDefault 1,
              FInventoryItem.mkDefault 2],
    MaxSlots := 3, MaxWeight := 10, NextGuid := 4,
    Broadcasts := [Notification.InventoryUpdated 0 (FInventoryItem.mk2 (some exLiftD) 1 3)] }

/-- The store after `AddItem(exHeavyD, 1)` on `exLift1`. -/
def exLift2 : UInventoryComponent :=
  { Items := [FInventoryItem.mk2 (some exLiftD) 1 3, FInventoryItem.mk2 (some exHeavyD) 1 4,
              FInventoryItem.mkDefault 2],
    MaxSlots := 3, MaxWeight := 10, NextGuid := 5,
    Broadcasts := [Notification.InventoryUpdated 0 (FInventoryItem.mk2 (some exLiftD) 1 3),
                   Notification.InventoryUpdated 1 (FInventoryItem.mk2 (some exHeavyD) 1 4)] }

/-- The store after `AddItem(exHeavyD, 1)` on `exLift2`: one `exLiftD` and two
`exHeavyD`, current weight `-10 + 9.5 + 9.5 = 9`. -/
def exLift : UInventoryComponent :=
  { Items := [FInventoryItem.mk2 (some exLiftD) 1 3, FInventoryItem.mk2 (some exHeavyD) 1 4,
              FInventoryItem.mk2 (some exHeavyD) 1 5],
    MaxSlots := 3, MaxWeight := 10, NextGuid := 6,
    Broadcasts := [Notification.InventoryUpdated 0 (FInventoryItem.mk2 (some exLiftD) 1 3),
                   Notification.InventoryUpdated 1 (FInventoryItem.mk2 (some exHeavyD) 1 4),
                   Notification.InventoryUpdated 2 (FInventoryItem.mk2 (some exHeavyD) 1 5)] }

/-- The store `exLift` after `RemoveItemAtSlot(0, 1)`: slot 0 empty, slots 1
and 2 hold one `exHeavyD` each; current weight 19 with `MaxWeight = 10`. -/
def exOver : UInventoryComponent :=
  { Items := [FInventoryItem.mkDefault 6, FInventoryItem.mk2 (some exHeavyD) 1 4,
              FInventoryItem.mk2 (some exHeavyD) 1 5],
    MaxSlots := 3, MaxWeight := 10, NextGuid := 7,
    Broadcasts := [Notification.InventoryUpdated 0 (FInventoryItem.mk2 (some exLiftD) 1 3),
                   Notification.InventoryUpdated 1 (FInventoryItem.mk2 (some exHeavyD) 1 4),
                   Notification.InventoryUpdated 2 (FInventoryItem.mk2 (some exHeavyD) 1 5),
                   Notification.InventoryUpdated 0 (FInventoryItem.mkDefault 6)] }

/-- The store `exOver` after `RemoveItemAtSlot(1, 1)`. -/
def exOver1 : UInventoryComponent :=
  { Items := [FInventoryItem.mkDefault 6, FInventoryItem.mkDefault 7,
              FInventoryItem.mk2 (some exHeavyD) 1 5],
    MaxSlots := 3, MaxWeight := 10, NextGuid := 8,
    Broadcasts := [Notification.InventoryUpdated 0 (FInventoryItem.mk2 (some exLiftD) 1 3),
                   Notification.InventoryUpdated 1 (FInventoryItem.mk2 (some exHeavyD) 1 4),
                   Notification.InventoryUpdated 2 (FInventoryItem.mk2 (some exHeavyD) 1 5),
                   Notification.InventoryUpdated 0 (FInventoryItem.mkDefault 6),
                   Notification.InventoryUpdated 1 (FInventoryItem.mkDefault 7)] }

/-- A definition whose stacks take `2^24 = 16777216` units. -/
def exBigD : UInventoryItemData :=
  { Addr := 4, ItemID := "grain", ItemName := "Grain", Rarity := EItemRarity.Common,
    MaxStackSize := 16777216, BaseValue := 1, Weight := 1 }

/-- A store of one empty slot, without a weight limit. -/
def exOne : UInventoryComponent :=
  { Items := [FInventoryItem.mkDefault 0],
    MaxSlots := 1, MaxWeight := 0, NextGuid := 1, Broadcasts := [] }

/-- The store `exOne` with its slot filled by a full stack of `exBigD`. -/
def exOneFilled : UInventoryComponent :=
  { Items := [FInventoryItem.mk2 (some exBigD) 16777216 1],
    MaxSlots := 1, MaxWeight := 0, NextGuid := 2,
    Broadcasts := [Notification.InventoryUpdated 0 (FInventoryItem.mk2 (some exBigD) 16777216 1)] }

/-- A component before `BeginPlay`: the slot list is still empty, `MaxSlots`
has its default 30. -/
def exUnready : UInventoryComponent :=
  { Items := [], MaxSlots := 30, MaxWeight := 0, NextGuid := 0, Broadcasts := [] }

/-! ## Lemmas and theorems -/

@[simp] theorem weightOf_nil : weightOf [] = 0 := rfl
@[simp] theorem weightOf_cons (it : FInventoryItem) (rest : List FInventoryItem) :
    weightOf (it :: rest) = slotWeight it + weightOf rest := by simp [weightOf]
@[simp] theorem stackSpace_nil (D : UInventoryItemData) : stackSpace D [] = 0 := rfl
@[simp] theorem stackSpace_cons (D : UInventoryItemData) (it : FInventoryItem)
    (rest : List FInventoryItem) :
    stackSpace D (it :: rest) = slotSpace D it + stackSpace D rest := by simp [stackSpace]
@[simp] theorem emptyCount_nil : emptyCount [] = 0 := rfl
theorem emptyCount_cons (it : FInventoryItem) (rest : List FInventoryItem) :
    emptyCount (it :: rest) = emptyCount rest + (if it.IsValid then 0 else 1) := by
  simp only [emptyCount, List.countP_cons]
  cases it.IsValid <;> simp

theorem holds_space_nonneg (D : UInventoryItemData) (it : FInventoryItem)
    (hok : StackOK it = true) : 0 ≤ slotSpace D it := by
  unfold slotSpace
  split
  · rename_i h
    simp only [holds, Bool.and_eq_true, decide_eq_true_eq] at h
    simp [StackOK, h.2, h.1] at hok
    omega
  · exact le_rfl

theorem stackSpace_nonneg (D : UInventoryItemData) (Items : List FInventoryItem)
    (hok : ∀ it ∈ Items, StackOK it = true) : 0 ≤ stackSpace D Items := by
  induction Items with
  | nil => simp
  | cons it rest ih =>
    have := holds_space_nonneg D it (hok it (List.mem_cons_self _ _))
    have := ih (fun x hx => hok x (List.mem_cons_of_mem _ hx))
    simp only [stackSpace_cons]
    omega

theorem foldl_weight (Items : List FInventoryItem) (a : ℚ) :
    Items.foldl (fun TotalWeight Item =>
      if Item.IsValid then TotalWeight + Item.GetTotalWeight else TotalWeight) a
      = a + weightOf Items := by
  induction Items generalizing a with
  | nil => simp
  | cons it rest ih =>
    simp only [List.foldl_cons, ih, weightOf_cons, slotWeight]
    split <;> ring

theorem GetCurrentWeight_eq (S : UInventoryComponent) :
    S.GetCurrentWeight = weightOf S.Items := by
  simp [GetCurrentWeight, foldl_weight]

theorem foldl_occupied (Items : List FInventoryItem) (a : Int) :
    Items.foldl (fun Count Item => if Item.IsValid then Count + 1 else Count) a
      = a + (Items.length : Int) - (emptyCount Items : Int) := by
  induction Items generalizing a with
  | nil => simp
  | cons it rest ih =>
    simp only [List.foldl_cons, ih, emptyCount_cons, List.length_cons]
    cases h : it.IsValid <;> simp <;> ring

theorem GetOccupiedSlots_eq (S : UInventoryComponent) :
    S.GetOccupiedSlots = (S.Items.length : Int) - (emptyCount S.Items : Int) := by
  simp [GetOccupiedSlots, foldl_occupied]

theorem RoundHalfEven_intCast (m : Int) : RoundHalfEven (m : ℚ) = m := by
  simp [RoundHalfEven]

theorem RoundHalfEven_ge (r : ℚ) : (⌊r⌋ : Int) ≤ RoundHalfEven r := by
  unfold RoundHalfEven
  split
  · exact le_rfl
  · split
    · omega
    · split <;> omega

theorem RoundHalfEven_le (r : ℚ) : RoundHalfEven r ≤ ⌊r⌋ + 1 := by
  unfold RoundHalfEven
  split
  · omega
  · split
    · omega
    · split <;> omega

/-- The rounded value is within one half of the argument. -/
theorem RoundHalfEven_abs (r : ℚ) :
    r - 1 / 2 ≤ (RoundHalfEven r : ℚ) ∧ (RoundHalfEven r : ℚ) ≤ r + 1 / 2 := by
  have h1 := Int.floor_le r
  have h2 := Int.lt_floor_add_one r
  unfold RoundHalfEven
  split
  · constructor <;> linarith
  · rename_i h
    split
    · push_cast
      constructor <;> linarith
    · rename_i h'
      split
      · constructor <;> linarith
      · push_cast
        constructor <;> linarith

theorem RoundHalfEven_mono {r s : ℚ} (h : r ≤ s) : RoundHalfEven r ≤ RoundHalfEven s := by
  have hf : ⌊r⌋ ≤ ⌊s⌋ := Int.floor_mono h
  rcases lt_or_eq_of_le hf with hlt | heq
  · exact le_trans (RoundHalfEven_le r) (le_trans (by omega) (RoundHalfEven_ge s))
  · unfold RoundHalfEven
    rw [← heq]
    have hd : r - (⌊r⌋ : ℚ) ≤ s - (⌊r⌋ : ℚ) := by linarith
    split
    · split
      · exact le_rfl
      · split
        · omega
        · split <;> omega
    · rename_i h1
      have h1' : ¬ s - (⌊r⌋ : ℚ) < 1 / 2 := by
        intro hc
        exact h1 (lt_of_le_of_lt hd hc)
      rw [if_neg h1']
      split
      · rename_i h2
        rw [if_pos (lt_of_lt_of_le h2 hd)]
      · split
        · split
          · omega
          · exact le_rfl
        · split
          · exact le_rfl
          · exact le_rfl

theorem RoundHalfEven_le_of_le {r : ℚ} {m : Int} (h : r ≤ (m : ℚ)) : RoundHalfEven r ≤ m := by
  have := RoundHalfEven_mono h
  rwa [RoundHalfEven_intCast] at this

theorem RoundHalfEven_ge_of_ge {r : ℚ} {m : Int} (h : (m : ℚ) ≤ r) : m ≤ RoundHalfEven r := by
  have := RoundHalfEven_mono h
  rwa [RoundHalfEven_intCast] at this


theorem two_zpow_pos (z : Int) : (0 : ℚ) < 2 ^ z := zpow_pos (by norm_num) z

theorem log_two_spec {x : ℚ} (hx : 0 < x) :
    (2 : ℚ) ^ Int.log 2 x ≤ x ∧ x < (2 : ℚ) ^ (Int.log 2 x + 1) := by
  have h1 := Int.zpow_log_le_self (b := 2) (r := x) (by norm_num) hx
  have h2 := Int.lt_zpow_succ_log_self (b := 2) (by norm_num) x
  simp only [Nat.cast_ofNat] at h1 h2
  exact ⟨h1, h2⟩

theorem log_two_eq {x : ℚ} (hx : 0 < x) (e : Int) (h1 : (2 : ℚ) ^ e ≤ x)
    (h2 : x < (2 : ℚ) ^ (e + 1)) : Int.log 2 x = e := by
  have a := (Int.zpow_le_iff_le_log (b := 2) (by norm_num) (x := e) hx).1
    (by simpa using h1)
  have b := (Int.lt_zpow_iff_log_lt (b := 2) (by norm_num) (x := e + 1) hx).1
    (by simpa using h2)
  omega

theorem RoundFloat_of_pos {x : ℚ} (hx : 0 < x) :
    RoundFloat x = (RoundHalfEven (x / 2 ^ (Int.log 2 x - 23)) : ℚ) * 2 ^ (Int.log 2 x - 23) := by
  unfold RoundFloat
  rw [if_neg hx.ne', abs_of_pos hx]

theorem scaled_bounds {x : ℚ} (hx : 0 < x) :
    ((2 ^ 23 : Int) : ℚ) ≤ x / 2 ^ (Int.log 2 x - 23) ∧
      x / 2 ^ (Int.log 2 x - 23) < ((2 ^ 24 : Int) : ℚ) := by
  obtain ⟨h1, h2⟩ := log_two_spec hx
  have hu := two_zpow_pos (Int.log 2 x - 23)
  have e1 : (2 : ℚ) ^ Int.log 2 x = 2 ^ 23 * 2 ^ (Int.log 2 x - 23) := by
    rw [show (2 : ℚ) ^ 23 = 2 ^ (23 : Int) by norm_cast, ← zpow_add₀ (by norm_num)]
    congr 1
    omega
  have e2 : (2 : ℚ) ^ (Int.log 2 x + 1) = 2 ^ 24 * 2 ^ (Int.log 2 x - 23) := by
    rw [show (2 : ℚ) ^ 24 = 2 ^ (24 : Int) by norm_cast, ← zpow_add₀ (by norm_num)]
    congr 1
    omega
  constructor
  · rw [le_div_iff₀ hu]
    have c : ((2 ^ 23 : Int) : ℚ) = 2 ^ 23 := by norm_num
    rw [c, ← e1]
    exact h1
  · rw [div_lt_iff₀ hu]
    have c : ((2 ^ 24 : Int) : ℚ) = 2 ^ 24 := by norm_num
    rw [c, ← e2]
    exact h2

/-- A positive number rounds to at least the power of two below it. -/
theorem RoundFloat_ge {x : ℚ} (hx : 0 < x) : (2 : ℚ) ^ Int.log 2 x ≤ RoundFloat x := by
  have hu := two_zpow_pos (Int.log 2 x - 23)
  have h := RoundHalfEven_ge_of_ge (scaled_bounds hx).1
  rw [RoundFloat_of_pos hx]
  have e1 : (2 : ℚ) ^ Int.log 2 x = 2 ^ 23 * 2 ^ (Int.log 2 x - 23) := by
    rw [show (2 : ℚ) ^ 23 = 2 ^ (23 : Int) by norm_cast, ← zpow_add₀ (by norm_num)]
    congr 1
    omega
  rw [e1]
  apply mul_le_mul_of_nonneg_right _ hu.le
  exact_mod_cast h

/-- A positive number rounds to at most the power of two above it. -/
theorem RoundFloat_le {x : ℚ} (hx : 0 < x) : RoundFloat x ≤ (2 : ℚ) ^ (Int.log 2 x + 1) := by
  have hu := two_zpow_pos (Int.log 2 x - 23)
  have h := RoundHalfEven_le_of_le (scaled_bounds hx).2.le
  rw [RoundFloat_of_pos hx]
  have e2 : (2 : ℚ) ^ (Int.log 2 x + 1) = 2 ^ 24 * 2 ^ (Int.log 2 x - 23) := by
    rw [show (2 : ℚ) ^ 24 = 2 ^ (24 : Int) by norm_cast, ← zpow_add₀ (by norm_num)]
    congr 1
    omega
  rw [e2]
  apply mul_le_mul_of_nonneg_right _ hu.le
  exact_mod_cast h

theorem RoundFloat_pos {x : ℚ} (hx : 0 < x) : 0 < RoundFloat x :=
  lt_of_lt_of_le (two_zpow_pos _) (RoundFloat_ge hx)

/-- Rounding to `float` is monotone on the positive numbers. -/
theorem RoundFloat_mono {x y : ℚ} (hx : 0 < x) (h : x ≤ y) : RoundFloat x ≤ RoundFloat y := by
  have hy : 0 < y := lt_of_lt_of_le hx h
  have hlog : Int.log 2 x ≤ Int.log 2 y := Int.log_mono_right hx h
  rcases lt_or_eq_of_le hlog with hlt | heq
  · refine le_trans (RoundFloat_le hx) (le_trans ?_ (RoundFloat_ge hy))
    exact zpow_le_zpow_right₀ (by norm_num) (by omega)
  · have hu := two_zpow_pos (Int.log 2 y - 23)
    rw [RoundFloat_of_pos hx, RoundFloat_of_pos hy, heq]
    apply mul_le_mul_of_nonneg_right _ hu.le
    have : x / 2 ^ (Int.log 2 y - 23) ≤ y / 2 ^ (Int.log 2 y - 23) :=
      div_le_div_of_nonneg_right h hu.le
    exact_mod_cast RoundHalfEven_mono this

/-- A number whose quotient by the unit in the last place is an integer is
not changed by the rounding. -/
theorem RoundFloat_exact {x : ℚ} (hx : 0 < x) (m : Int)
    (h : x / 2 ^ (Int.log 2 x - 23) = (m : ℚ)) : RoundFloat x = x := by
  have hu := two_zpow_pos (Int.log 2 x - 23)
  rw [RoundFloat_of_pos hx, h, RoundHalfEven_intCast, ← h, div_mul_cancel₀ _ hu.ne']

/-- The rounded value is within half a unit in the last place. -/
theorem RoundFloat_near {x : ℚ} (hx : 0 < x) :
    x - 2 ^ (Int.log 2 x - 23) / 2 ≤ RoundFloat x ∧
      RoundFloat x ≤ x + 2 ^ (Int.log 2 x - 23) / 2 := by
  have hu := two_zpow_pos (Int.log 2 x - 23)
  obtain ⟨h1, h2⟩ := RoundHalfEven_abs (x / 2 ^ (Int.log 2 x - 23))
  rw [RoundFloat_of_pos hx]
  have e : x = x / 2 ^ (Int.log 2 x - 23) * 2 ^ (Int.log 2 x - 23) :=
    (div_mul_cancel₀ _ hu.ne').symm
  constructor
  · have := mul_le_mul_of_nonneg_right h1 hu.le
    nlinarith
  · have := mul_le_mul_of_nonneg_right h2 hu.le
    nlinarith

/-- Every integer from 1 to `2^24` is a `float`. -/
theorem RoundFloat_intCast (n : Int) (h0 : 0 < n) (h1 : n ≤ 2 ^ 24) :
    RoundFloat (n : ℚ) = n := by
  have hx : (0 : ℚ) < (n : ℚ) := by exact_mod_cast h0
  obtain ⟨l1, l2⟩ := log_two_spec hx
  have he0 : 0 ≤ Int.log 2 (n : ℚ) := by
    have := (Int.zpow_le_iff_le_log (b := 2) (by norm_num) (x := 0) hx).1
      (by simpa using (by exact_mod_cast h0 : (1 : ℚ) ≤ (n : ℚ)))
    exact this
  have he1 : Int.log 2 (n : ℚ) ≤ 24 := by
    have : (n : ℚ) < (2 : ℚ) ^ ((24 : Int) + 1) := by
      have : (n : ℚ) ≤ 2 ^ 24 := by exact_mod_cast h1
      norm_num
      linarith
    have := (Int.lt_zpow_iff_log_lt (b := 2) (by norm_num) (x := 24 + 1) hx).1
      (by simpa using this)
    omega
  rcases lt_or_eq_of_le he1 with hlt | heq
  · apply RoundFloat_exact hx (n * 2 ^ (23 - Int.log 2 (n : ℚ)).toNat)
    have hu := two_zpow_pos (Int.log 2 (n : ℚ) - 23)
    rw [div_eq_iff hu.ne']
    push_cast
    rw [mul_assoc]
    have : (2 : ℚ) ^ (23 - Int.log 2 (n : ℚ)).toNat * 2 ^ (Int.log 2 (n : ℚ) - 23) = 1 := by
      rw [← zpow_natCast, ← zpow_add₀ (by norm_num)]
      have : ((23 - Int.log 2 (n : ℚ)).toNat : Int) + (Int.log 2 (n : ℚ) - 23) = 0 := by omega
      rw [this, zpow_zero]
    rw [this, mul_one]
  · apply RoundFloat_exact hx (2 ^ 23)
    rw [heq] at l1 ⊢
    have hn : (n : ℚ) = 2 ^ 24 := by
      have a : (n : ℚ) ≤ 2 ^ 24 := by exact_mod_cast h1
      have b : (2 : ℚ) ^ (24 : Int) = 2 ^ 24 := by norm_cast
      rw [b] at l1
      linarith
    rw [hn]
    norm_num


theorem RoundFloat_one : RoundFloat 1 = 1 := by
  have := RoundFloat_intCast 1 (by norm_num) (by norm_num)
  simpa using this

/-- The slot count of `CanAddItem` for a quantity that one stack takes. -/
theorem CeilToInt_FloatDiv_small (R M : Int) (hR : 0 < R) (hRM : R ≤ M) :
    CeilToInt (FloatDiv (IntToFloat R) (IntToFloat M)) = 1 := by
  have hRq : (0 : ℚ) < (R : ℚ) := by exact_mod_cast hR
  have hRMq : (R : ℚ) ≤ (M : ℚ) := by exact_mod_cast hRM
  have ha := RoundFloat_pos hRq
  have hab := RoundFloat_mono hRq hRMq
  have hb : 0 < RoundFloat (M : ℚ) := lt_of_lt_of_le ha hab
  have hz0 : 0 < RoundFloat (R : ℚ) / RoundFloat (M : ℚ) := div_pos ha hb
  have hz1 : RoundFloat (R : ℚ) / RoundFloat (M : ℚ) ≤ 1 := (div_le_one hb).2 hab
  have h1 := RoundFloat_mono hz0 hz1
  rw [RoundFloat_one] at h1
  have h0 := RoundFloat_pos hz0
  unfold CeilToInt FloatDiv IntToFloat
  rw [Int.ceil_eq_iff]
  constructor
  · simpa using h0
  · simpa using h1

theorem ceil_RoundFloat_div (R M : Int) (hR24 : R ≤ 2 ^ 24) (hM : 0 < M) (hlt : M < R) :
    ⌈RoundFloat ((R : ℚ) / (M : ℚ))⌉ = ⌈(R : ℚ) / (M : ℚ)⌉ := by
  have hMq : (0 : ℚ) < (M : ℚ) := by exact_mod_cast hM
  have hR : 0 < R := by omega
  have hRq : (0 : ℚ) < (R : ℚ) := by exact_mod_cast hR
  have hx1 : (1 : ℚ) < (R : ℚ) / (M : ℚ) := by
    rw [one_lt_div hMq]
    exact_mod_cast hlt
  have hx : (0 : ℚ) < (R : ℚ) / (M : ℚ) := by linarith
  have hxM : (R : ℚ) / (M : ℚ) * (M : ℚ) = (R : ℚ) := div_mul_cancel₀ _ hMq.ne'
  by_cases hdiv : M ∣ R
  · obtain ⟨k, hk⟩ := hdiv
    have hk0 : 0 < k := by
      by_contra hc
      have : M * k ≤ 0 := Int.mul_nonpos_of_nonneg_of_nonpos hM.le (by omega)
      omega
    have hk24 : k ≤ 2 ^ 24 := by nlinarith
    have e : (R : ℚ) / (M : ℚ) = (k : ℚ) := by
      rw [hk]
      push_cast
      field_simp
    rw [e, RoundFloat_intCast k hk0 hk24]
  · obtain ⟨l1, l2⟩ := log_two_spec hx
    have he0 : 0 ≤ Int.log 2 ((R : ℚ) / (M : ℚ)) :=
      (Int.zpow_le_iff_le_log (b := 2) (by norm_num) (x := 0) hx).1 (by simpa using hx1.le)
    have hk1 : ((⌈(R : ℚ) / (M : ℚ)⌉ - 1 : Int) : ℚ) < (R : ℚ) / (M : ℚ) :=
      Int.lt_ceil.1 (by omega)
    have hk2 : (R : ℚ) / (M : ℚ) ≤ (⌈(R : ℚ) / (M : ℚ)⌉ : ℚ) := Int.le_ceil _
    have hk1' : (⌈(R : ℚ) / (M : ℚ)⌉ - 1) * M < R := by
      have := (lt_div_iff₀ hMq).1 hk1
      exact_mod_cast this
    have hk2' : R ≤ ⌈(R : ℚ) / (M : ℚ)⌉ * M := by
      have := (div_le_iff₀ hMq).1 hk2
      exact_mod_cast this
    have hne : R ≠ ⌈(R : ℚ) / (M : ℚ)⌉ * M := by
      intro h
      exact hdiv ⟨⌈(R : ℚ) / (M : ℚ)⌉, by rw [mul_comm]; exact h⟩
    have hstrict : (2 : ℚ) ^ Int.log 2 ((R : ℚ) / (M : ℚ)) < (R : ℚ) / (M : ℚ) := by
      rcases lt_or_eq_of_le l1 with h | h
      · exact h
      · exfalso
        apply hdiv
        refine ⟨2 ^ (Int.log 2 ((R : ℚ) / (M : ℚ))).toNat, ?_⟩
        have e1 : (2 : ℚ) ^ Int.log 2 ((R : ℚ) / (M : ℚ))
            = ((2 ^ (Int.log 2 ((R : ℚ) / (M : ℚ))).toNat : Int) : ℚ) := by
          push_cast
          rw [← zpow_natCast]
          congr 1
          omega
        have e2 : (R : ℚ) = (M : ℚ) * ((2 ^ (Int.log 2 ((R : ℚ) / (M : ℚ))).toNat : Int) : ℚ) := by
          rw [← e1, h, mul_comm]
          exact hxM.symm
        exact_mod_cast e2
    have hu := two_zpow_pos (Int.log 2 ((R : ℚ) / (M : ℚ)) - 23)
    have hue : (2 : ℚ) ^ Int.log 2 ((R : ℚ) / (M : ℚ))
        = 2 ^ 23 * 2 ^ (Int.log 2 ((R : ℚ) / (M : ℚ)) - 23) := by
      rw [show (2 : ℚ) ^ 23 = 2 ^ (23 : Int) by norm_cast, ← zpow_add₀ (by norm_num)]
      congr 1
      omega
    have huM : 2 ^ (Int.log 2 ((R : ℚ) / (M : ℚ)) - 23) * (M : ℚ) < 2 := by
      have h1 : (2 : ℚ) ^ Int.log 2 ((R : ℚ) / (M : ℚ)) * (M : ℚ) < (R : ℚ) := by
        have := mul_lt_mul_of_pos_right hstrict hMq
        rwa [hxM] at this
      have h2 : (R : ℚ) ≤ 2 ^ 24 := by exact_mod_cast hR24
      rw [hue] at h1
      nlinarith
    obtain ⟨n1, n2⟩ := RoundFloat_near hx
    have c1 : ((⌈(R : ℚ) / (M : ℚ)⌉ - 1 : Int) : ℚ) * (M : ℚ) + 1 ≤ (R : ℚ) := by
      have : (⌈(R : ℚ) / (M : ℚ)⌉ - 1) * M + 1 ≤ R := by omega
      exact_mod_cast this
    have c2 : (R : ℚ) + 1 ≤ (⌈(R : ℚ) / (M : ℚ)⌉ : ℚ) * (M : ℚ) := by
      have : R + 1 ≤ ⌈(R : ℚ) / (M : ℚ)⌉ * M := by omega
      exact_mod_cast this
    rw [Int.ceil_eq_iff]
    constructor
    · by_contra hcon
      push_neg at hcon
      have hle : (R : ℚ) / (M : ℚ) - 2 ^ (Int.log 2 ((R : ℚ) / (M : ℚ)) - 23) / 2
          ≤ (⌈(R : ℚ) / (M : ℚ)⌉ : ℚ) - 1 := le_trans n1 hcon
      have := mul_le_mul_of_nonneg_right hle hMq.le
      push_cast at c1
      nlinarith
    · by_contra hcon
      push_neg at hcon
      have hle : (⌈(R : ℚ) / (M : ℚ)⌉ : ℚ)
          < (R : ℚ) / (M : ℚ) + 2 ^ (Int.log 2 ((R : ℚ) / (M : ℚ)) - 23) / 2 :=
        lt_of_lt_of_le hcon n2
      have := mul_lt_mul_of_pos_right hle hMq
      nlinarith

/-- The slot count of `CanAddItem` is the exact one for a remaining quantity up
to `2^24` and for one that a single stack takes. -/
theorem CeilToInt_FloatDiv_eq (R M : Int) (hR : 0 < R) (hM : 1 ≤ M)
    (hb : R ≤ 2 ^ 24 ∨ R ≤ M) :
    CeilToInt (FloatDiv (IntToFloat R) (IntToFloat M)) = ⌈(R : ℚ) / (M : ℚ)⌉ := by
  have hRq : (0 : ℚ) < (R : ℚ) := by exact_mod_cast hR
  have hMq : (0 : ℚ) < (M : ℚ) := by exact_mod_cast (by omega : 0 < M)
  by_cases hRM : R ≤ M
  · rw [CeilToInt_FloatDiv_small R M hR hRM, eq_comm, Int.ceil_eq_iff]
    constructor
    · simpa using div_pos hRq hMq
    · have : (R : ℚ) ≤ (M : ℚ) := by exact_mod_cast hRM
      simpa using (div_le_one hMq).2 this
  · have hR24 : R ≤ 2 ^ 24 := by
      rcases hb with h | h
      · exact h
      · exact absurd h hRM
    unfold CeilToInt FloatDiv IntToFloat
    rw [RoundFloat_intCast R hR hR24, RoundFloat_intCast M (by omega) (by omega)]
    exact ceil_RoundFloat_div R M hR24 (by omega) (by omega)


/-- The integer `2^24 + 1` is not a `float`: its conversion gives `2^24`. -/
theorem IntToFloat_16777217 : IntToFloat 16777217 = 16777216 := by
  have hx : (0 : ℚ) < ((16777217 : Int) : ℚ) := by norm_num
  have hlog : Int.log 2 ((16777217 : Int) : ℚ) = 24 :=
    log_two_eq hx 24 (by norm_num) (by norm_num)
  have hfl : ⌊((16777217 : Int) : ℚ) / 2 ^ ((24 : Int) - 23)⌋ = 8388608 := by
    rw [Int.floor_eq_iff]
    norm_num
  unfold IntToFloat
  rw [RoundFloat_of_pos hx, hlog]
  unfold RoundHalfEven
  rw [hfl]
  norm_num

theorem CeilToInt_FloatDiv_16777217 :
    CeilToInt (FloatDiv (IntToFloat 16777217) (IntToFloat 16777216)) = 1 := by
  have h2 : IntToFloat 16777216 = 16777216 := by
    have := RoundFloat_intCast 16777216 (by norm_num) (by norm_num)
    simpa [IntToFloat] using this
  rw [IntToFloat_16777217, h2]
  unfold FloatDiv CeilToInt
  rw [div_self (by norm_num), RoundFloat_one]
  simp

theorem ceil_div_le (R M E : Int) (hM : 0 < M) :
    Int.ceil ((R : ℚ) / (M : ℚ)) ≤ E ↔ R ≤ E * M := by
  rw [Int.ceil_le, div_le_iff₀ (by exact_mod_cast hM)]
  exact_mod_cast Iff.rfl

/-- The slot check with the slot count written exactly, for a remaining
quantity up to `2^24` or one that a single stack takes. -/
theorem CanAddItemSlots_eq (S : UInventoryComponent) (D : UInventoryItemData) (R : Int)
    (hM : 1 ≤ D.MaxStackSize) (hR : 0 < R) (hb : R ≤ 2 ^ 24 ∨ R ≤ D.MaxStackSize) :
    CanAddItemSlots S D R
      = decide (S.MaxSlots - S.GetOccupiedSlots ≥ ⌈(R : ℚ) / (D.MaxStackSize : ℚ)⌉) := by
  simp only [CanAddItemSlots, CeilToInt_FloatDiv_eq R D.MaxStackSize hR hM hb]

theorem CanAddItemSlots_iff (S : UInventoryComponent) (D : UInventoryItemData) (R : Int)
    (hlen : (S.Items.length : Int) = S.MaxSlots) (hM : 1 ≤ D.MaxStackSize) (hR : 0 < R)
    (hb : R ≤ 2 ^ 24 ∨ R ≤ D.MaxStackSize) :
    CanAddItemSlots S D R = true ↔ R ≤ (emptyCount S.Items : Int) * D.MaxStackSize := by
  rw [CanAddItemSlots_eq S D R hM hR hb]
  simp only [GetOccupiedSlots_eq, ← hlen, decide_eq_true_eq, ge_iff_le]
  rw [ceil_div_le _ _ _ (by omega)]
  simp

theorem CanAddItemLoop_eq (D : UInventoryItemData) (Items : List FInventoryItem)
    (hok : ∀ it ∈ Items, StackOK it = true) (q : Int) (hq : 0 < q) :
    CanAddItemLoop D Items q =
      if q ≤ stackSpace D Items then none else some (q - stackSpace D Items) := by
  induction Items generalizing q with
  | nil => simp [CanAddItemLoop, hq]
  | cons it rest ih =>
    have hrest : ∀ it ∈ rest, StackOK it = true := fun x hx => hok x (List.mem_cons_of_mem _ hx)
    have hsp := holds_space_nonneg D it (hok it (List.mem_cons_self _ _))
    have hnn := stackSpace_nonneg D rest hrest
    simp only [CanAddItemLoop, stackSpace_cons]
    by_cases hc : holds D it = true
    · have hc2 : (it.IsValid && decide (it.ItemData = some D)) = true := hc
      have hs : slotSpace D it = D.MaxStackSize - it.Quantity := by simp [slotSpace, hc]
      simp only [hc2, if_true]
      rw [← hs]
      by_cases h1 : q - slotSpace D it ≤ 0
      · rw [if_pos h1, if_pos (by omega)]
      · rw [if_neg h1, ih hrest _ (by omega)]
        split <;> split <;> first | rfl | omega | (congr 1; omega)
    · have hc2 : ¬ (it.IsValid && decide (it.ItemData = some D)) = true := hc
      have hs : slotSpace D it = 0 := by simp [slotSpace, hc]
      simp only [hc2, if_false]
      rw [ih hrest _ hq, hs]
      simp

theorem slotWeight_holds (D : UInventoryItemData) (it : FInventoryItem) (h : holds D it = true) :
    slotWeight it = D.Weight * (it.Quantity : ℚ) := by
  simp only [holds, Bool.and_eq_true, decide_eq_true_eq] at h
  simp [slotWeight, h.1, FInventoryItem.GetTotalWeight, h.2]

theorem TryStackItemFrom_spec (D : UInventoryItemData) (Items : List FInventoryItem)
    (hok : ∀ it ∈ Items, StackOK it = true) (i q out : Int) (b : Bool) (hq : 0 ≤ q) :
    (TryStackItemFrom D Items i q out b).Quantity = max 0 (q - stackSpace D Items) ∧
    emptyCount (TryStackItemFrom D Items i q out b).Items = emptyCount Items ∧
    (TryStackItemFrom D Items i q out b).Items.length = Items.length ∧
    weightOf (TryStackItemFrom D Items i q out b).Items =
      weightOf Items + D.Weight * ((q - (TryStackItemFrom D Items i q out b).Quantity : Int) : ℚ) ∧
    (∀ it ∈ (TryStackItemFrom D Items i q out b).Items, StackOK it = true) := by
  induction Items generalizing i q out b with
  | nil => simp [TryStackItemFrom, hq]
  | cons it rest ih =>
    have hrest : ∀ it ∈ rest, StackOK it = true := fun x hx => hok x (List.mem_cons_of_mem _ hx)
    have hitok := hok it (List.mem_cons_self _ _)
    have hsp := holds_space_nonneg D it hitok
    have hnn := stackSpace_nonneg D rest hrest
    by_cases hq0 : 0 < q
    · by_cases hc : holds D it = true
      · have hc2 : (it.IsValid && decide (it.ItemData = some D)) = true := hc
        have hs : slotSpace D it = D.MaxStackSize - it.Quantity := by simp [slotSpace, hc]
        by_cases hpos : 0 < D.MaxStackSize - it.Quantity
        · obtain ⟨h1, h2, h3, h4, h5⟩ :=
            ih hrest (i + 1) (q - min (D.MaxStackSize - it.Quantity) q) i true (by omega)
          have hv : holds D { it with Quantity := it.Quantity + min (D.MaxStackSize - it.Quantity) q }
              = true := by
            simp only [holds, Bool.and_eq_true, decide_eq_true_eq, FInventoryItem.IsValid] at hc ⊢
            refine ⟨⟨hc.1.1, ?_⟩, hc.2⟩
            have := hc.1.2
            omega
          have hv1 : FInventoryItem.IsValid
              { it with Quantity := it.Quantity + min (D.MaxStackSize - it.Quantity) q } = true := by
            simp only [holds, Bool.and_eq_true] at hv
            exact hv.1
          have hitv : it.IsValid = true := by
            simp only [holds, Bool.and_eq_true] at hc
            exact hc.1
          simp only [TryStackItemFrom, hq0, hc2, hpos, if_true, stackSpace_cons, hs]
          refine ⟨?_, ?_, ?_, ?_, ?_⟩
          · rw [h1]; omega
          · simp [emptyCount_cons, h2, hv1, hitv]
          · simp [h3]
          · rw [weightOf_cons, weightOf_cons, h4, slotWeight_holds D _ hv, slotWeight_holds D _ hc]
            push_cast
            ring
          · intro x hx
            rcases List.mem_cons.1 hx with rfl | hx
            · simp only [holds, Bool.and_eq_true, decide_eq_true_eq] at hc
              simp only [StackOK, hc.2, Bool.or_eq_true, decide_eq_true_eq]
              right
              omega
            · exact h5 x hx
        · obtain ⟨h1, h2, h3, h4, h5⟩ := ih hrest (i + 1) q out b hq
          simp only [TryStackItemFrom, hq0, hc2, hpos, if_true, if_false, stackSpace_cons, hs]
          refine ⟨?_, ?_, ?_, ?_, ?_⟩
          · rw [h1]; omega
          · simp [emptyCount_cons, h2]
          · simp [h3]
          · rw [weightOf_cons, weightOf_cons, h4]; ring
          · intro x hx
            rcases List.mem_cons.1 hx with rfl | hx
            · exact hitok
            · exact h5 x hx
      · have hc2 : (it.IsValid && decide (it.ItemData = some D)) = false := by
          simpa [holds] using hc
        have hs : slotSpace D it = 0 := by simp [slotSpace, hc]
        obtain ⟨h1, h2, h3, h4, h5⟩ := ih hrest (i + 1) q out b hq
        simp only [TryStackItemFrom, hq0, hc2, if_true, if_false, Bool.false_eq_true,
          stackSpace_cons, hs]
        refine ⟨?_, ?_, ?_, ?_, ?_⟩
        · rw [h1]; simp
        · simp [emptyCount_cons, h2]
        · simp [h3]
        · rw [weightOf_cons, weightOf_cons, h4]; ring
        · intro x hx
          rcases List.mem_cons.1 hx with rfl | hx
          · exact hitok
          · exact h5 x hx
    · have hq1 : q = 0 := by omega
      subst hq1
      simp only [TryStackItemFrom, lt_irrefl, if_false, stackSpace_cons]
      refine ⟨by omega, trivial, trivial, by simp, hok⟩

theorem fillEmpty_nonpos (D : UInventoryItemData) (Items : List FInventoryItem) (R : Int)
    (g : FGuid) (hR : R ≤ 0) : fillEmpty D Items R g = Items := by
  induction Items generalizing g with
  | nil => rfl
  | cons it rest ih =>
    have : ¬ (0 < R) := by omega
    simp [fillEmpty, this, ih]

theorem fillOut_nonpos (D : UInventoryItemData) (Items : List FInventoryItem) (i R out : Int)
    (hR : R ≤ 0) : fillOut D Items i R out = out := by
  induction Items generalizing i with
  | nil => rfl
  | cons it rest ih =>
    have : ¬ (0 < R) := by omega
    simp [fillOut, this, ih]

theorem fillEmpty_append_valid (D : UInventoryItemData) (pre l : List FInventoryItem)
    (R : Int) (g : FGuid) (hpre : ∀ x ∈ pre, x.IsValid = true) :
    fillEmpty D (pre ++ l) R g = pre ++ fillEmpty D l R g := by
  induction pre with
  | nil => rfl
  | cons x pre ih =>
    have hx := hpre x (List.mem_cons_self _ _)
    simp [fillEmpty, hx, ih (fun y hy => hpre y (List.mem_cons_of_mem _ hy))]

theorem fillOut_append_valid (D : UInventoryItemData) (pre l : List FInventoryItem)
    (i R out : Int) (hpre : ∀ x ∈ pre, x.IsValid = true) :
    fillOut D (pre ++ l) i R out = fillOut D l (i + pre.length) R out := by
  induction pre generalizing i with
  | nil => simp
  | cons x pre ih =>
    have hx := hpre x (List.mem_cons_self _ _)
    have e := ih (i + 1) (fun y hy => hpre y (List.mem_cons_of_mem _ hy))
    have e2 : i + 1 + (pre.length : Int) = i + ((pre.length + 1 : Nat) : Int) := by
      push_cast
      ring
    rw [e2] at e
    rw [List.cons_append, fillOut]
    simp only [hx, Bool.true_eq_false, and_false, if_false, List.length_cons]
    exact e

theorem FindEmptySlotFrom_spec (Items : List FInventoryItem) (i : Int) :
    ((∀ x ∈ Items, x.IsValid = true) ∧ FindEmptySlotFrom Items i = -1) ∨
    ∃ pre it post, Items = pre ++ it :: post ∧ (∀ x ∈ pre, x.IsValid = true) ∧
      it.IsValid = false ∧ FindEmptySlotFrom Items i = i + pre.length := by
  induction Items generalizing i with
  | nil => left; simp [FindEmptySlotFrom]
  | cons x rest ih =>
    cases hx : x.IsValid with
    | false =>
      right
      exact ⟨[], x, rest, rfl, by simp, hx, by simp [FindEmptySlotFrom, hx]⟩
    | true =>
      rcases ih (i + 1) with ⟨h1, h2⟩ | ⟨pre, it, post, h1, h2, h3, h4⟩
      · left
        refine ⟨?_, by simp [FindEmptySlotFrom, hx, h2]⟩
        intro y hy
        rcases List.mem_cons.1 hy with rfl | hy
        · exact hx
        · exact h1 y hy
      · right
        refine ⟨x :: pre, it, post, by simp [h1], ?_, h3, ?_⟩
        · intro y hy
          rcases List.mem_cons.1 hy with rfl | hy
          · exact hx
          · exact h2 y hy
        · simp only [FindEmptySlotFrom, hx, Bool.not_true, Bool.false_eq_true, if_false, h4,
            List.length_cons]
          push_cast
          ring

theorem emptyCount_append (l₁ l₂ : List FInventoryItem) :
    emptyCount (l₁ ++ l₂) = emptyCount l₁ + emptyCount l₂ := by
  simp [emptyCount]

theorem emptyCount_valid (l : List FInventoryItem) (h : ∀ x ∈ l, x.IsValid = true) :
    emptyCount l = 0 := by
  simp only [emptyCount, List.countP_eq_zero]
  intro x hx
  simp [h x hx]

theorem set_append_mid (pre post : List FInventoryItem) (it new : FInventoryItem) :
    (pre ++ it :: post).set pre.length new = pre ++ new :: post := by
  induction pre with
  | nil => rfl
  | cons x pre ih => simp [ih]

theorem mk2_valid (D : UInventoryItemData) (n : Int) (g : FGuid) (hn : 0 < n) :
    (FInventoryItem.mk2 (some D) n g).IsValid = true := by
  simp [FInventoryItem.mk2, FInventoryItem.IsValid, hn]

theorem AddItemLoop_spec (D : UInventoryItemData) (hM : 1 ≤ D.MaxStackSize) (fuel : Nat) :
    ∀ (S : UInventoryComponent) (R out : Int), 0 ≤ R →
      R ≤ (emptyCount S.Items : Int) * D.MaxStackSize → R.toNat ≤ fuel →
      ∃ S1, AddItemLoop D fuel S R out = some (true, fillOut D S.Items 0 R out, S1) ∧
        S1.Items = fillEmpty D S.Items R S.NextGuid ∧
        S1.MaxSlots = S.MaxSlots ∧ S1.MaxWeight = S.MaxWeight := by
  induction fuel with
  | zero =>
    intro S R out h0 _ hf
    have : R = 0 := by omega
    subst this
    refine ⟨S, ?_, ?_, rfl, rfl⟩
    · unfold AddItemLoop
      simp [fillOut_nonpos]
    · simp [fillEmpty_nonpos]
  | succ f ih =>
    intro S R out h0 hE hf
    by_cases hR : 0 < R
    · have hEpos : 0 < emptyCount S.Items := by
        by_contra hcon
        have : emptyCount S.Items = 0 := by omega
        rw [this] at hE
        simp at hE
        omega
      rcases FindEmptySlotFrom_spec S.Items 0 with ⟨h1, _⟩ | ⟨pre, it, post, h1, h2, h3, h4⟩
      · rw [emptyCount_valid _ h1] at hEpos
        omega
      · have hfind : S.FindEmptySlot = (pre.length : Int) := by
          simp [FindEmptySlot, h4]
        have hne : ¬ ((pre.length : Int) = -1) := by omega
        have hcount : emptyCount S.Items = emptyCount post + 1 := by
          rw [h1, emptyCount_append, emptyCount_valid _ h2, emptyCount_cons]
          simp [h3]
        have hmin : 0 < min R D.MaxStackSize := by
          simp only [lt_min_iff]
          omega
        have hR' : R - min R D.MaxStackSize ≤ (emptyCount post : Int) * D.MaxStackSize := by
          rw [hcount] at hE
          push_cast at hE
          rcases le_total R D.MaxStackSize with hle | hle
          · rw [min_eq_left hle]
            have : (0:Int) ≤ (emptyCount post : Int) * D.MaxStackSize :=
              mul_nonneg (by omega) (by omega)
            omega
          · rw [min_eq_right hle]
            linarith
        have hnewv := mk2_valid D (min R D.MaxStackSize) S.NextGuid hmin
        obtain ⟨S1, e1, e2, e3, e4⟩ := ih
          { S with Items := S.Items.set (pre.length : Int).toNat
                      (FInventoryItem.mk2 (some D) (min R D.MaxStackSize) S.NextGuid),
                   NextGuid := S.NextGuid + 1,
                   Broadcasts := S.Broadcasts ++
                     [Notification.InventoryUpdated (pre.length : Int)
                       (FInventoryItem.mk2 (some D) (min R D.MaxStackSize) S.NextGuid)] }
          (R - min R D.MaxStackSize) (pre.length : Int) (by omega)
          (by
            simp only [Int.toNat_ofNat, h1, set_append_mid, emptyCount_append,
              emptyCount_valid _ h2, emptyCount_cons, hnewv]
            simpa using hR')
          (by omega)
        refine ⟨S1, ?_, ?_, e3, e4⟩
        · rw [AddItemLoop]
          simp only [hR, if_true, hfind, hne, if_false]
          rw [e1]
          simp only [Int.toNat_ofNat, h1, set_append_mid]
          rw [fillOut_append_valid _ _ _ _ _ _ h2, fillOut_append_valid _ _ _ _ _ _ h2]
          simp [fillOut, hR, h3, hnewv]
        · rw [e2]
          simp only [Int.toNat_ofNat, h1, set_append_mid]
          rw [fillEmpty_append_valid _ _ _ _ _ h2, fillEmpty_append_valid _ _ _ _ _ h2]
          simp [fillEmpty, hR, h3, hnewv]
    · have : R = 0 := by omega
      subst this
      refine ⟨S, ?_, ?_, rfl, rfl⟩
      · unfold AddItemLoop
        simp [fillOut_nonpos]
      · simp [fillEmpty_nonpos]

theorem slotWeight_invalid (it : FInventoryItem) (h : it.IsValid = false) : slotWeight it = 0 := by
  simp [slotWeight, h]

theorem weightOf_fillEmpty (D : UInventoryItemData) (hM : 1 ≤ D.MaxStackSize)
    (Items : List FInventoryItem) (R : Int) (g : FGuid) (h0 : 0 ≤ R)
    (hE : R ≤ (emptyCount Items : Int) * D.MaxStackSize) :
    weightOf (fillEmpty D Items R g) = weightOf Items + D.Weight * (R : ℚ) := by
  induction Items generalizing R g with
  | nil =>
    have : R = 0 := by
      simp at hE
      omega
    simp [fillEmpty, this]
  | cons it rest ih =>
    by_cases hc : 0 < R ∧ it.IsValid = false
    · have hmin : 0 < min R D.MaxStackSize := by
        simp only [lt_min_iff]
        omega
      have hR' : R - min R D.MaxStackSize ≤ (emptyCount rest : Int) * D.MaxStackSize := by
        rw [emptyCount_cons] at hE
        simp only [hc.2, Bool.false_eq_true, if_false] at hE
        push_cast at hE
        rcases le_total R D.MaxStackSize with hle | hle
        · rw [min_eq_left hle]
          have : (0:Int) ≤ (emptyCount rest : Int) * D.MaxStackSize :=
            mul_nonneg (by omega) (by omega)
          omega
        · rw [min_eq_right hle]
          linarith
      have hh : holds D (FInventoryItem.mk2 (some D) (min R D.MaxStackSize) g) = true := by
        have hv := mk2_valid D _ g hmin
        simp only [holds, hv, Bool.true_and, decide_eq_true_eq]
        rfl
      rw [fillEmpty, if_pos hc, weightOf_cons, weightOf_cons, ih _ _ (by omega) hR',
        slotWeight_holds D _ hh, slotWeight_invalid it hc.2]
      simp only [FInventoryItem.mk2]
      push_cast
      ring
    · rw [fillEmpty, if_neg hc, weightOf_cons, weightOf_cons]
      by_cases hR : 0 < R
      · have hv : it.IsValid = true := by
          cases h : it.IsValid
          · exact absurd ⟨hR, h⟩ hc
          · rfl
        rw [ih _ _ h0 (by simpa [emptyCount_cons, hv] using hE)]
        ring
      · have : R = 0 := by omega
        subst this
        simp [fillEmpty_nonpos]

theorem CanAddItem_pos (S : UInventoryComponent) (D : Option UInventoryItemData) (q : Int)
    (h : S.CanAddItem D q = true) : 0 < q ∧ D.isSome = true := by
  cases D with
  | none => simp [CanAddItem] at h
  | some D =>
    by_cases hq : q ≤ 0
    · simp [CanAddItem, hq] at h
    · exact ⟨by omega, rfl⟩

/-- What `CanAddItem` leaves for the empty slots: the quantity beyond the room
in the existing stacks of `D` (none when `D` does not stack).  The quantity is
at most `2^24`, or at most `MaxStackSize`, so that the slot count is exact. -/
theorem CanAddItem_room (S : UInventoryComponent) (D : UInventoryItemData) (q : Int)
    (hinv : StoreInv S) (hM : 1 ≤ D.MaxStackSize) (hb : q ≤ 2 ^ 24 ∨ q ≤ D.MaxStackSize)
    (h : S.CanAddItem (some D) q = true) :
    q - (if 1 < D.MaxStackSize then stackSpace D S.Items else 0)
      ≤ (emptyCount S.Items : Int) * D.MaxStackSize := by
  have hq := (CanAddItem_pos S _ q h).1
  have hq' : ¬ q ≤ 0 := by omega
  have hnn := stackSpace_nonneg D S.Items hinv.2
  have hEM : (0:Int) ≤ (emptyCount S.Items : Int) * D.MaxStackSize :=
    mul_nonneg (by omega) (by omega)
  simp only [CanAddItem, hq', if_false] at h
  split at h
  · simp at h
  · by_cases h1 : 1 < D.MaxStackSize
    · simp only [h1, if_true] at h ⊢
      rw [CanAddItemLoop_eq D S.Items hinv.2 q hq] at h
      by_cases h2 : q ≤ stackSpace D S.Items
      · omega
      · simp only [h2, if_false] at h
        exact (CanAddItemSlots_iff S D _ hinv.1 hM (by omega) (by omega)).1 h
    · simp only [h1, if_false] at h ⊢
      simpa using (CanAddItemSlots_iff S D _ hinv.1 hM hq hb).1 h

/-- The slot conditions of `CanAddItem` are sufficient: with the store
invariants, a positive quantity within the weight limit that fits the room in
the stacks of `D` and the empty slots is accepted, when it is at most `2^24`
or at most `MaxStackSize`. -/
theorem CanAddItem_of_room (S : UInventoryComponent) (d : UInventoryItemData) (q : Int)
    (hinv : StoreInv S) (hM1 : 1 ≤ d.MaxStackSize) (hq0 : 0 < q)
    (hb : q ≤ 2 ^ 24 ∨ q ≤ d.MaxStackSize)
    (hw2 : S.MaxWeight ≤ 0 ∨ S.GetCurrentWeight + d.Weight * (q : ℚ) ≤ S.MaxWeight)
    (hroom : q ≤ (if 1 < d.MaxStackSize then stackSpace d S.Items else 0)
              + (emptyCount S.Items : Int) * d.MaxStackSize) :
    S.CanAddItem (some d) q = true := by
  have hnn := stackSpace_nonneg d S.Items hinv.2
  have hq : ¬ q ≤ 0 := by omega
  have hw : ¬ (0 < S.MaxWeight ∧ S.GetCurrentWeight + d.Weight * (q : ℚ) > S.MaxWeight) := by
    rintro ⟨h1, h2⟩
    rcases hw2 with h | h
    · exact absurd h1 (not_lt.2 h)
    · exact absurd h2 (not_lt.2 h)
  simp only [CanAddItem, hq, if_false, hw]
  by_cases h1 : 1 < d.MaxStackSize
  · simp only [h1, if_true] at hroom ⊢
    rw [CanAddItemLoop_eq d S.Items hinv.2 q hq0]
    by_cases h2 : q ≤ stackSpace d S.Items
    · simp only [h2, if_true]
    · simp only [h2, if_false]
      rw [CanAddItemSlots_iff S d _ hinv.1 hM1 (by omega) (by omega)]
      omega
  · simp only [h1, if_false] at hroom ⊢
    rw [CanAddItemSlots_iff S d _ hinv.1 hM1 hq0 hb]
    omega

/-- In a store that satisfies the store invariants, for a definition with
`MaxStackSize ≥ 1`: an `AddItem(D, q)` that `CanAddItem` lets through and whose
quantity fits the room in the stacks of `D` and the empty slots returns true
(for every bound on the while loop of at least `q` iterations), and
`GetCurrentWeight` afterwards is the weight before plus `D.Weight * q`. -/
theorem AddItem_of_room (S : UInventoryComponent) (D : UInventoryItemData)
    (q out : Int) (fuel : Nat) (hinv : StoreInv S) (hM : 1 ≤ D.MaxStackSize)
    (hcan : S.CanAddItem (some D) q = true)
    (hroom : q - (if 1 < D.MaxStackSize then stackSpace D S.Items else 0)
      ≤ (emptyCount S.Items : Int) * D.MaxStackSize)
    (hfuel : q.toNat ≤ fuel) :
    ∃ slot S1, AddItem fuel S (some D) q out = some (true, slot, S1) ∧
      S1.GetCurrentWeight = S.GetCurrentWeight + D.Weight * (q : ℚ) := by
  have hq := (CanAddItem_pos S _ q hcan).1
  have hq' : ¬ q ≤ 0 := by omega
  have hnn := stackSpace_nonneg D S.Items hinv.2
  have hEM : (0:Int) ≤ (emptyCount S.Items : Int) * D.MaxStackSize :=
    mul_nonneg (by omega) (by omega)
  simp only [AddItem, hq', if_false, hcan, Bool.not_true, Bool.false_eq_true]
  by_cases h1 : 1 < D.MaxStackSize
  · simp only [h1, if_true] at hroom ⊢
    obtain ⟨t1, t2, t3, t4, t5⟩ := TryStackItemFrom_spec D S.Items hinv.2 0 q out false (by omega)
    simp only [TryStackItem]
    split
    · refine ⟨_, _, rfl, ?_⟩
      rename_i hb
      simp only [Bool.and_eq_true, decide_eq_true_eq] at hb
      rw [GetCurrentWeight_eq, GetCurrentWeight_eq, t4]
      have : (TryStackItemFrom D S.Items 0 q out false).Quantity = 0 := by
        have := hb.2
        rw [t1] at this ⊢
        omega
      rw [this]
      simp
    · obtain ⟨S1, e1, e2, e3, e4⟩ := AddItemLoop_spec D hM fuel
        { S with Items := (TryStackItemFrom D S.Items 0 q out false).Items,
                 Broadcasts := S.Broadcasts ++ (TryStackItemFrom D S.Items 0 q out false).Broadcasts }
        (TryStackItemFrom D S.Items 0 q out false).Quantity
        (TryStackItemFrom D S.Items 0 q out false).OutSlotIndex
        (by rw [t1]; omega) (by simp only [t2]; rw [t1]; omega) (by rw [t1]; omega)
      refine ⟨_, S1, e1, ?_⟩
      rw [GetCurrentWeight_eq, GetCurrentWeight_eq, e2,
        weightOf_fillEmpty D hM _ _ _ (by rw [t1]; omega) (by simp only [t2]; rw [t1]; omega), t4]
      push_cast
      ring
  · simp only [h1, if_false] at hroom ⊢
    obtain ⟨S1, e1, e2, e3, e4⟩ := AddItemLoop_spec D hM fuel S q out (by omega)
      (by simpa using hroom) hfuel
    refine ⟨_, S1, e1, ?_⟩
    rw [GetCurrentWeight_eq, GetCurrentWeight_eq, e2,
      weightOf_fillEmpty D hM _ _ _ (by omega) (by simpa using hroom)]

theorem exPartial2_inv : StoreInv exPartial2 := by
  refine ⟨by decide, ?_⟩
  decide

theorem exPartial2_can : exPartial2.CanAddItem (some exD) 5 = true :=
  CanAddItem_of_room exPartial2 exD 5 exPartial2_inv (by decide) (by decide)
    (Or.inl (by norm_num)) (Or.inl (by simp [exPartial2])) (by decide)

theorem fillEmpty_getElem? (D : UInventoryItemData) (hM : 1 ≤ D.MaxStackSize)
    (Items : List FInventoryItem) (R : Int) (g : FGuid) (i : Nat) :
    (fillEmpty D Items R g)[i]? =
      (Items[i]?).map (fun it =>
        if it.IsValid = false ∧ (emptyCount (Items.take i) : Int) * D.MaxStackSize < R then
          newStack D R g (emptyCount (Items.take i))
        else it) := by
  induction Items generalizing R g i with
  | nil => simp [fillEmpty]
  | cons it rest ih =>
    cases i with
    | zero =>
      by_cases hc : 0 < R ∧ it.IsValid = false
      · simp [fillEmpty, hc, newStack]
      · rw [fillEmpty, if_neg hc]
        have : ¬ (it.IsValid = false ∧ 0 < R) := fun h => hc ⟨h.2, h.1⟩
        simp [this]
    | succ j =>
      have hnn : (0:Int) ≤ (emptyCount (List.take j rest) : Int) * D.MaxStackSize :=
        mul_nonneg (by omega) (by omega)
      by_cases hc : 0 < R ∧ it.IsValid = false
      · rw [fillEmpty, if_pos hc]
        simp only [List.getElem?_cons_succ, List.take_succ_cons, emptyCount_cons, hc.2,
          Bool.false_eq_true, if_false, ih]
        congr 1
        funext x
        have e1 : ((emptyCount (List.take j rest) + 1 : Nat) : Int) * D.MaxStackSize
            = (emptyCount (List.take j rest) : Int) * D.MaxStackSize + D.MaxStackSize := by
          push_cast
          ring
        simp only [newStack, e1]
        generalize (emptyCount (List.take j rest) : Int) * D.MaxStackSize = e at hnn ⊢
        rcases le_total R D.MaxStackSize with hle | hle
        · rw [min_eq_left hle]
          rw [if_neg (fun h => by omega), if_neg (fun h => by omega)]
        · rw [min_eq_right hle]
          by_cases hx : x.IsValid = false ∧ e < R - D.MaxStackSize
          · rw [if_pos hx, if_pos ⟨hx.1, by omega⟩]
            have a1 : R - D.MaxStackSize - e = R - (e + D.MaxStackSize) := by ring
            have a2 : g + 1 + emptyCount (List.take j rest)
                = g + (emptyCount (List.take j rest) + 1) := by
              rw [Nat.add_assoc, Nat.add_comm 1]
            rw [a1, a2]
          · rw [if_neg hx, if_neg (fun h => hx ⟨h.1, by omega⟩)]
      · rw [fillEmpty, if_neg hc]
        simp only [List.getElem?_cons_succ, List.take_succ_cons, emptyCount_cons, ih]
        congr 1
        funext x
        by_cases hR : 0 < R
        · have hv : it.IsValid = true := by
            cases h : it.IsValid
            · exact absurd ⟨hR, h⟩ hc
            · rfl
          simp [hv]
        · have hn : ∀ n : Nat, ¬ ((n : Int) * D.MaxStackSize < R) := by
            intro n
            have : (0:Int) ≤ (n : Int) * D.MaxStackSize := mul_nonneg (by omega) (by omega)
            omega
          simp only [hn, and_false, if_false]

theorem fillOut_spec (D : UInventoryItemData)
    (Items : List FInventoryItem) (i0 R out : Int) (hR : 0 < R)
    (hE : R ≤ (emptyCount Items : Int) * D.MaxStackSize) :
    ∃ idx : Nat, fillOut D Items i0 R out = i0 + idx ∧
      (∃ it, Items[idx]? = some it ∧ it.IsValid = false) ∧
      (emptyCount (Items.take idx) : Int) * D.MaxStackSize < R ∧
      R ≤ ((emptyCount (Items.take idx) : Int) + 1) * D.MaxStackSize := by
  induction Items generalizing i0 R out with
  | nil => simp at hE; omega
  | cons it rest ih =>
    by_cases hc : it.IsValid = false
    · rcases le_or_lt R D.MaxStackSize with hle | hlt
      · refine ⟨0, ?_, ⟨it, by simp, hc⟩, by simpa using hR, by simpa using hle⟩
        rw [fillOut, if_pos ⟨hR, hc⟩, min_eq_left hle, fillOut_nonpos _ _ _ _ _ (by omega)]
        simp
      · have hE' : R - D.MaxStackSize ≤ (emptyCount rest : Int) * D.MaxStackSize := by
          rw [emptyCount_cons] at hE
          simp only [hc, Bool.false_eq_true, if_false] at hE
          push_cast at hE
          linarith
        obtain ⟨idx, h1, h2, h3, h4⟩ := ih (i0 + 1) (R - D.MaxStackSize) i0 (by omega) hE'
        refine ⟨idx + 1, ?_, by simpa using h2, ?_, ?_⟩
        · rw [fillOut, if_pos ⟨hR, hc⟩, min_eq_right hlt.le, h1]
          push_cast
          ring
        · simp only [List.take_succ_cons, emptyCount_cons, hc, Bool.false_eq_true, if_false]
          push_cast
          linarith
        · simp only [List.take_succ_cons, emptyCount_cons, hc, Bool.false_eq_true, if_false]
          push_cast
          linarith
    · have hv : it.IsValid = true := by simpa using hc
      have hE' : R ≤ (emptyCount rest : Int) * D.MaxStackSize := by
        simpa [emptyCount_cons, hv] using hE
      obtain ⟨idx, h1, h2, h3, h4⟩ := ih (i0 + 1) R out hR hE'
      refine ⟨idx + 1, ?_, by simpa using h2, ?_, ?_⟩
      · rw [fillOut, if_neg (fun h => hc h.2), h1]
        push_cast
        ring
      · simpa [List.take_succ_cons, emptyCount_cons, hv] using h3
      · simpa [List.take_succ_cons, emptyCount_cons, hv] using h4

theorem fillEmpty_length (D : UInventoryItemData) (Items : List FInventoryItem) (R : Int)
    (g : FGuid) : (fillEmpty D Items R g).length = Items.length := by
  induction Items generalizing R g with
  | nil => rfl
  | cons it rest ih =>
    rw [fillEmpty]
    split <;> simp [ih]

theorem TryStackItemFrom_none (D : UInventoryItemData) (Items : List FInventoryItem)
    (hnone : ∀ it ∈ Items, holds D it = false) (i q out : Int) (b : Bool) :
    TryStackItemFrom D Items i q out b =
      { Items := Items, Quantity := q, OutSlotIndex := out, bStackedAny := b, Broadcasts := [] } := by
  induction Items generalizing i with
  | nil => rfl
  | cons it rest ih =>
    have h1 : (it.IsValid && decide (it.ItemData = some D)) = false :=
      hnone it (List.mem_cons_self _ _)
    rw [TryStackItemFrom]
    simp only [h1, Bool.false_eq_true, if_false, ih (fun x hx => hnone x (List.mem_cons_of_mem _ hx))]
    split <;> rfl

theorem CanAddItemLoop_none (D : UInventoryItemData) (Items : List FInventoryItem)
    (hnone : ∀ it ∈ Items, holds D it = false) (q : Int) :
    CanAddItemLoop D Items q = some q := by
  induction Items with
  | nil => rfl
  | cons it rest ih =>
    have h1 : (it.IsValid && decide (it.ItemData = some D)) = false :=
      hnone it (List.mem_cons_self _ _)
    rw [CanAddItemLoop]
    simp only [h1, Bool.false_eq_true, if_false, ih (fun x hx => hnone x (List.mem_cons_of_mem _ hx))]

theorem lt_ceil_div (R M n : Int) (hM : 0 < M) :
    n < Int.ceil ((R : ℚ) / (M : ℚ)) ↔ n * M < R := by
  rw [Int.lt_ceil, lt_div_iff₀ (by exact_mod_cast hM)]
  exact_mod_cast Iff.rfl

theorem countP_holds_fillEmpty (D : UInventoryItemData) (hM : 1 ≤ D.MaxStackSize)
    (Items : List FInventoryItem) (R : Int) (g : FGuid) (h0 : 0 ≤ R)
    (hE : R ≤ (emptyCount Items : Int) * D.MaxStackSize) :
    ((fillEmpty D Items R g).countP (holds D) : Int) =
      (Items.countP (holds D) : Int) + Int.ceil ((R : ℚ) / (D.MaxStackSize : ℚ)) := by
  induction Items generalizing R g with
  | nil =>
    have : R = 0 := by
      simp at hE
      omega
    simp [fillEmpty, this]
  | cons it rest ih =>
    by_cases hc : 0 < R ∧ it.IsValid = false
    · have hmin : 0 < min R D.MaxStackSize := by
        simp only [lt_min_iff]
        omega
      have hh : holds D (FInventoryItem.mk2 (some D) (min R D.MaxStackSize) g) = true := by
        have hv := mk2_valid D _ g hmin
        simp only [holds, hv, Bool.true_and, decide_eq_true_eq]
        rfl
      have hit : holds D it = false := by simp [holds, hc.2]
      have hE1 : R ≤ ((emptyCount rest : Int) + 1) * D.MaxStackSize := by
        rw [emptyCount_cons] at hE
        simpa [hc.2] using hE
      have hnn : (0:Int) ≤ (emptyCount rest : Int) * D.MaxStackSize :=
        mul_nonneg (by omega) (by omega)
      rw [fillEmpty, if_pos hc, List.countP_cons, List.countP_cons, hh, hit]
      simp only [if_true, Bool.false_eq_true, if_false, Nat.add_zero]
      push_cast
      rcases le_total R D.MaxStackSize with hle | hle
      · rw [min_eq_left hle, sub_self, fillEmpty_nonpos _ _ _ _ le_rfl]
        have : Int.ceil ((R : ℚ) / (D.MaxStackSize : ℚ)) = 1 := by
          rw [Int.ceil_eq_iff]
          constructor
          · have : (0:ℚ) < (R : ℚ) / (D.MaxStackSize : ℚ) :=
              div_pos (by exact_mod_cast hc.1) (by exact_mod_cast (by omega : 0 < D.MaxStackSize))
            simpa using this
          · rw [div_le_iff₀ (by exact_mod_cast (by omega : 0 < D.MaxStackSize))]
            exact_mod_cast (by simpa using hle)
        rw [this]
      · rw [min_eq_right hle, ih _ _ (by omega) (by linarith)]
        have : Int.ceil (((R - D.MaxStackSize : Int) : ℚ) / (D.MaxStackSize : ℚ))
            = Int.ceil ((R : ℚ) / (D.MaxStackSize : ℚ)) - 1 := by
          have hMq : (D.MaxStackSize : ℚ) ≠ 0 := by
            exact_mod_cast (by omega : D.MaxStackSize ≠ 0)
          rw [← Int.ceil_sub_one]
          congr 1
          push_cast
          field_simp
        rw [this]
        ring
    · rw [fillEmpty, if_neg hc, List.countP_cons, List.countP_cons]
      by_cases hR : 0 < R
      · have hv : it.IsValid = true := by
          cases h : it.IsValid
          · exact absurd ⟨hR, h⟩ hc
          · rfl
        push_cast
        rw [ih _ _ h0 (by simpa [emptyCount_cons, hv] using hE)]
        ring
      · have : R = 0 := by omega
        subst this
        simp [fillEmpty_nonpos]

/-- C2, as amended.  In a store with `Items.Num() = MaxSlots` that holds no
valid stack of `D` (`MaxStackSize ≥ 1`), for a quantity `q ≤ 2^24`: when
`CanAddItem(D, q)` is true `AddItem(D, q)` returns true with `OutSlotIndex` the
last slot written; with `k = ceil(q / MaxStackSize)`, there are at least `k`
empty slots, the store holds exactly `k` stacks of `D` afterwards, an empty
slot with fewer than `k` empty slots before it receives a new stack of `D`
(`MaxStackSize` units, the remainder `q - (k - 1) * MaxStackSize` in the last
one), and every other slot keeps its content. -/
theorem C2_AddItem_fills_lowest_empty_slots (S : UInventoryComponent) (D : UInventoryItemData)
    (q out : Int) (fuel : Nat) (hlen : (S.Items.length : Int) = S.MaxSlots)
    (hM : 1 ≤ D.MaxStackSize) (hq24 : q ≤ 2 ^ 24)
    (hnone : ∀ it ∈ S.Items, holds D it = false)
    (hcan : S.CanAddItem (some D) q = true) (hfuel : q.toNat ≤ fuel) :
    ∃ (last : Nat) (S1 : UInventoryComponent),
      AddItem fuel S (some D) q out = some (true, (last : Int), S1) ∧
      Int.ceil ((q : ℚ) / (D.MaxStackSize : ℚ)) ≤ (emptyCount S.Items : Int) ∧
      (S1.Items.countP (holds D) : Int) = Int.ceil ((q : ℚ) / (D.MaxStackSize : ℚ)) ∧
      S1.Items.length = S.Items.length ∧
      (∀ (i : Nat) (it : FInventoryItem), S.Items[i]? = some it →
        S1.Items[i]? = some
          (if it.IsValid = false ∧
              (emptyCount (S.Items.take i) : Int) < Int.ceil ((q : ℚ) / (D.MaxStackSize : ℚ)) then
            { ItemData := some D,
              Quantity :=
                if (emptyCount (S.Items.take i) : Int) + 1
                    < Int.ceil ((q : ℚ) / (D.MaxStackSize : ℚ)) then D.MaxStackSize
                else q - (Int.ceil ((q : ℚ) / (D.MaxStackSize : ℚ)) - 1) * D.MaxStackSize,
              InstanceID := S.NextGuid + emptyCount (S.Items.take i),
              InstanceMetadata := [] }
          else it)) ∧
      (∃ it, S.Items[last]? = some it ∧ it.IsValid = false ∧
        (emptyCount (S.Items.take last) : Int) + 1
          = Int.ceil ((q : ℚ) / (D.MaxStackSize : ℚ))) := by
  have hq := (CanAddItem_pos S _ q hcan).1
  have hq' : ¬ q ≤ 0 := by omega
  have hMpos : 0 < D.MaxStackSize := by omega
  -- what `CanAddItem` checked
  have hroom : q ≤ (emptyCount S.Items : Int) * D.MaxStackSize := by
    have h := hcan
    simp only [CanAddItem, hq', if_false] at h
    split at h
    · simp at h
    · rw [CanAddItemLoop_none D S.Items hnone] at h
      simp only [ite_self] at h
      exact (CanAddItemSlots_iff S D _ hlen hM hq (Or.inl hq24)).1 h
  -- `TryStackItem` finds nothing to fill
  have hadd : AddItem fuel S (some D) q out = AddItemLoop D fuel S q out := by
    simp only [AddItem, hq', if_false, hcan, Bool.not_true, Bool.false_eq_true, TryStackItem,
      TryStackItemFrom_none D S.Items hnone, Bool.false_and, List.append_nil, ite_self]
  obtain ⟨S1, e1, e2, e3, e4⟩ := AddItemLoop_spec D hM fuel S q out (by omega) hroom hfuel
  obtain ⟨idx, f1, ⟨it0, f2, f3⟩, f4, f5⟩ := fillOut_spec D S.Items 0 q out hq hroom
  have hcount0 : S.Items.countP (holds D) = 0 := by
    rw [List.countP_eq_zero]
    intro x hx
    simp [hnone x hx]
  refine ⟨idx, S1, ?_, ?_, ?_, ?_, ?_, ⟨it0, f2, f3, ?_⟩⟩
  · rw [hadd, e1, f1]
    simp
  · exact (ceil_div_le _ _ _ hMpos).2 hroom
  · rw [e2, countP_holds_fillEmpty D hM _ _ _ (by omega) hroom, hcount0]
    simp
  · rw [e2, fillEmpty_length]
  · intro i it hi
    rw [e2, fillEmpty_getElem? D hM, hi]
    simp only [Option.map_some', lt_ceil_div _ _ _ hMpos]
    congr 1
    by_cases hc : it.IsValid = false ∧ (emptyCount (S.Items.take i) : Int) * D.MaxStackSize < q
    · rw [if_pos hc, if_pos hc]
      simp only [newStack, FInventoryItem.mk2]
      congr 1
      by_cases h2 : ((emptyCount (S.Items.take i) : Int) + 1) * D.MaxStackSize < q
      · rw [if_pos h2, min_eq_right (by linarith)]
      · have hk : Int.ceil ((q : ℚ) / (D.MaxStackSize : ℚ))
            = (emptyCount (S.Items.take i) : Int) + 1 := by
          apply le_antisymm
          · exact (ceil_div_le _ _ _ hMpos).2 (by linarith)
          · have := (lt_ceil_div q D.MaxStackSize _ hMpos).2 hc.2
            omega
        rw [if_neg h2, hk, min_eq_left (by linarith)]
        ring
    · rw [if_neg hc, if_neg hc]
  · apply le_antisymm
    · have := (lt_ceil_div q D.MaxStackSize _ hMpos).2 f4
      omega
    · exact (ceil_div_le q D.MaxStackSize _ hMpos).2 f5

theorem exEmpty2_can : exEmpty2.CanAddItem (some exD) 15 = true :=
  CanAddItem_of_room exEmpty2 exD 15 ⟨by decide, by decide⟩ (by decide) (by decide)
    (Or.inl (by norm_num)) (Or.inl (by simp [exEmpty2])) (by decide)

theorem exEmpty2_none : ∀ it ∈ exEmpty2.Items, holds exD it = false := by decide

theorem exEmpty2_add :
    AddItem 15 exEmpty2 (some exD) 15 0 = some (true, 1,
      { Items := [FInventoryItem.mk2 (some exD) 10 2, FInventoryItem.mk2 (some exD) 5 3],
        MaxSlots := 2, MaxWeight := 0, NextGuid := 4,
        Broadcasts := [Notification.InventoryUpdated 0 (FInventoryItem.mk2 (some exD) 10 2),
                       Notification.InventoryUpdated 1 (FInventoryItem.mk2 (some exD) 5 3)] }) := by
  rw [AddItem]
  simp only [exEmpty2_can]
  rfl

/-- Witness of C2, the scenario of the specification: 15 units of a definition
with `MaxStackSize = 10` into an empty store of two slots give slot 0 = 10,
slot 1 = 5 and the result `(true, 1)`. -/
theorem C2_AddItem_witness :
    (AddItem 15 exEmpty2 (some exD) 15 0 = some (true, 1,
      { Items := [FInventoryItem.mk2 (some exD) 10 2, FInventoryItem.mk2 (some exD) 5 3],
        MaxSlots := 2, MaxWeight := 0, NextGuid := 4,
        Broadcasts := [Notification.InventoryUpdated 0 (FInventoryItem.mk2 (some exD) 10 2),
                       Notification.InventoryUpdated 1 (FInventoryItem.mk2 (some exD) 5 3)] })) ∧
    ∃ (last : Nat) (S1 : UInventoryComponent),
      AddItem 15 exEmpty2 (some exD) 15 0 = some (true, (last : Int), S1) ∧
      Int.ceil (((15 : Int) : ℚ) / (exD.MaxStackSize : ℚ)) ≤ (emptyCount exEmpty2.Items : Int) ∧
      (S1.Items.countP (holds exD) : Int) = Int.ceil (((15 : Int) : ℚ) / (exD.MaxStackSize : ℚ)) ∧
      S1.Items.length = exEmpty2.Items.length ∧
      (∀ (i : Nat) (it : FInventoryItem), exEmpty2.Items[i]? = some it →
        S1.Items[i]? = some
          (if it.IsValid = false ∧ (emptyCount (exEmpty2.Items.take i) : Int)
                < Int.ceil (((15 : Int) : ℚ) / (exD.MaxStackSize : ℚ)) then
            { ItemData := some exD,
              Quantity :=
                if (emptyCount (exEmpty2.Items.take i) : Int) + 1
                    < Int.ceil (((15 : Int) : ℚ) / (exD.MaxStackSize : ℚ)) then exD.MaxStackSize
                else 15 - (Int.ceil (((15 : Int) : ℚ) / (exD.MaxStackSize : ℚ)) - 1)
                  * exD.MaxStackSize,
              InstanceID := exEmpty2.NextGuid + emptyCount (exEmpty2.Items.take i),
              InstanceMetadata := [] }
          else it)) ∧
      (∃ it, exEmpty2.Items[last]? = some it ∧ it.IsValid = false ∧
        (emptyCount (exEmpty2.Items.take last) : Int) + 1
          = Int.ceil (((15 : Int) : ℚ) / (exD.MaxStackSize : ℚ))) :=
  ⟨exEmpty2_add,
    C2_AddItem_fills_lowest_empty_slots exEmpty2 exD 15 0 15 (by decide) (by decide)
      (by norm_num) exEmpty2_none exEmpty2_can (by decide)⟩

/-- C3. `AddItem` called with a null definition, with `Quantity ≤ 0`, or with
arguments that `CanAddItem` refuses returns `(false, -1)` and leaves the
component as it was: no slot changes and no delegate is called. -/
theorem C3_AddItem_rejects (S : UInventoryComponent) (D : Option UInventoryItemData)
    (q out : Int) (fuel : Nat) (h : D = none ∨ q ≤ 0 ∨ S.CanAddItem D q = false) :
    AddItem fuel S D q out = some (false, -1, S) := by
  cases D with
  | none => rfl
  | some d =>
    by_cases hq : q ≤ 0
    · simp [AddItem, hq]
    · rcases h with h | h | h
      · exact absurd h (by simp)
      · exact absurd h hq
      · simp [AddItem, hq, h]

/-- Under the store invariants, for definitions with `MaxStackSize ≥ 1` and a
quantity of at most `2^24`, `CanAddItem(D, q)` is true exactly when `D` is
non-null, `q > 0`, the weight limit is respected (`MaxWeight ≤ 0`, or the
current weight plus `D.Weight * q` is at most `MaxWeight`, in exact numbers)
and `q ≤ S + E * D.MaxStackSize`, with `E` the number of slots without a valid
stack and `S` the room left in the stacks of `D` when `D.MaxStackSize > 1` and
0 otherwise. -/
theorem CanAddItem_iff_room (S : UInventoryComponent) (D : Option UInventoryItemData)
    (q : Int) (hinv : StoreInv S) (hM : ∀ d, D = some d → 1 ≤ d.MaxStackSize)
    (hq24 : q ≤ 2 ^ 24) :
    S.CanAddItem D q = true ↔
      ∃ d, D = some d ∧ 0 < q ∧
        (S.MaxWeight ≤ 0 ∨ S.GetCurrentWeight + d.Weight * (q : ℚ) ≤ S.MaxWeight) ∧
        q ≤ (if 1 < d.MaxStackSize then stackSpace d S.Items else 0)
              + (emptyCount S.Items : Int) * d.MaxStackSize := by
  cases D with
  | none => simp [CanAddItem]
  | some d =>
    have hM1 := hM d rfl
    have hnn := stackSpace_nonneg d S.Items hinv.2
    have hEM : (0:Int) ≤ (emptyCount S.Items : Int) * d.MaxStackSize :=
      mul_nonneg (by omega) (by omega)
    simp only [Option.some.injEq, exists_eq_left']
    by_cases hq : q ≤ 0
    · have : ¬ 0 < q := by omega
      simp [CanAddItem, hq, this]
    · have hq0 : 0 < q := by omega
      by_cases hw : 0 < S.MaxWeight ∧ S.GetCurrentWeight + d.Weight * (q : ℚ) > S.MaxWeight
      · have : ¬ (S.MaxWeight ≤ 0 ∨ S.GetCurrentWeight + d.Weight * (q : ℚ) ≤ S.MaxWeight) := by
          rintro (h | h)
          · exact absurd hw.1 (not_lt.2 h)
          · exact absurd hw.2 (not_lt.2 h)
        simp [CanAddItem, hq, hw, this]
      · have hw2 : S.MaxWeight ≤ 0 ∨ S.GetCurrentWeight + d.Weight * (q : ℚ) ≤ S.MaxWeight := by
          by_contra hcon
          push_neg at hcon
          exact hw ⟨hcon.1, hcon.2⟩
        simp only [CanAddItem, hq, if_false, hw, hq0, hw2, true_and]
        by_cases h1 : 1 < d.MaxStackSize
        · simp only [h1, if_true]
          rw [CanAddItemLoop_eq d S.Items hinv.2 q hq0]
          by_cases h2 : q ≤ stackSpace d S.Items
          · simp only [h2, if_true, true_iff]
            omega
          · simp only [h2, if_false]
            rw [CanAddItemSlots_iff S d _ hinv.1 hM1 (by omega) (Or.inl (by omega))]
            constructor <;> intro h <;> omega
        · simp only [h1, if_false]
          rw [CanAddItemSlots_iff S d _ hinv.1 hM1 hq0 (Or.inl hq24)]
          constructor <;> intro h <;> omega

theorem exFull2_cannot : exFull2.CanAddItem (some exD) 1 = false := by
  rw [← Bool.not_eq_true, CanAddItem_iff_room exFull2 (some exD) 1 ⟨by decide, by decide⟩
    (fun d hd => by cases hd; decide) (by norm_num)]
  rintro ⟨d, hd, _, _, h⟩
  cases hd
  revert h
  decide

/-- Witness of C3: a store of two slots, each holding 10 of 10, refuses one more unit. -/
theorem C3_AddItem_witness :
    exFull2.CanAddItem (some exD) 1 = false ∧
    AddItem 1 exFull2 (some exD) 1 0 = some (false, -1, exFull2) :=
  ⟨exFull2_cannot,
    C3_AddItem_rejects exFull2 (some exD) 1 0 1 (Or.inr (Or.inr exFull2_cannot))⟩

theorem exWeighted_inv : StoreInv exWeighted := by
  refine ⟨by decide, ?_⟩
  decide

theorem exWeighted_weight : exWeighted.GetCurrentWeight = 19 / 2 := by
  simp [GetCurrentWeight, exWeighted, FInventoryItem.mk2, FInventoryItem.mkDefault,
    FInventoryItem.IsValid, FInventoryItem.GetTotalWeight, exHeavyD]

theorem exWeighted_cannot : exWeighted.CanAddItem (some exD) 1 = false := by
  have h : (0 : ℚ) < exWeighted.MaxWeight ∧
      exWeighted.GetCurrentWeight + exD.Weight * ((1 : Int) : ℚ) > exWeighted.MaxWeight := by
    rw [exWeighted_weight]
    norm_num [exWeighted, exD]
  simp only [CanAddItem, h]
  decide

theorem IsValidIndex_iff (S : UInventoryComponent) (i : Int) :
    S.IsValidIndex i = true ↔ 0 ≤ i ∧ i < (S.Items.length : Int) := by
  simp [IsValidIndex]

theorem ItemAt_set_self (l : List FInventoryItem) (i : Int) (x : FInventoryItem)
    (h0 : 0 ≤ i) (h1 : i < (l.length : Int)) : ItemAt (l.set i.toNat x) i = x := by
  have : i.toNat < l.length := by omega
  simp [ItemAt, List.getD_eq_getElem?_getD, List.getElem?_set, this]

theorem ItemAt_set_ne (l : List FInventoryItem) (i j : Int) (x : FInventoryItem)
    (h : j.toNat ≠ i.toNat) : ItemAt (l.set j.toNat x) i = ItemAt l i := by
  simp [ItemAt, List.getD_eq_getElem?_getD, List.getElem?_set, h]

theorem toNat_ne_of_ne (i j : Int) (hi : 0 ≤ i) (hj : 0 ≤ j) (h : i ≠ j) : i.toNat ≠ j.toNat := by
  omega

theorem getElem?_set_other (l : List FInventoryItem) (j : Int) (x : FInventoryItem) (i : Nat)
    (h : (i : Int) ≠ j) (hj : 0 ≤ j) : (l.set j.toNat x)[i]? = l[i]? := by
  have : j.toNat ≠ i := by omega
  simp [List.getElem?_set, this]

theorem CanStack_iff (A B : FInventoryItem) :
    CanStack A B = true ↔
      A.IsValid = true ∧ B.IsValid = true ∧
        ∃ D, A.ItemData = some D ∧ B.ItemData = some D ∧ 1 < D.MaxStackSize := by
  cases hA : A.IsValid <;> cases hB : B.IsValid <;> cases hDa : A.ItemData <;>
    cases hDb : B.ItemData <;> simp [CanStack, hA, hB, hDa, hDb]
  intro _
  exact eq_comm

/-- C5. For distinct in-range slots `s`, `t` holding valid stacks of the same
definition `D` with `MaxStackSize > 1`, the target holding at most
`MaxStackSize`: `MergeStacks(s, t)` returns true and moves
`m = min(MaxStackSize - qt, qs)` units; slot `t` keeps its identifier and
metadata and holds `qt + m`; slot `s` holds `qs - m` of the same stack when
`m < qs` and is empty exactly when `m = qs`; every other slot is unchanged. -/
theorem C5_MergeStacks_moves_min (S : UInventoryComponent) (s t : Int) (D : UInventoryItemData)
    (hs : S.IsValidIndex s = true) (ht : S.IsValidIndex t = true) (hne : s ≠ t)
    (hsv : (ItemAt S.Items s).IsValid = true) (htv : (ItemAt S.Items t).IsValid = true)
    (hsD : (ItemAt S.Items s).ItemData = some D) (htD : (ItemAt S.Items t).ItemData = some D)
    (hD : 1 < D.MaxStackSize) (hqt : (ItemAt S.Items t).Quantity ≤ D.MaxStackSize) :
    ∃ S1, S.MergeStacks s t = (true, S1) ∧
      ItemAt S1.Items t =
        { ItemAt S.Items t with
          Quantity := (ItemAt S.Items t).Quantity +
            min (D.MaxStackSize - (ItemAt S.Items t).Quantity) (ItemAt S.Items s).Quantity } ∧
      (min (D.MaxStackSize - (ItemAt S.Items t).Quantity) (ItemAt S.Items s).Quantity
          < (ItemAt S.Items s).Quantity →
        ItemAt S1.Items s =
          { ItemAt S.Items s with
            Quantity := (ItemAt S.Items s).Quantity -
              min (D.MaxStackSize - (ItemAt S.Items t).Quantity) (ItemAt S.Items s).Quantity }) ∧
      ((ItemAt S1.Items s).IsValid = false ↔
        min (D.MaxStackSize - (ItemAt S.Items t).Quantity) (ItemAt S.Items s).Quantity
          = (ItemAt S.Items s).Quantity) ∧
      S1.Items.length = S.Items.length ∧
      (∀ i : Nat, (i : Int) ≠ s → (i : Int) ≠ t → S1.Items[i]? = S.Items[i]?) := by
  obtain ⟨hs0, hs1⟩ := (IsValidIndex_iff S s).1 hs
  obtain ⟨ht0, ht1⟩ := (IsValidIndex_iff S t).1 ht
  have hst : s.toNat ≠ t.toNat := toNat_ne_of_ne s t hs0 ht0 hne
  have hcs : CanStack (ItemAt S.Items s) (ItemAt S.Items t) = true :=
    (CanStack_iff _ _).2 ⟨hsv, htv, D, hsD, htD, hD⟩
  have hqs : 0 < (ItemAt S.Items s).Quantity := by
    simp only [FInventoryItem.IsValid, Bool.and_eq_true, decide_eq_true_eq] at hsv
    exact hsv.2
  have hqt0 : 0 < (ItemAt S.Items t).Quantity := by
    simp only [FInventoryItem.IsValid, Bool.and_eq_true, decide_eq_true_eq] at htv
    exact htv.2
  have hm0 : 0 ≤ min (D.MaxStackSize - (ItemAt S.Items t).Quantity) (ItemAt S.Items s).Quantity := by
    simp only [le_min_iff]
    omega
  have hm1 : min (D.MaxStackSize - (ItemAt S.Items t).Quantity) (ItemAt S.Items s).Quantity
      ≤ (ItemAt S.Items s).Quantity := min_le_right _ _
  have hsrc : ∀ x, ItemAt (S.Items.set t.toNat x) s = ItemAt S.Items s :=
    fun x => ItemAt_set_ne _ _ _ _ hst.symm
  have hs1' : ∀ x, s < ((S.Items.set t.toNat x).length : Int) := fun x => by simpa using hs1
  have hself : ∀ x y, ItemAt ((S.Items.set t.toNat x).set s.toNat y) s = y :=
    fun x y => ItemAt_set_self _ s _ hs0 (hs1' x)
  simp only [MergeStacks, hs, ht, hcs, htD, Bool.not_true, Bool.or_self, Bool.false_eq_true,
    if_false, hsrc, hself]
  set m := min (D.MaxStackSize - (ItemAt S.Items t).Quantity) (ItemAt S.Items s).Quantity with hm
  by_cases hz : (ItemAt S.Items s).Quantity - m ≤ 0
  · have hmq : m = (ItemAt S.Items s).Quantity := by omega
    simp only [hz, if_true]
    refine ⟨_, rfl, ?_, ?_, ?_, ?_, ?_⟩
    · rw [ItemAt_set_ne _ _ _ _ hst, ItemAt_set_ne _ _ _ _ hst,
        ItemAt_set_self _ t _ ht0 ht1, ← htD]
    · intro h
      omega
    · simp only [hmq, iff_true]
      rw [ItemAt_set_self _ s _ hs0 (by simpa using hs1)]
      rfl
    · simp
    · intro i his hit
      rw [getElem?_set_other _ _ _ _ his hs0, getElem?_set_other _ _ _ _ his hs0,
        getElem?_set_other _ _ _ _ hit ht0]
  · simp only [hz, if_false]
    refine ⟨_, rfl, ?_, ?_, ?_, ?_, ?_⟩
    · rw [ItemAt_set_ne _ _ _ _ hst, ItemAt_set_self _ t _ ht0 ht1, ← htD]
    · intro _
      rw [hself]
    · rw [hself]
      have hv : FInventoryItem.IsValid { ItemAt S.Items s with
          Quantity := (ItemAt S.Items s).Quantity - m } = true := by
        simp only [FInventoryItem.IsValid, Bool.and_eq_true, decide_eq_true_eq] at hsv ⊢
        exact ⟨hsv.1, by omega⟩
      rw [hv]
      constructor
      · intro h
        exact absurd h (by simp)
      · intro h
        omega
    · simp
    · intro i his hit
      rw [getElem?_set_other _ _ _ _ his hs0, getElem?_set_other _ _ _ _ hit ht0]

theorem ItemAt_mem (l : List FInventoryItem) (i : Int) (h0 : 0 ≤ i) (h1 : i < (l.length : Int)) :
    ItemAt l i ∈ l := by
  have : i.toNat < l.length := by omega
  simp only [ItemAt, List.getD_eq_getElem?_getD, List.getElem?_eq_getElem this, Option.getD_some]
  exact List.getElem_mem _

/-- Witness of C5, the scenario of the specification: slot 0 = 7, slot 1 = 6,
`MaxStackSize = 10`; `MergeStacks(0, 1)` leaves 3 in slot 0 and 10 in slot 1. -/
theorem C5_MergeStacks_witness :
    (exMerge2.MergeStacks 0 1 = (true,
      { exMerge2 with
        Items := [FInventoryItem.mk2 (some exD) 3 0, FInventoryItem.mk2 (some exD) 10 1],
        Broadcasts := [Notification.InventoryUpdated 0 (FInventoryItem.mk2 (some exD) 3 0),
                       Notification.InventoryUpdated 1 (FInventoryItem.mk2 (some exD) 10 1)] })) ∧
    ∃ S1, exMerge2.MergeStacks 0 1 = (true, S1) ∧
      ItemAt S1.Items 1 =
        { ItemAt exMerge2.Items 1 with
          Quantity := (ItemAt exMerge2.Items 1).Quantity +
            min (exD.MaxStackSize - (ItemAt exMerge2.Items 1).Quantity)
              (ItemAt exMerge2.Items 0).Quantity } ∧
      (min (exD.MaxStackSize - (ItemAt exMerge2.Items 1).Quantity)
          (ItemAt exMerge2.Items 0).Quantity < (ItemAt exMerge2.Items 0).Quantity →
        ItemAt S1.Items 0 =
          { ItemAt exMerge2.Items 0 with
            Quantity := (ItemAt exMerge2.Items 0).Quantity -
              min (exD.MaxStackSize - (ItemAt exMerge2.Items 1).Quantity)
                (ItemAt exMerge2.Items 0).Quantity }) ∧
      ((ItemAt S1.Items 0).IsValid = false ↔
        min (exD.MaxStackSize - (ItemAt exMerge2.Items 1).Quantity)
          (ItemAt exMerge2.Items 0).Quantity = (ItemAt exMerge2.Items 0).Quantity) ∧
      S1.Items.length = exMerge2.Items.length ∧
      (∀ i : Nat, (i : Int) ≠ 0 → (i : Int) ≠ 1 → S1.Items[i]? = exMerge2.Items[i]?) :=
  ⟨by decide,
    C5_MergeStacks_moves_min exMerge2 0 1 exD (by decide) (by decide) (by decide) (by decide)
      (by decide) rfl rfl (by decide) (by decide)⟩

/-- C6. For in-range slots `s` (a valid stack of quantity `n`) and `t` (empty)
and `0 < q < n`, `SplitStack(s, t, q)` returns true; slot `t` then holds a valid
stack of the same definition with quantity `q`, the source's instance
metadata and the identifier that `FGuid::NewGuid()` returned, which differs
from the source's when the source's was issued earlier; slot `s` keeps its
identifier and holds `n - q`; every other slot is unchanged. -/
theorem C6_SplitStack_creates_new_stack (S : UInventoryComponent) (s t q : Int)
    (hs : S.IsValidIndex s = true) (ht : S.IsValidIndex t = true)
    (hsv : (ItemAt S.Items s).IsValid = true) (htv : (ItemAt S.Items t).IsValid = false)
    (hq0 : 0 < q) (hq1 : q < (ItemAt S.Items s).Quantity) (hg : GuidsIssued S) :
    ∃ S1, S.SplitStack s t q = (true, S1) ∧
      ItemAt S1.Items t =
        { ItemData := (ItemAt S.Items s).ItemData, Quantity := q, InstanceID := S.NextGuid,
          InstanceMetadata := (ItemAt S.Items s).InstanceMetadata } ∧
      (ItemAt S1.Items t).IsValid = true ∧
      (ItemAt S1.Items t).InstanceID ≠ (ItemAt S.Items s).InstanceID ∧
      ItemAt S1.Items s =
        { ItemAt S.Items s with Quantity := (ItemAt S.Items s).Quantity - q } ∧
      S1.Items.length = S.Items.length ∧
      (∀ i : Nat, (i : Int) ≠ s → (i : Int) ≠ t → S1.Items[i]? = S.Items[i]?) := by
  obtain ⟨hs0, hs1⟩ := (IsValidIndex_iff S s).1 hs
  obtain ⟨ht0, ht1⟩ := (IsValidIndex_iff S t).1 ht
  have hne : s ≠ t := by
    rintro rfl
    rw [hsv] at htv
    exact absurd htv (by simp)
  have hst : s.toNat ≠ t.toNat := toNat_ne_of_ne s t hs0 ht0 hne
  have hsrc : ∀ x, ItemAt (S.Items.set t.toNat x) s = ItemAt S.Items s :=
    fun x => ItemAt_set_ne _ _ _ _ hst.symm
  have hs1' : ∀ x, s < ((S.Items.set t.toNat x).length : Int) := fun x => by simpa using hs1
  have hself : ∀ x y, ItemAt ((S.Items.set t.toNat x).set s.toNat y) s = y :=
    fun x y => ItemAt_set_self _ s _ hs0 (hs1' x)
  have htgt : ∀ x y, ItemAt ((S.Items.set t.toNat x).set s.toNat y) t = x := fun x y => by
    rw [ItemAt_set_ne _ _ _ _ hst, ItemAt_set_self _ t _ ht0 ht1]
  have hcond : ¬ (q ≤ 0 ∨ q ≥ (ItemAt S.Items s).Quantity) := by omega
  simp only [SplitStack, hs, ht, hsv, htv, hcond, Bool.not_true, Bool.or_self, Bool.or_false,
    Bool.false_eq_true, if_false, hsrc, hself, htgt]
  refine ⟨_, rfl, ?_, ?_, ?_, ?_, by simp, ?_⟩
  · simp only [htgt, FInventoryItem.mk2]
  · simp only [htgt, FInventoryItem.mk2]
    simp only [FInventoryItem.IsValid, Bool.and_eq_true, decide_eq_true_eq] at hsv ⊢
    exact ⟨hsv.1, hq0⟩
  · have := hg _ (ItemAt_mem S.Items s hs0 hs1)
    simp only [htgt, FInventoryItem.mk2]
    exact (Nat.ne_of_lt this).symm
  · simp only [hself]
  · intro i his hit
    rw [getElem?_set_other _ _ _ _ his hs0, getElem?_set_other _ _ _ _ hit ht0]

theorem exFive2_issued : GuidsIssued exFive2 := by
  simp [GuidsIssued, exFive2, FInventoryItem.mk2, FInventoryItem.mkDefault]

/-- Witness of C6: splitting 3 off a stack of 5 in slot 0 into the empty slot 1. -/
theorem C6_SplitStack_witness :
    GuidsIssued exFive2 ∧
    ∃ S1, exFive2.SplitStack 0 1 3 = (true, S1) ∧
      ItemAt S1.Items 1 =
        { ItemData := (ItemAt exFive2.Items 0).ItemData, Quantity := 3,
          InstanceID := exFive2.NextGuid,
          InstanceMetadata := (ItemAt exFive2.Items 0).InstanceMetadata } ∧
      (ItemAt S1.Items 1).IsValid = true ∧
      (ItemAt S1.Items 1).InstanceID ≠ (ItemAt exFive2.Items 0).InstanceID ∧
      ItemAt S1.Items 0 =
        { ItemAt exFive2.Items 0 with Quantity := (ItemAt exFive2.Items 0).Quantity - 3 } ∧
      S1.Items.length = exFive2.Items.length ∧
      (∀ i : Nat, (i : Int) ≠ 0 → (i : Int) ≠ 1 → S1.Items[i]? = exFive2.Items[i]?) :=
  ⟨exFive2_issued,
    C6_SplitStack_creates_new_stack exFive2 0 1 3 (by decide) (by decide) (by decide)
      (by decide) (by decide) (by decide) exFive2_issued⟩

theorem SplitStack_true_iff (S : UInventoryComponent) (s t q : Int) :
    (S.SplitStack s t q).1 = true ↔
      S.IsValidIndex s = true ∧ S.IsValidIndex t = true ∧
      (ItemAt S.Items s).IsValid = true ∧ (ItemAt S.Items t).IsValid = false ∧
      0 < q ∧ q < (ItemAt S.Items s).Quantity := by
  unfold SplitStack
  cases hs : S.IsValidIndex s <;> cases ht : S.IsValidIndex t <;>
    cases hsv : (ItemAt S.Items s).IsValid <;> cases htv : (ItemAt S.Items t).IsValid <;>
    simp
  by_cases hc : q ≤ 0 ∨ (ItemAt S.Items s).Quantity ≤ q
  · rw [if_pos hc]
    simp only [Bool.false_eq_true, false_iff]
    omega
  · rw [if_neg hc]
    simp only [true_iff]
    omega

theorem SplitStack_false (S : UInventoryComponent) (s t q : Int)
    (h : (S.SplitStack s t q).1 = false) : (S.SplitStack s t q).2 = S := by
  unfold SplitStack at h ⊢
  split
  · rfl
  · split
    · rfl
    · split
      · rfl
      · rename_i h1 h2 h3
        simp only [h1, h2, h3, if_false] at h
        exact absurd h (by simp)

theorem SplitStack_eq (S : UInventoryComponent) (s t q : Int)
    (h : (S.SplitStack s t q).1 = true) :
    S.SplitStack s t q = (true,
      { S with
        Items := (S.Items.set t.toNat
            { ItemData := (ItemAt S.Items s).ItemData, Quantity := q, InstanceID := S.NextGuid,
              InstanceMetadata := (ItemAt S.Items s).InstanceMetadata }).set s.toNat
            { ItemAt S.Items s with Quantity := (ItemAt S.Items s).Quantity - q },
        NextGuid := S.NextGuid + 1,
        Broadcasts := S.Broadcasts ++
          [Notification.InventoryUpdated s
              { ItemAt S.Items s with Quantity := (ItemAt S.Items s).Quantity - q },
           Notification.InventoryUpdated t
              { ItemData := (ItemAt S.Items s).ItemData, Quantity := q, InstanceID := S.NextGuid,
                InstanceMetadata := (ItemAt S.Items s).InstanceMetadata }] }) := by
  obtain ⟨hs, ht, hsv, htv, hq0, hq1⟩ := (SplitStack_true_iff S s t q).1 h
  obtain ⟨hs0, hs1⟩ := (IsValidIndex_iff S s).1 hs
  obtain ⟨ht0, ht1⟩ := (IsValidIndex_iff S t).1 ht
  have hne : s ≠ t := by
    rintro rfl
    rw [hsv] at htv
    exact absurd htv (by simp)
  have hst : s.toNat ≠ t.toNat := toNat_ne_of_ne s t hs0 ht0 hne
  have hsrc : ∀ x, ItemAt (S.Items.set t.toNat x) s = ItemAt S.Items s :=
    fun x => ItemAt_set_ne _ _ _ _ hst.symm
  have hs1' : ∀ x, s < ((S.Items.set t.toNat x).length : Int) := fun x => by simpa using hs1
  have hself : ∀ x y, ItemAt ((S.Items.set t.toNat x).set s.toNat y) s = y :=
    fun x y => ItemAt_set_self _ s _ hs0 (hs1' x)
  have htgt : ∀ x y, ItemAt ((S.Items.set t.toNat x).set s.toNat y) t = x := fun x y => by
    rw [ItemAt_set_ne _ _ _ _ hst, ItemAt_set_self _ t _ ht0 ht1]
  have hcond : ¬ (q ≤ 0 ∨ q ≥ (ItemAt S.Items s).Quantity) := by omega
  simp only [SplitStack, hs, ht, hsv, htv, hcond, Bool.not_true, Bool.or_self, Bool.or_false,
    Bool.false_eq_true, if_false, hsrc, hself, htgt, FInventoryItem.mk2]

theorem MergeStacks_eq (S : UInventoryComponent) (s t : Int) (D : UInventoryItemData)
    (hs : S.IsValidIndex s = true) (ht : S.IsValidIndex t = true) (hne : s ≠ t)
    (hcs : CanStack (ItemAt S.Items s) (ItemAt S.Items t) = true)
    (htD : (ItemAt S.Items t).ItemData = some D) :
    S.MergeStacks s t = (true,
      if (ItemAt S.Items s).Quantity
          - min (D.MaxStackSize - (ItemAt S.Items t).Quantity) (ItemAt S.Items s).Quantity ≤ 0 then
        { S with
          Items := (S.Items.set t.toNat
              { ItemAt S.Items t with
                Quantity := (ItemAt S.Items t).Quantity +
                  min (D.MaxStackSize - (ItemAt S.Items t).Quantity)
                    (ItemAt S.Items s).Quantity }).set s.toNat
              (FInventoryItem.mkDefault S.NextGuid),
          NextGuid := S.NextGuid + 1,
          Broadcasts := S.Broadcasts ++
            [Notification.InventoryUpdated s (FInventoryItem.mkDefault S.NextGuid),
             Notification.InventoryUpdated t
              { ItemAt S.Items t with
                Quantity := (ItemAt S.Items t).Quantity +
                  min (D.MaxStackSize - (ItemAt S.Items t).Quantity)
                    (ItemAt S.Items s).Quantity }] }
      else
        { S with
          Items := (S.Items.set t.toNat
              { ItemAt S.Items t with
                Quantity := (ItemAt S.Items t).Quantity +
                  min (D.MaxStackSize - (ItemAt S.Items t).Quantity)
                    (ItemAt S.Items s).Quantity }).set s.toNat
              { ItemAt S.Items s with
                Quantity := (ItemAt S.Items s).Quantity -
                  min (D.MaxStackSize - (ItemAt S.Items t).Quantity)
                    (ItemAt S.Items s).Quantity },
          Broadcasts := S.Broadcasts ++
            [Notification.InventoryUpdated s
              { ItemAt S.Items s with
                Quantity := (ItemAt S.Items s).Quantity -
                  min (D.MaxStackSize - (ItemAt S.Items t).Quantity)
                    (ItemAt S.Items s).Quantity },
             Notification.InventoryUpdated t
              { ItemAt S.Items t with
                Quantity := (ItemAt S.Items t).Quantity +
                  min (D.MaxStackSize - (ItemAt S.Items t).Quantity)
                    (ItemAt S.Items s).Quantity }] }) := by
  obtain ⟨hs0, hs1⟩ := (IsValidIndex_iff S s).1 hs
  obtain ⟨ht0, ht1⟩ := (IsValidIndex_iff S t).1 ht
  have hst : s.toNat ≠ t.toNat := toNat_ne_of_ne s t hs0 ht0 hne
  have hsrc : ∀ x, ItemAt (S.Items.set t.toNat x) s = ItemAt S.Items s :=
    fun x => ItemAt_set_ne _ _ _ _ hst.symm
  have hs1' : ∀ x, s < ((S.Items.set t.toNat x).length : Int) := fun x => by simpa using hs1
  have hself : ∀ x y, ItemAt ((S.Items.set t.toNat x).set s.toNat y) s = y :=
    fun x y => ItemAt_set_self _ s _ hs0 (hs1' x)
  have htgt : ∀ x y, ItemAt ((S.Items.set t.toNat x).set s.toNat y) t = x := fun x y => by
    rw [ItemAt_set_ne _ _ _ _ hst, ItemAt_set_self _ t _ ht0 ht1]
  have hset2 : ∀ (l : List FInventoryItem) (x y : FInventoryItem),
      (l.set s.toNat x).set s.toNat y = l.set s.toNat y := fun l x y => by simp
  simp only [MergeStacks, hs, ht, hcs, htD, Bool.not_true, Bool.or_self, Bool.false_eq_true,
    if_false, hsrc, hself, htgt, hset2]
  split <;> rfl

theorem StackOK_at (S : UInventoryComponent) (hinv : StoreInv S) (i : Int)
    (hi : S.IsValidIndex i = true) (hv : (ItemAt S.Items i).IsValid = true) :
    ∃ D, (ItemAt S.Items i).ItemData = some D ∧ (ItemAt S.Items i).Quantity ≤ D.MaxStackSize ∧
      0 < (ItemAt S.Items i).Quantity := by
  obtain ⟨h0, h1⟩ := (IsValidIndex_iff S i).1 hi
  have hok := hinv.2 _ (ItemAt_mem S.Items i h0 h1)
  have hv' := hv
  simp only [FInventoryItem.IsValid, Bool.and_eq_true, decide_eq_true_eq] at hv'
  cases hD : (ItemAt S.Items i).ItemData with
  | none => simp [hD] at hv'
  | some D =>
    refine ⟨D, rfl, ?_, hv'.2⟩
    simpa [StackOK, hD, hv] using hok

/-- C7. Under the store invariants, when `SplitStack(s, t, q)` returns true the
following `MergeStacks(t, s)` returns true, puts slot `s` back to the stack it
held before the split (same quantity, identifier and metadata) and leaves
slot `t` empty. -/
theorem C7_SplitStack_then_MergeStacks (S : UInventoryComponent) (s t q : Int)
    (hinv : StoreInv S) (hsplit : (S.SplitStack s t q).1 = true) :
    ∃ S2, (S.SplitStack s t q).2.MergeStacks t s = (true, S2) ∧
      (ItemAt S2.Items s).Quantity = (ItemAt S.Items s).Quantity ∧
      ItemAt S2.Items s = ItemAt S.Items s ∧
      (ItemAt S2.Items t).IsValid = false := by
  obtain ⟨hs, ht, hsv, htv, hq0, hq1⟩ := (SplitStack_true_iff S s t q).1 hsplit
  obtain ⟨hs0, hs1⟩ := (IsValidIndex_iff S s).1 hs
  obtain ⟨ht0, ht1⟩ := (IsValidIndex_iff S t).1 ht
  obtain ⟨D, hD, hle, hpos⟩ := StackOK_at S hinv s hs hsv
  have hne : s ≠ t := by
    rintro rfl
    rw [hsv] at htv
    exact absurd htv (by simp)
  have hst : s.toNat ≠ t.toNat := toNat_ne_of_ne s t hs0 ht0 hne
  rw [SplitStack_eq S s t q hsplit]
  -- the two slots after the split
  have hS1s : ∀ x y, ItemAt ((S.Items.set t.toNat x).set s.toNat y) s = y := fun x y =>
    ItemAt_set_self _ s _ hs0 (by simpa using hs1)
  have hS1t : ∀ x y, ItemAt ((S.Items.set t.toNat x).set s.toNat y) t = x := fun x y => by
    rw [ItemAt_set_ne _ _ _ _ hst, ItemAt_set_self _ t _ ht0 ht1]
  have hlen : ∀ x y, ((S.Items.set t.toNat x).set s.toNat y).length = S.Items.length :=
    fun x y => by simp
  rw [MergeStacks_eq _ t s D (by simp [IsValidIndex, ht0, ht1]) (by simp [IsValidIndex, hs0, hs1])
    hne.symm
    (by
      simp only [hS1s, hS1t]
      rw [CanStack_iff]
      refine ⟨?_, ?_, D, hD, hD, by omega⟩
      · simp only [FInventoryItem.IsValid, Bool.and_eq_true, decide_eq_true_eq, hD]
        exact ⟨rfl, hq0⟩
      · simp only [FInventoryItem.IsValid, Bool.and_eq_true, decide_eq_true_eq, hD]
        exact ⟨rfl, by omega⟩)
    (by simp only [hS1s, hD])]
  simp only [hS1s, hS1t]
  have hmin : min (D.MaxStackSize - ((ItemAt S.Items s).Quantity - q)) q = q :=
    min_eq_right (by omega)
  simp only [hmin, sub_self, le_refl, if_true]
  refine ⟨_, rfl, ?_, ?_, ?_⟩
  · simp only []
    rw [ItemAt_set_ne _ _ _ _ hst.symm, ItemAt_set_self _ s _ hs0 (by simpa using hs1)]
    simp
  · simp only []
    rw [ItemAt_set_ne _ _ _ _ hst.symm, ItemAt_set_self _ s _ hs0 (by simpa using hs1)]
    cases hsrc : ItemAt S.Items s
    simp
  · simp only []
    rw [ItemAt_set_self _ t _ ht0 (by simpa using ht1)]
    rfl

theorem exFive2_inv : StoreInv exFive2 := by
  refine ⟨by decide, ?_⟩
  decide

/-- Witness of C7: splitting 3 off the 5 in slot 0 into slot 1 and merging back. -/
theorem C7_SplitStack_then_MergeStacks_witness :
    StoreInv exFive2 ∧ (exFive2.SplitStack 0 1 3).1 = true ∧
    ∃ S2, (exFive2.SplitStack 0 1 3).2.MergeStacks 1 0 = (true, S2) ∧
      (ItemAt S2.Items 0).Quantity = (ItemAt exFive2.Items 0).Quantity ∧
      ItemAt S2.Items 0 = ItemAt exFive2.Items 0 ∧
      (ItemAt S2.Items 1).IsValid = false :=
  ⟨exFive2_inv, by decide,
    C7_SplitStack_then_MergeStacks exFive2 0 1 3 exFive2_inv (by decide)⟩

/-- C8. For in-range slots `FromSlot` (a valid stack of quantity `n`) and
`ToSlot` (empty) and `0 < q < n`, `MoveItem(FromSlot, ToSlot, q)` returns what
`SplitStack(FromSlot, ToSlot, q)` returns and leaves the same component, and
that result is success. -/
theorem C8_MoveItem_splits (S : UInventoryComponent) (FromSlot ToSlot q : Int)
    (hf : S.IsValidIndex FromSlot = true) (ht : S.IsValidIndex ToSlot = true)
    (hfv : (ItemAt S.Items FromSlot).IsValid = true)
    (htv : (ItemAt S.Items ToSlot).IsValid = false)
    (hq0 : 0 < q) (hq1 : q < (ItemAt S.Items FromSlot).Quantity) :
    S.MoveItem FromSlot ToSlot q = S.SplitStack FromSlot ToSlot q ∧
      (S.SplitStack FromSlot ToSlot q).1 = true := by
  have hq : ¬ q ≤ 0 := by omega
  have hmin : min q (ItemAt S.Items FromSlot).Quantity = q := min_eq_left (by omega)
  have hneq : ¬ q = (ItemAt S.Items FromSlot).Quantity := by omega
  refine ⟨?_, (SplitStack_true_iff S FromSlot ToSlot q).2 ⟨hf, ht, hfv, htv, hq0, hq1⟩⟩
  simp only [MoveItem, hf, ht, hfv, htv, hq, hmin, hneq, Bool.not_true, Bool.not_false,
    Bool.or_self, Bool.false_eq_true, if_false, if_true]

/-- Witness of C8, the scenario of the specification: slot 0 holds 5 (maximum
10), slot 1 is empty; `MoveItem(0, 1, 3)` leaves 2 in slot 0 and a new stack of
3 in slot 1. -/
theorem C8_MoveItem_witness :
    (exFive2.MoveItem 0 1 3 = (true,
      { exFive2 with
        Items := [FInventoryItem.mk2 (some exD) 2 0, FInventoryItem.mk2 (some exD) 3 2],
        NextGuid := 3,
        Broadcasts := [Notification.InventoryUpdated 0 (FInventoryItem.mk2 (some exD) 2 0),
                       Notification.InventoryUpdated 1 (FInventoryItem.mk2 (some exD) 3 2)] })) ∧
    (exFive2.MoveItem 0 1 3 = exFive2.SplitStack 0 1 3 ∧ (exFive2.SplitStack 0 1 3).1 = true) :=
  ⟨by decide,
    C8_MoveItem_splits exFive2 0 1 3 (by decide) (by decide) (by decide) (by decide)
      (by decide) (by decide)⟩

/-- C9. For in-range slots `FromSlot` (a valid stack of quantity `n`) and
`ToSlot` (empty) and a quantity argument `q ≤ 0` or `q ≥ n`,
`MoveItem(FromSlot, ToSlot, q)` returns true; slot `ToSlot` then holds the
source stack (definition, quantity, metadata and identifier), slot `FromSlot`
is empty, every other slot is unchanged, and exactly two `OnInventoryUpdated`
calls are made, for `FromSlot` and then for `ToSlot`. -/
theorem C9_MoveItem_relocates (S : UInventoryComponent) (FromSlot ToSlot q : Int)
    (hf : S.IsValidIndex FromSlot = true) (ht : S.IsValidIndex ToSlot = true)
    (hfv : (ItemAt S.Items FromSlot).IsValid = true)
    (htv : (ItemAt S.Items ToSlot).IsValid = false)
    (hq : q ≤ 0 ∨ (ItemAt S.Items FromSlot).Quantity ≤ q) :
    ∃ S1, S.MoveItem FromSlot ToSlot q = (true, S1) ∧
      ItemAt S1.Items ToSlot = ItemAt S.Items FromSlot ∧
      (ItemAt S1.Items FromSlot).IsValid = false ∧
      S1.Items.length = S.Items.length ∧
      (∀ i : Nat, (i : Int) ≠ FromSlot → (i : Int) ≠ ToSlot → S1.Items[i]? = S.Items[i]?) ∧
      S1.Broadcasts = S.Broadcasts ++
        [Notification.InventoryUpdated FromSlot (ItemAt S1.Items FromSlot),
         Notification.InventoryUpdated ToSlot (ItemAt S1.Items ToSlot)] := by
  obtain ⟨hs0, hs1⟩ := (IsValidIndex_iff S FromSlot).1 hf
  obtain ⟨ht0, ht1⟩ := (IsValidIndex_iff S ToSlot).1 ht
  have hne : FromSlot ≠ ToSlot := by
    rintro rfl
    rw [hfv] at htv
    exact absurd htv (by simp)
  have hst : FromSlot.toNat ≠ ToSlot.toNat := toNat_ne_of_ne _ _ hs0 ht0 hne
  have hmove : (if q ≤ 0 then (ItemAt S.Items FromSlot).Quantity
      else min q (ItemAt S.Items FromSlot).Quantity) = (ItemAt S.Items FromSlot).Quantity := by
    split
    · rfl
    · exact min_eq_right (by omega)
  have hfrom : ∀ x y, ItemAt ((S.Items.set ToSlot.toNat x).set FromSlot.toNat y) FromSlot = y :=
    fun x y => ItemAt_set_self _ _ _ hs0 (by simpa using hs1)
  have hto : ∀ x y, ItemAt ((S.Items.set ToSlot.toNat x).set FromSlot.toNat y) ToSlot = x :=
    fun x y => by rw [ItemAt_set_ne _ _ _ _ hst, ItemAt_set_self _ _ _ ht0 ht1]
  simp only [MoveItem, hf, ht, hfv, htv, hmove, Bool.not_true, Bool.not_false, Bool.or_self,
    Bool.false_eq_true, if_false, if_true, hfrom, hto]
  refine ⟨_, rfl, ?_, ?_, by simp, ?_, ?_⟩
  · simp only [hto]
  · simp only [hfrom]
    rfl
  · intro i hi1 hi2
    simp only []
    rw [getElem?_set_other _ _ _ _ hi1 hs0, getElem?_set_other _ _ _ _ hi2 ht0]
  · simp only [hfrom, hto]

/-- Witness of C9: `MoveItem(0, 1)` with the default quantity `-1` moves the
whole stack of 5 from slot 0 to the empty slot 1. -/
theorem C9_MoveItem_witness :
    (exFive2.MoveItem 0 1 (-1) = (true,
      { exFive2 with
        Items := [FInventoryItem.mkDefault 2, FInventoryItem.mk2 (some exD) 5 0],
        NextGuid := 3,
        Broadcasts := [Notification.InventoryUpdated 0 (FInventoryItem.mkDefault 2),
                       Notification.InventoryUpdated 1 (FInventoryItem.mk2 (some exD) 5 0)] })) ∧
    ∃ S1, exFive2.MoveItem 0 1 (-1) = (true, S1) ∧
      ItemAt S1.Items 1 = ItemAt exFive2.Items 0 ∧
      (ItemAt S1.Items 0).IsValid = false ∧
      S1.Items.length = exFive2.Items.length ∧
      (∀ i : Nat, (i : Int) ≠ 0 → (i : Int) ≠ 1 → S1.Items[i]? = exFive2.Items[i]?) ∧
      S1.Broadcasts = exFive2.Broadcasts ++
        [Notification.InventoryUpdated 0 (ItemAt S1.Items 0),
         Notification.InventoryUpdated 1 (ItemAt S1.Items 1)] :=
  ⟨by decide,
    C9_MoveItem_relocates exFive2 0 1 (-1) (by decide) (by decide) (by decide) (by decide)
      (Or.inl (by decide))⟩

/-- C10. `RemoveItemAtSlot(i, q)` returns false exactly when `i` is out of
range, slot `i` holds no valid stack, `q ≤ 0` or `q` exceeds the stack's
quantity, and then the component is unchanged (no delegate call).  Otherwise it
returns true: slot `i` keeps its stack with `q` units less when `q` is below
the stack's quantity and is empty exactly when `q` equals it, every other slot
is unchanged, and exactly one `OnInventoryUpdated` call is made, carrying the
content of slot `i` after the change. -/
theorem C10_RemoveItemAtSlot (S : UInventoryComponent) (i q : Int) :
    ((S.RemoveItemAtSlot i q).1 = false ↔
      (S.IsValidIndex i = false ∨ (ItemAt S.Items i).IsValid = false ∨ q ≤ 0 ∨
        (ItemAt S.Items i).Quantity < q)) ∧
    ((S.RemoveItemAtSlot i q).1 = false → (S.RemoveItemAtSlot i q).2 = S) ∧
    ((S.RemoveItemAtSlot i q).1 = true →
      (q < (ItemAt S.Items i).Quantity →
        ItemAt (S.RemoveItemAtSlot i q).2.Items i =
          { ItemAt S.Items i with Quantity := (ItemAt S.Items i).Quantity - q }) ∧
      ((ItemAt (S.RemoveItemAtSlot i q).2.Items i).IsValid = false ↔
        q = (ItemAt S.Items i).Quantity) ∧
      (S.RemoveItemAtSlot i q).2.Items.length = S.Items.length ∧
      (∀ j : Nat, (j : Int) ≠ i → (S.RemoveItemAtSlot i q).2.Items[j]? = S.Items[j]?) ∧
      (S.RemoveItemAtSlot i q).2.Broadcasts = S.Broadcasts ++
        [Notification.InventoryUpdated i (ItemAt (S.RemoveItemAtSlot i q).2.Items i)]) := by
  by_cases hg1 : (!S.IsValidIndex i || !(ItemAt S.Items i).IsValid) = true
  · have e : S.RemoveItemAtSlot i q = (false, S) := by
      simp only [RemoveItemAtSlot, hg1, if_true]
    have hd : S.IsValidIndex i = false ∨ (ItemAt S.Items i).IsValid = false := by
      simpa using hg1
    rw [e]
    refine ⟨?_, fun _ => rfl, fun h => absurd h (by simp)⟩
    simp only [true_iff]
    rcases hd with h | h
    · exact Or.inl h
    · exact Or.inr (Or.inl h)
  · have hv : S.IsValidIndex i = true ∧ (ItemAt S.Items i).IsValid = true := by
      simpa using hg1
    obtain ⟨h0, h1⟩ := (IsValidIndex_iff S i).1 hv.1
    by_cases hg2 : q ≤ 0 ∨ q > (ItemAt S.Items i).Quantity
    · have e : S.RemoveItemAtSlot i q = (false, S) := by
        simp only [RemoveItemAtSlot, hg1, hg2, if_true]
        rfl
      rw [e]
      refine ⟨?_, fun _ => rfl, fun h => absurd h (by simp)⟩
      simp only [true_iff]
      rcases hg2 with h | h
      · exact Or.inr (Or.inr (Or.inl h))
      · exact Or.inr (Or.inr (Or.inr h))
    · have hq0 : 0 < q := by omega
      have hq1 : q ≤ (ItemAt S.Items i).Quantity := by omega
      have hne : ¬ (S.IsValidIndex i = false ∨ (ItemAt S.Items i).IsValid = false ∨ q ≤ 0 ∨
          (ItemAt S.Items i).Quantity < q) := by
        rintro (h | h | h | h)
        · rw [hv.1] at h
          exact absurd h (by simp)
        · rw [hv.2] at h
          exact absurd h (by simp)
        · omega
        · omega
      by_cases hz : (ItemAt S.Items i).Quantity - q ≤ 0
      · have e : S.RemoveItemAtSlot i q = (true,
            { S with Items := S.Items.set i.toNat (FInventoryItem.mkDefault S.NextGuid),
                     NextGuid := S.NextGuid + 1,
                     Broadcasts := S.Broadcasts ++
                       [Notification.InventoryUpdated i (FInventoryItem.mkDefault S.NextGuid)] }) := by
          simp only [RemoveItemAtSlot, hg1, hg2, hz, if_true]
          rfl
        rw [e]
        refine ⟨by simpa using hne, fun h => absurd h (by simp), fun _ => ⟨?_, ?_, by simp, ?_, ?_⟩⟩
        · intro h
          omega
        · simp only [ItemAt_set_self _ i _ h0 h1]
          constructor
          · intro _
            omega
          · intro _
            rfl
        · intro j hj
          exact getElem?_set_other _ _ _ _ hj h0
        · simp only [ItemAt_set_self _ i _ h0 h1]
      · have e : S.RemoveItemAtSlot i q = (true,
            { S with Items := S.Items.set i.toNat
                       { ItemAt S.Items i with Quantity := (ItemAt S.Items i).Quantity - q },
                     Broadcasts := S.Broadcasts ++
                       [Notification.InventoryUpdated i
                         { ItemAt S.Items i with
                           Quantity := (ItemAt S.Items i).Quantity - q }] }) := by
          simp only [RemoveItemAtSlot, hg1, hg2, hz, if_false]
          rfl
        rw [e]
        refine ⟨by simpa using hne, fun h => absurd h (by simp), fun _ => ⟨?_, ?_, by simp, ?_, ?_⟩⟩
        · intro _
          simp only [ItemAt_set_self _ i _ h0 h1]
        · simp only [ItemAt_set_self _ i _ h0 h1]
          have hval : FInventoryItem.IsValid
              { ItemAt S.Items i with Quantity := (ItemAt S.Items i).Quantity - q } = true := by
            have := hv.2
            simp only [FInventoryItem.IsValid, Bool.and_eq_true, decide_eq_true_eq] at this ⊢
            exact ⟨this.1, by omega⟩
          rw [hval]
          constructor
          · intro h
            exact absurd h (by simp)
          · intro h
            omega
        · intro j hj
          exact getElem?_set_other _ _ _ _ hj h0
        · simp only [ItemAt_set_self _ i _ h0 h1]

/-- Witness of C10: removing all 5 units empties slot 0; removing from the empty
slot 1 fails and changes nothing. -/
theorem C10_RemoveItemAtSlot_witness :
    (exFive2.RemoveItemAtSlot 0 5).1 = true ∧
    (ItemAt (exFive2.RemoveItemAtSlot 0 5).2.Items 0).IsValid = false ∧
    (exFive2.RemoveItemAtSlot 1 1).2 = exFive2 :=
  ⟨by decide,
    ((C10_RemoveItemAtSlot exFive2 0 5).2.2 (by decide)).2.1.2 (by decide),
    (C10_RemoveItemAtSlot exFive2 1 1).2.1 (by decide)⟩

theorem SortPlaceBack_eq (sorted : List FInventoryItem) :
    ∀ (pre tl : List FInventoryItem) (calls : List Notification),
      sorted.length ≤ tl.length →
      SortPlaceBack sorted (pre.length : Int) (pre ++ tl) calls =
        (pre ++ sorted ++ tl.drop sorted.length, calls ++ placeCalls sorted (pre.length : Int)) := by
  induction sorted with
  | nil =>
    intro pre tl calls _
    simp [SortPlaceBack, placeCalls]
  | cons v rest ih =>
    intro pre tl calls hlen
    cases tl with
    | nil => simp at hlen
    | cons x tl =>
      have hlen' : rest.length ≤ tl.length := by simpa using hlen
      have hself : ItemAt (pre ++ v :: tl) (pre.length : Int) = v := by
        have h1 := ItemAt_set_self (pre ++ x :: tl) (pre.length : Int) v (by omega)
          (by simp)
        rwa [Int.toNat_ofNat, set_append_mid] at h1
      have e := ih (pre ++ [v]) tl
        (calls ++ [Notification.InventoryUpdated (pre.length : Int) v]) hlen'
      simp only [List.length_append, List.length_singleton, Nat.cast_add, Nat.cast_one,
        List.append_assoc, List.singleton_append] at e
      rw [SortPlaceBack]
      simp only [Int.toNat_ofNat, set_append_mid, hself]
      rw [e]
      simp [placeCalls]

theorem SortedStacks_length_le (S : UInventoryComponent) (b : Bool) :
    (SortedStacks S b).length ≤ S.Items.length := by
  unfold SortedStacks TArraySort
  split <;> simp only [List.length_insertionSort] <;> exact List.length_filter_le _ _

theorem SortInventory_eq (S : UInventoryComponent) (b : Bool) :
    S.SortInventory b =
      { S with
        Items := SortedStacks S b ++
          List.replicate (S.Items.length - (SortedStacks S b).length)
            (FInventoryItem.mkDefault S.NextGuid),
        NextGuid := S.NextGuid + 1,
        Broadcasts := S.Broadcasts ++ placeCalls (SortedStacks S b) 0 } := by
  have h := SortPlaceBack_eq (SortedStacks S b) []
    (List.replicate S.Items.length (FInventoryItem.mkDefault S.NextGuid)) []
    (by simpa using SortedStacks_length_le S b)
  simp only [List.length_nil, Nat.cast_zero, List.nil_append, List.drop_replicate] at h
  unfold SortInventory
  have e : (if b = true then TArraySort SortByName (S.Items.filter (fun Item => Item.IsValid))
      else TArraySort SortByRarity (S.Items.filter (fun Item => Item.IsValid)))
      = SortedStacks S b := rfl
  simp only [e, h]

theorem SortedStacks_perm (S : UInventoryComponent) (b : Bool) :
    (SortedStacks S b).Perm (S.Items.filter (fun Item => Item.IsValid)) := by
  unfold SortedStacks TArraySort
  split <;> exact List.perm_insertionSort _ _

theorem SortedStacks_valid (S : UInventoryComponent) (b : Bool) :
    ∀ it ∈ SortedStacks S b, it.IsValid = true := by
  intro it hit
  have := (SortedStacks_perm S b).mem_iff.1 hit
  simpa using (List.mem_filter.1 this).2

theorem SortedStacks_length (S : UInventoryComponent) (b : Bool) :
    (SortedStacks S b).length = S.Items.countP (fun Item => Item.IsValid) := by
  rw [(SortedStacks_perm S b).length_eq, List.countP_eq_length_filter]

/-- C12. After `SortInventory` (either mode) the slot list has the same length;
with `k` the number of valid stacks before the call, the first `k` slots hold
valid stacks, the slots from `k` on are empty, and the first `k` slots are a
permutation of the valid stacks before the call (the stacks themselves:
definition, quantity, metadata and identifier). -/
theorem C12_SortInventory_dense_permutation (S : UInventoryComponent) (bByName : Bool) :
    (S.SortInventory bByName).Items.length = S.Items.length ∧
    (∀ it ∈ (S.SortInventory bByName).Items.take (S.Items.countP (fun Item => Item.IsValid)),
      it.IsValid = true) ∧
    (∀ it ∈ (S.SortInventory bByName).Items.drop (S.Items.countP (fun Item => Item.IsValid)),
      it.IsValid = false) ∧
    ((S.SortInventory bByName).Items.take (S.Items.countP (fun Item => Item.IsValid))).Perm
      (S.Items.filter (fun Item => Item.IsValid)) := by
  have hk := SortedStacks_length S bByName
  have hle := SortedStacks_length_le S bByName
  rw [SortInventory_eq]
  simp only []
  rw [← hk]
  refine ⟨?_, ?_, ?_, ?_⟩
  · simp only [List.length_append, List.length_replicate]
    omega
  · intro it hit
    rw [List.take_left'] at hit
    · exact SortedStacks_valid S bByName it hit
    · rfl
  · intro it hit
    rw [List.drop_left'] at hit
    · rw [List.eq_of_mem_replicate hit]
      rfl
    · rfl
  · rw [List.take_left']
    · exact SortedStacks_perm S bByName
    · rfl

theorem toNat_injective (a b : EItemRarity) (h : a.toNat = b.toNat) : a = b := by
  cases a <;> cases b <;> first | rfl | (simp [EItemRarity.toNat] at h)

theorem SortByName_false_iff (a b : FInventoryItem) :
    SortByName b a = false ↔ NameOf a ≤ NameOf b := by
  simp [SortByName, NameLess]

theorem SortByRarity_false_iff (a b : FInventoryItem) :
    SortByRarity b a = false ↔
      ((RarityOf a).toNat > (RarityOf b).toNat ∨
        (RarityOf a = RarityOf b ∧ NameOf a ≤ NameOf b)) := by
  unfold SortByRarity
  by_cases h : RarityOf b = RarityOf a
  · simp [h, NameLess]
  · have hne : (RarityOf b).toNat ≠ (RarityOf a).toNat := fun e => h (toNat_injective _ _ e)
    have h' : ¬ RarityOf a = RarityOf b := fun e => h e.symm
    simp only [ne_eq, h, not_false_eq_true, if_true, decide_eq_false_iff_not, h', false_and,
      or_false, gt_iff_lt]
    omega

theorem sorted_TArraySort_name (l : List FInventoryItem) :
    (TArraySort SortByName l).Sorted (fun a b => SortByName b a = false) := by
  have ht : IsTotal FInventoryItem (fun a b => SortByName b a = false) :=
    ⟨fun a b => by
      simp only [SortByName_false_iff]
      exact le_total _ _⟩
  have htr : IsTrans FInventoryItem (fun a b => SortByName b a = false) :=
    ⟨fun a b c => by
      simp only [SortByName_false_iff]
      exact le_trans⟩
  exact List.sorted_insertionSort _ l

theorem sorted_TArraySort_rarity (l : List FInventoryItem) :
    (TArraySort SortByRarity l).Sorted (fun a b => SortByRarity b a = false) := by
  have ht : IsTotal FInventoryItem (fun a b => SortByRarity b a = false) :=
    ⟨fun a b => by
      simp only [SortByRarity_false_iff]
      rcases lt_trichotomy (RarityOf a).toNat (RarityOf b).toNat with h | h | h
      · exact Or.inr (Or.inl h)
      · have e := toNat_injective _ _ h
        rcases le_total (NameOf a) (NameOf b) with h1 | h1
        · exact Or.inl (Or.inr ⟨e, h1⟩)
        · exact Or.inr (Or.inr ⟨e.symm, h1⟩)
      · exact Or.inl (Or.inl h)⟩
  have htr : IsTrans FInventoryItem (fun a b => SortByRarity b a = false) :=
    ⟨fun a b c => by
      simp only [SortByRarity_false_iff]
      rintro (h1 | ⟨e1, n1⟩) (h2 | ⟨e2, n2⟩)
      · exact Or.inl (by omega)
      · exact Or.inl (by rw [← e2]; exact h1)
      · exact Or.inl (by rw [e1]; exact h2)
      · exact Or.inr ⟨e1.trans e2, le_trans n1 n2⟩⟩
  exact List.sorted_insertionSort _ l

/-- Consecutive entries of the sorted stacks lie in the slots `i` and `i + 1`
of the component after `SortInventory` whenever both slots hold valid stacks. -/
theorem SortInventory_consecutive (S : UInventoryComponent) (bByName : Bool) (i : Nat)
    (a b : FInventoryItem)
    (ha : (S.SortInventory bByName).Items[i]? = some a)
    (hb : (S.SortInventory bByName).Items[i + 1]? = some b)
    (hbv : b.IsValid = true) :
    ∃ (h : i + 1 < (SortedStacks S bByName).length),
      (SortedStacks S bByName)[i] = a ∧ (SortedStacks S bByName)[i + 1] = b := by
  rw [SortInventory_eq] at ha hb
  simp only [] at ha hb
  have hlt : i + 1 < (SortedStacks S bByName).length := by
    by_contra hcon
    rw [List.getElem?_append_right (by omega)] at hb
    have hmem := List.getElem?_mem hb
    rw [List.eq_of_mem_replicate hmem] at hbv
    exact absurd hbv (by simp [FInventoryItem.mkDefault, FInventoryItem.IsValid])
  refine ⟨hlt, ?_, ?_⟩
  · rw [List.getElem?_append_left (by omega), List.getElem?_eq_getElem (by omega)] at ha
    exact Option.some.inj ha
  · rw [List.getElem?_append_left hlt, List.getElem?_eq_getElem hlt] at hb
    exact Option.some.inj hb

/-- C13. After `SortInventory(true)` the display names of the stacks in
consecutive occupied slots are in non-decreasing order; after
`SortInventory(false)` the earlier of two consecutive stacks has a strictly
higher rarity, or the same rarity and a display name that is not greater. -/
theorem C13_SortInventory_order (S : UInventoryComponent) (i : Nat) (a b : FInventoryItem)
    (da db : UInventoryItemData) :
    ((S.SortInventory true).Items[i]? = some a → (S.SortInventory true).Items[i + 1]? = some b →
      a.IsValid = true → b.IsValid = true → a.ItemData = some da → b.ItemData = some db →
      da.ItemName ≤ db.ItemName) ∧
    ((S.SortInventory false).Items[i]? = some a → (S.SortInventory false).Items[i + 1]? = some b →
      a.IsValid = true → b.IsValid = true → a.ItemData = some da → b.ItemData = some db →
      (da.Rarity.toNat > db.Rarity.toNat ∨
        (da.Rarity = db.Rarity ∧ da.ItemName ≤ db.ItemName))) := by
  constructor
  · intro ha hb _ hbv hda hdb
    obtain ⟨hlt, e1, e2⟩ := SortInventory_consecutive S true i a b ha hb hbv
    have hs : (SortedStacks S true).Sorted (fun a b => SortByName b a = false) := by
      simpa [SortedStacks] using sorted_TArraySort_name _
    have hrel := List.pairwise_iff_getElem.1 hs i (i + 1) (by omega) hlt (by omega)
    rw [e1, e2, SortByName_false_iff] at hrel
    simpa [NameOf, hda, hdb] using hrel
  · intro ha hb _ hbv hda hdb
    obtain ⟨hlt, e1, e2⟩ := SortInventory_consecutive S false i a b ha hb hbv
    have hs : (SortedStacks S false).Sorted (fun a b => SortByRarity b a = false) := by
      simpa [SortedStacks] using sorted_TArraySort_rarity _
    have hrel := List.pairwise_iff_getElem.1 hs i (i + 1) (by omega) hlt (by omega)
    rw [e1, e2, SortByRarity_false_iff] at hrel
    simpa [NameOf, RarityOf, hda, hdb] using hrel

theorem filter_valid_sorted_append (sorted : List FInventoryItem) (n : Nat) (g : FGuid)
    (hv : ∀ it ∈ sorted, it.IsValid = true) :
    (sorted ++ List.replicate n (FInventoryItem.mkDefault g)).filter (fun Item => Item.IsValid)
      = sorted := by
  rw [List.filter_append]
  have h1 : sorted.filter (fun Item => Item.IsValid) = sorted :=
    List.filter_eq_self.2 hv
  have h2 : (List.replicate n (FInventoryItem.mkDefault g)).filter (fun Item => Item.IsValid)
      = [] := by
    rw [List.filter_eq_nil_iff]
    intro a ha
    rw [List.eq_of_mem_replicate ha]
    simp [FInventoryItem.mkDefault, FInventoryItem.IsValid]
  rw [h1, h2, List.append_nil]

theorem SortedStacks_sorted_again (S : UInventoryComponent) (b : Bool) :
    SortedStacks (S.SortInventory b) b = SortedStacks S b := by
  have hf : (S.SortInventory b).Items.filter (fun Item => Item.IsValid) = SortedStacks S b := by
    rw [SortInventory_eq]
    exact filter_valid_sorted_append _ _ _ (SortedStacks_valid S b)
  unfold SortedStacks
  rw [hf]
  cases b with
  | true =>
    simp only [if_true]
    have hs : (SortedStacks S true).Sorted (fun a b => SortByName b a = false) := by
      simpa [SortedStacks] using sorted_TArraySort_name _
    exact List.Sorted.insertionSort_eq hs
  | false =>
    simp only [Bool.false_eq_true, if_false]
    have hs : (SortedStacks S false).Sorted (fun a b => SortByRarity b a = false) := by
      simpa [SortedStacks] using sorted_TArraySort_rarity _
    exact List.Sorted.insertionSort_eq hs

theorem map_slotContent_sorted_append (sorted : List FInventoryItem) (n : Nat) (g : FGuid)
    (hv : ∀ it ∈ sorted, it.IsValid = true) :
    (sorted ++ List.replicate n (FInventoryItem.mkDefault g)).map slotContent
      = sorted.map some ++ List.replicate n none := by
  rw [List.map_append, List.map_replicate]
  congr 1
  apply List.map_congr_left
  intro a ha
  simp [slotContent, hv a ha]

/-- C14. `SortInventory` is idempotent: calling it twice with the same mode
leaves in every slot what one call leaves there, the same stack with the same
identifier in an occupied slot and nothing in an empty slot. -/
theorem C14_SortInventory_idempotent (S : UInventoryComponent) (bByName : Bool) :
    ((S.SortInventory bByName).SortInventory bByName).Items.map slotContent
      = (S.SortInventory bByName).Items.map slotContent ∧
    ((S.SortInventory bByName).SortInventory bByName).Items.length
      = (S.SortInventory bByName).Items.length := by
  have h2 := SortInventory_eq (S.SortInventory bByName) bByName
  rw [SortedStacks_sorted_again] at h2
  have h1 := SortInventory_eq S bByName
  have hle := SortedStacks_length_le S bByName
  have hlen1 : (S.SortInventory bByName).Items.length = S.Items.length := by
    rw [h1]
    simp only [List.length_append, List.length_replicate]
    omega
  rw [hlen1] at h2
  rw [h2]
  simp only []
  rw [map_slotContent_sorted_append _ _ _ (SortedStacks_valid S bByName)]
  rw [h1]
  simp only []
  rw [map_slotContent_sorted_append _ _ _ (SortedStacks_valid S bByName)]
  simp

theorem placeCalls_length (l : List FInventoryItem) (i : Int) :
    (placeCalls l i).length = l.length := by
  induction l generalizing i with
  | nil => rfl
  | cons v rest ih => simp [placeCalls, ih]

/-- C19 on the code: `SortInventory` calls `OnInventoryUpdated` once per valid
stack, for the slots `0 .. k-1` it fills, and not for the slots behind them.
In the store `[empty, 5 of exD]` the stack moves to slot 0 and slot 1 becomes
empty, yet the only call made is the one for slot 0. -/
theorem C19_SortInventory_notifies_filled_slots_only :
    (∀ (S : UInventoryComponent) (bByName : Bool),
      (S.SortInventory bByName).Broadcasts
          = S.Broadcasts ++ placeCalls (SortedStacks S bByName) 0 ∧
      (placeCalls (SortedStacks S bByName) 0).length
          = S.Items.countP (fun Item => Item.IsValid)) ∧
    (exGap2.SortInventory true).Items
      = [FInventoryItem.mk2 (some exD) 5 1, FInventoryItem.mkDefault 2] ∧
    (exGap2.SortInventory true).Broadcasts
      = [Notification.InventoryUpdated 0 (FInventoryItem.mk2 (some exD) 5 1)] := by
  refine ⟨fun S b => ⟨?_, ?_⟩, by decide, by decide⟩
  · rw [SortInventory_eq]
  · rw [placeCalls_length, SortedStacks_length]

/-- C18. `SplitStack(s, t, q)` returns false exactly when `s` or `t` is out of
range, slot `s` holds no valid stack, slot `t` holds a valid stack, `q ≤ 0`, or
`q` is at least the source stack's quantity (the whole stack included); when it
returns false the component is unchanged, so no slot changes and no delegate
is called. -/
theorem C18_SplitStack_fails_iff (S : UInventoryComponent) (s t q : Int) :
    ((S.SplitStack s t q).1 = false ↔
      (S.IsValidIndex s = false ∨ S.IsValidIndex t = false ∨
        (ItemAt S.Items s).IsValid = false ∨ (ItemAt S.Items t).IsValid = true ∨
        q ≤ 0 ∨ (ItemAt S.Items s).Quantity ≤ q)) ∧
    ((S.SplitStack s t q).1 = false → (S.SplitStack s t q).2 = S) ∧
    ((ItemAt S.Items s).IsValid = true → S.IsValidIndex s = true → S.IsValidIndex t = true →
      (S.SplitStack s t (ItemAt S.Items s).Quantity).1 = false) := by
  have hiff := SplitStack_true_iff S s t q
  refine ⟨?_, SplitStack_false S s t q, ?_⟩
  · constructor
    · intro hf
      by_contra hcon
      simp only [not_or, Bool.not_eq_false, Bool.not_eq_true, not_le] at hcon
      obtain ⟨h1, h2, h3, h4, h5, h6⟩ := hcon
      have := hiff.2 ⟨h1, h2, h3, h4, h5, h6⟩
      rw [this] at hf
      exact absurd hf (by decide)
    · intro hd
      cases hr : (S.SplitStack s t q).1 with
      | false => rfl
      | true =>
        obtain ⟨h1, h2, h3, h4, h5, h6⟩ := hiff.1 hr
        rcases hd with h | h | h | h | h | h
        · rw [h1] at h; exact absurd h (by decide)
        · rw [h2] at h; exact absurd h (by decide)
        · rw [h3] at h; exact absurd h (by decide)
        · rw [h4] at h; exact absurd h (by decide)
        · omega
        · omega
  · intro _ _ _
    cases hr : (S.SplitStack s t (ItemAt S.Items s).Quantity).1 with
    | false => rfl
    | true =>
      have := ((SplitStack_true_iff S s t _).1 hr).2.2.2.2.2
      omega

theorem exShort_can : exShort.CanAddItem (some exD) 10 = true := by
  simp [CanAddItem, exShort, CanAddItemLoop, CanAddItemSlots, GetOccupiedSlots,
    FInventoryItem.mk2, FInventoryItem.IsValid, exD]
  rw [CeilToInt_FloatDiv_small 5 10 (by norm_num) (by norm_num)]

/-- C20. There is a component state, a definition and a quantity for which
`AddItem` returns `(false, -1)` after it has changed a slot: with one slot
holding 5 of 10 and `MaxSlots = 2`, `CanAddItem(D, 10)` is true, `TryStackItem`
fills the slot to 10, and the loop then finds no empty slot for the remaining 5
and fails, leaving the slot at 10. -/
theorem C20_AddItem_fails_after_partial_effect :
    ∃ (S : UInventoryComponent) (D : UInventoryItemData) (q : Int) (S1 : UInventoryComponent),
      S.CanAddItem (some D) q = true ∧
      (∀ (fuel : Nat) (out : Int), 0 < fuel → AddItem fuel S (some D) q out = some (false, -1, S1)) ∧
      ItemAt S.Items 0 = FInventoryItem.mk2 (some D) 5 0 ∧
      ItemAt S1.Items 0 = FInventoryItem.mk2 (some D) 10 0 ∧
      S1.Items ≠ S.Items := by
  refine ⟨exShort, exD, 10,
    { exShort with
      Items := [FInventoryItem.mk2 (some exD) 10 0],
      Broadcasts := [Notification.InventoryUpdated 0 (FInventoryItem.mk2 (some exD) 10 0)] },
    exShort_can, ?_, by decide, by decide, by decide⟩
  intro fuel out hfuel
  obtain ⟨f, rfl⟩ : ∃ f, fuel = f + 1 := ⟨fuel - 1, by omega⟩
  rw [AddItem]
  simp only [exShort_can]
  have ht : exShort.TryStackItem exD 10 out = (true, 5, 0,
      { exShort with
        Items := [FInventoryItem.mk2 (some exD) 10 0],
        Broadcasts := [Notification.InventoryUpdated 0 (FInventoryItem.mk2 (some exD) 10 0)] }) := by
    rfl
  simp only [ht]
  rfl

theorem any_drop_valid_iff (Items : List FInventoryItem) (n : Nat) :
    (Items.drop n).any (fun Item => Item.IsValid) = true ↔
      ∃ i : Nat, n ≤ i ∧ ∃ it, Items[i]? = some it ∧ it.IsValid = true := by
  rw [List.any_eq_true]
  constructor
  · rintro ⟨it, hmem, hv⟩
    obtain ⟨j, hj⟩ := List.mem_iff_getElem?.1 hmem
    rw [List.getElem?_drop] at hj
    exact ⟨n + j, by omega, it, hj, hv⟩
  · rintro ⟨i, hi, it, hit, hv⟩
    refine ⟨it, ?_, hv⟩
    apply List.mem_iff_getElem?.2
    refine ⟨i - n, ?_⟩
    rw [List.getElem?_drop]
    have : n + (i - n) = i := by omega
    rw [this]
    exact hit

theorem SetNum_spec (Items : List FInventoryItem) (n g : Nat) :
    (SetNum Items n g).1.length = n ∧
    (∀ i : Nat, i < n → i < Items.length → (SetNum Items n g).1[i]? = Items[i]?) ∧
    (∀ i : Nat, Items.length ≤ i → i < n →
      ∃ it, (SetNum Items n g).1[i]? = some it ∧ it.IsValid = false) := by
  unfold SetNum
  by_cases h : n ≤ Items.length
  · simp only [h, if_true]
    refine ⟨by simp [h], ?_, ?_⟩
    · intro i hi _
      rw [List.getElem?_take_of_lt hi]
    · intro i h1 h2
      omega
  · simp only [h, if_false]
    refine ⟨by simp; omega, ?_, ?_⟩
    · intro i _ hi
      rw [List.getElem?_append_left hi]
    · intro i h1 h2
      refine ⟨FInventoryItem.mkDefault (g + (i - Items.length)), ?_, rfl⟩
      rw [List.getElem?_append_right h1]
      simp only [List.getElem?_map]
      rw [List.getElem?_range (by omega)]
      rfl

/-- `SetMaxSlots` for a new size `n ≥ 0`.  When `n < MaxSlots` and some slot at
an index `≥ n` holds a valid stack, `SetMaxSlots(n)` returns with the component
unchanged (no delegate call).  For every other `n ≥ 0` it sets `MaxSlots` and
the length of the slot list to `n`, keeps every slot below
`min(old length, n)`, fills the new slots with empty stacks and calls
`OnInventoryCapacityChanged` once, with `n`. -/
theorem SetMaxSlots_spec (S : UInventoryComponent) (n : Int) (hn : 0 ≤ n) :
    ((n < S.MaxSlots ∧ ∃ i : Nat, n ≤ (i : Int) ∧ ∃ it, S.Items[i]? = some it ∧ it.IsValid = true) →
      S.SetMaxSlots n = some S) ∧
    (¬ (n < S.MaxSlots ∧
        ∃ i : Nat, n ≤ (i : Int) ∧ ∃ it, S.Items[i]? = some it ∧ it.IsValid = true) →
      ∃ S1, S.SetMaxSlots n = some S1 ∧ S1.MaxSlots = n ∧ (S1.Items.length : Int) = n ∧
        (∀ i : Nat, (i : Int) < n → i < S.Items.length → S1.Items[i]? = S.Items[i]?) ∧
        (∀ i : Nat, S.Items.length ≤ i → (i : Int) < n →
          ∃ it, S1.Items[i]? = some it ∧ it.IsValid = false) ∧
        S1.Broadcasts = S.Broadcasts ++ [Notification.InventoryCapacityChanged n]) := by
  have hn' : ¬ n < 0 := by omega
  have hany : (S.Items.drop n.toNat).any (fun Item => Item.IsValid) = true ↔
      ∃ i : Nat, n ≤ (i : Int) ∧ ∃ it, S.Items[i]? = some it ∧ it.IsValid = true := by
    rw [any_drop_valid_iff]
    constructor
    · rintro ⟨i, hi, h⟩
      exact ⟨i, by omega, h⟩
    · rintro ⟨i, hi, h⟩
      exact ⟨i, by omega, h⟩
  obtain ⟨s1, s2, s3⟩ := SetNum_spec S.Items n.toNat S.NextGuid
  have hresize : ∃ S1, S.SetMaxSlotsResize n = some S1 ∧ S1.MaxSlots = n ∧
      (S1.Items.length : Int) = n ∧
      (∀ i : Nat, (i : Int) < n → i < S.Items.length → S1.Items[i]? = S.Items[i]?) ∧
      (∀ i : Nat, S.Items.length ≤ i → (i : Int) < n →
        ∃ it, S1.Items[i]? = some it ∧ it.IsValid = false) ∧
      S1.Broadcasts = S.Broadcasts ++ [Notification.InventoryCapacityChanged n] := by
    simp only [SetMaxSlotsResize, hn', if_false]
    refine ⟨_, rfl, rfl, ?_, ?_, ?_, rfl⟩
    · simp only [s1]
      omega
    · intro i h1 h2
      exact s2 i (by omega) h2
    · intro i h1 h2
      exact s3 i h1 (by omega)
  constructor
  · rintro ⟨hlt, hex⟩
    simp only [SetMaxSlots, hlt, if_true, hn', if_false, hany.2 hex]
  · intro hnot
    by_cases hlt : n < S.MaxSlots
    · have hno : ¬ (S.Items.drop n.toNat).any (fun Item => Item.IsValid) = true :=
        fun h => hnot ⟨hlt, hany.1 h⟩
      simp only [SetMaxSlots, hlt, if_true, hn', if_false, hno]
      exact hresize
    · simp only [SetMaxSlots, hlt, if_false]
      exact hresize

/-- `SetMaxSlots` for a negative size: the refusal loop starts at the index
`NewMaxSlots` and reads `Items[NewMaxSlots]`, or `SetNum` is called with a
negative size; neither gives a result. -/
theorem SetMaxSlots_negative (S : UInventoryComponent) (n : Int) (hn : n < 0) :
    S.SetMaxSlots n = none := by
  unfold SetMaxSlots
  split
  · simp only [hn, if_true]
  · simp only [SetMaxSlotsResize, hn, if_true]

/-- C15 on the code.  For a new size `n ≥ 0`: when `n < MaxSlots` and some slot
at an index `≥ n` holds a valid stack, `SetMaxSlots(n)` returns with the
component unchanged (no delegate call); for every other `n ≥ 0` it sets
`MaxSlots` and the length of the slot list to `n`, keeps every slot below
`min(old length, n)`, fills the new slots with empty stacks and calls
`OnInventoryCapacityChanged` once, with `n`.  For a new size `n < 0` the call
gives no result in any state: it reads outside the slot array.  So for the
size `-1`, below `MaxSlots`, with a valid stack in slot 0 of the store
`[5 of exD, empty]`, the call is not refused with the component unchanged. -/
theorem C15_SetMaxSlots :
    (∀ (S : UInventoryComponent) (n : Int), 0 ≤ n →
      ((n < S.MaxSlots ∧
          ∃ i : Nat, n ≤ (i : Int) ∧ ∃ it, S.Items[i]? = some it ∧ it.IsValid = true) →
        S.SetMaxSlots n = some S) ∧
      (¬ (n < S.MaxSlots ∧
          ∃ i : Nat, n ≤ (i : Int) ∧ ∃ it, S.Items[i]? = some it ∧ it.IsValid = true) →
        ∃ S1, S.SetMaxSlots n = some S1 ∧ S1.MaxSlots = n ∧ (S1.Items.length : Int) = n ∧
          (∀ i : Nat, (i : Int) < n → i < S.Items.length → S1.Items[i]? = S.Items[i]?) ∧
          (∀ i : Nat, S.Items.length ≤ i → (i : Int) < n →
            ∃ it, S1.Items[i]? = some it ∧ it.IsValid = false) ∧
          S1.Broadcasts = S.Broadcasts ++ [Notification.InventoryCapacityChanged n])) ∧
    (∀ (S : UInventoryComponent) (n : Int), n < 0 → S.SetMaxSlots n = none) ∧
    ((-1 : Int) < exFive2.MaxSlots ∧
      (∃ i : Nat, (-1 : Int) ≤ (i : Int) ∧
        ∃ it, exFive2.Items[i]? = some it ∧ it.IsValid = true) ∧
      exFive2.SetMaxSlots (-1) = none ∧ exFive2.SetMaxSlots (-1) ≠ some exFive2) := by
  refine ⟨fun S n hn => SetMaxSlots_spec S n hn, fun S n hn => SetMaxSlots_negative S n hn,
    by decide, ⟨0, by decide, FInventoryItem.mk2 (some exD) 5 0, rfl, by decide⟩,
    by decide, by decide⟩

/-- Witness of C15: shrinking the store `[5 of exD, empty]` to one slot is
done, shrinking it to no slot is refused. -/
theorem C15_SetMaxSlots_witness :
    exFive2.SetMaxSlots 0 = some exFive2 ∧
    ∃ S1, exFive2.SetMaxSlots 1 = some S1 ∧ S1.MaxSlots = 1 ∧ (S1.Items.length : Int) = 1 ∧
      (∀ i : Nat, (i : Int) < 1 → i < exFive2.Items.length → S1.Items[i]? = exFive2.Items[i]?) ∧
      (∀ i : Nat, exFive2.Items.length ≤ i → (i : Int) < 1 →
        ∃ it, S1.Items[i]? = some it ∧ it.IsValid = false) ∧
      S1.Broadcasts = exFive2.Broadcasts ++ [Notification.InventoryCapacityChanged 1] :=
  ⟨(C15_SetMaxSlots.1 exFive2 0 (by decide)).1
      ⟨by decide, 0, by decide, FInventoryItem.mk2 (some exD) 5 0, rfl, by decide⟩,
    (C15_SetMaxSlots.1 exFive2 1 (by decide)).2 (by
      rintro ⟨_, i, hi, it, hit, hv⟩
      have hi1 : i = 1 := by
        have : i < 2 := by
          by_contra hcon
          have : exFive2.Items[i]? = none := List.getElem?_eq_none (by
            simp only [exFive2, List.length_cons, List.length_nil]
            omega)
          rw [this] at hit
          exact absurd hit (by simp)
        omega
      subst hi1
      have : it = FInventoryItem.mkDefault 1 := by
        have h1 : exFive2.Items[1]? = some (FInventoryItem.mkDefault 1) := rfl
        rw [h1] at hit
        exact (Option.some.inj hit).symm
      rw [this] at hv
      exact absurd hv (by decide))⟩

theorem weightOf_set (l : List FInventoryItem) (i : Int) (x : FInventoryItem)
    (h0 : 0 ≤ i) (h1 : i < (l.length : Int)) :
    weightOf (l.set i.toNat x) = weightOf l - slotWeight (ItemAt l i) + slotWeight x := by
  obtain ⟨n, rfl⟩ : ∃ n : Nat, i = (n : Int) := ⟨i.toNat, by omega⟩
  have hn : n < l.length := by omega
  simp only [Int.toNat_ofNat, ItemAt, List.getD_eq_getElem?_getD]
  clear h0 h1
  induction l generalizing n with
  | nil => simp at hn
  | cons a rest ih =>
    cases n with
    | zero =>
      simp
      ring
    | succ m =>
      have hm : m < rest.length := by simpa using hn
      simp only [List.set_cons_succ, weightOf_cons, List.getElem?_cons_succ, ih m hm]
      ring

theorem length_set_int (l : List FInventoryItem) (i : Int) (x : FInventoryItem) :
    ((l.set i.toNat x).length : Int) = (l.length : Int) := by
  simp

theorem StackOK_set (l : List FInventoryItem) (n : Nat) (x : FInventoryItem)
    (hl : ∀ it ∈ l, StackOK it = true) (hx : StackOK x = true) :
    ∀ it ∈ l.set n x, StackOK it = true := by
  intro it hit
  rcases List.mem_or_eq_of_mem_set hit with h | h
  · exact hl it h
  · rw [h]; exact hx

theorem StackOK_mkDefault (g : FGuid) : StackOK (FInventoryItem.mkDefault g) = true := rfl

theorem StackOK_lower (it : FInventoryItem) (q : Int) (h : StackOK it = true)
    (hq : q ≤ it.Quantity) : StackOK { it with Quantity := q } = true := by
  unfold StackOK at h ⊢
  cases hD : it.ItemData with
  | none => simp
  | some d =>
    simp only [hD, FInventoryItem.IsValid, Option.isSome_some, Bool.true_and, Bool.or_eq_true,
      Bool.not_eq_true', decide_eq_false_iff_not, not_lt, decide_eq_true_eq] at h ⊢
    omega

theorem StoreInv_set (S : UInventoryComponent) (hinv : StoreInv S) (Items : List FInventoryItem)
    (g : Nat) (B : List Notification)
    (hlen : Items.length = S.Items.length) (hok : ∀ it ∈ Items, StackOK it = true) :
    StoreInv { S with Items := Items, NextGuid := g, Broadcasts := B } := by
  refine ⟨?_, hok⟩
  simp only [hlen]
  exact hinv.1

theorem ItemAt_StackOK (l : List FInventoryItem) (i : Int) (hl : ∀ it ∈ l, StackOK it = true) :
    StackOK (ItemAt l i) = true := by
  unfold ItemAt
  rw [List.getD_eq_getElem?_getD]
  cases h : l[i.toNat]? with
  | none => rfl
  | some x => exact hl x (List.getElem?_mem h)

/-- The two outcomes of a successful `RemoveItemAtSlot`. -/
theorem RemoveItemAtSlot_cases (S : UInventoryComponent) (i q : Int) :
    (S.RemoveItemAtSlot i q = (false, S)) ∨
    (S.IsValidIndex i = true ∧ (ItemAt S.Items i).IsValid = true ∧ 0 < q ∧
      q ≤ (ItemAt S.Items i).Quantity ∧
      S.RemoveItemAtSlot i q = (true,
        { S with
          Items := S.Items.set i.toNat
            (if (ItemAt S.Items i).Quantity - q ≤ 0 then FInventoryItem.mkDefault S.NextGuid
             else { ItemAt S.Items i with Quantity := (ItemAt S.Items i).Quantity - q }),
          NextGuid := if (ItemAt S.Items i).Quantity - q ≤ 0 then S.NextGuid + 1 else S.NextGuid,
          Broadcasts := S.Broadcasts ++
            [Notification.InventoryUpdated i
              (if (ItemAt S.Items i).Quantity - q ≤ 0 then FInventoryItem.mkDefault S.NextGuid
               else { ItemAt S.Items i with
                      Quantity := (ItemAt S.Items i).Quantity - q })] })) := by
  by_cases hg1 : (!S.IsValidIndex i || !(ItemAt S.Items i).IsValid) = true
  · left
    simp only [RemoveItemAtSlot, hg1, if_true]
  · have hv : S.IsValidIndex i = true ∧ (ItemAt S.Items i).IsValid = true := by
      simpa using hg1
    by_cases hg2 : q ≤ 0 ∨ q > (ItemAt S.Items i).Quantity
    · left
      simp only [RemoveItemAtSlot, hg1, hg2, if_true]
      rfl
    · right
      refine ⟨hv.1, hv.2, by omega, by omega, ?_⟩
      by_cases hz : (ItemAt S.Items i).Quantity - q ≤ 0
      · simp only [RemoveItemAtSlot, hg1, hg2, hz, if_true]
        rfl
      · simp only [RemoveItemAtSlot, hg1, hg2, hz, if_false]
        rfl

theorem RemoveItemAtSlot_inv (S : UInventoryComponent) (hinv : StoreInv S) (i q : Int) :
    StoreInv (S.RemoveItemAtSlot i q).2 := by
  rcases RemoveItemAtSlot_cases S i q with h | ⟨_, _, hq0, _, h⟩
  · rw [h]; exact hinv
  · rw [h]
    apply StoreInv_set S hinv
    · simp
    · apply StackOK_set _ _ _ hinv.2
      split
      · exact StackOK_mkDefault _
      · exact StackOK_lower _ _ (ItemAt_StackOK _ _ hinv.2) (by omega)

theorem slotWeight_valid (it : FInventoryItem) (d : UInventoryItemData)
    (hv : it.IsValid = true) (hd : it.ItemData = some d) :
    slotWeight it = d.Weight * (it.Quantity : ℚ) := by
  simp [slotWeight, hv, FInventoryItem.GetTotalWeight, hd]

theorem valid_data (it : FInventoryItem) (hv : it.IsValid = true) :
    ∃ d, it.ItemData = some d ∧ 0 < it.Quantity := by
  simp only [FInventoryItem.IsValid, Bool.and_eq_true, decide_eq_true_eq] at hv
  cases hD : it.ItemData with
  | none => simp [hD] at hv
  | some d => exact ⟨d, rfl, hv.2⟩

/-- Weight after a successful `RemoveItemAtSlot`: the unit weight of the stack
times `q` less than before. -/
theorem RemoveItemAtSlot_weight (S : UInventoryComponent) (i q : Int) (d : UInventoryItemData)
    (hd : (ItemAt S.Items i).ItemData = some d)
    (h : (S.RemoveItemAtSlot i q).1 = true) :
    weightOf (S.RemoveItemAtSlot i q).2.Items = weightOf S.Items - d.Weight * (q : ℚ) := by
  rcases RemoveItemAtSlot_cases S i q with h1 | ⟨hi, hv, hq0, hq1, h1⟩
  · rw [h1] at h
    exact absurd h (by simp)
  · obtain ⟨i0, i1⟩ := (IsValidIndex_iff S i).1 hi
    rw [h1]
    simp only []
    rw [weightOf_set _ _ _ i0 i1, slotWeight_valid _ d hv hd]
    split
    · rename_i hz
      have : (ItemAt S.Items i).Quantity = q := by omega
      rw [slotWeight_invalid (FInventoryItem.mkDefault S.NextGuid) rfl, this]
      ring
    · rename_i hz
      have hv' : FInventoryItem.IsValid
          { ItemAt S.Items i with Quantity := (ItemAt S.Items i).Quantity - q } = true := by
        simp only [FInventoryItem.IsValid, Bool.and_eq_true, decide_eq_true_eq] at hv ⊢
        exact ⟨hv.1, by omega⟩
      rw [slotWeight_valid _ d hv' hd]
      push_cast
      ring

theorem weightOf_append (l₁ l₂ : List FInventoryItem) :
    weightOf (l₁ ++ l₂) = weightOf l₁ + weightOf l₂ := by
  simp [weightOf]

/-- Facts about the loop of `TryStackItem` that hold in every state. -/
theorem TryStackItemFrom_general (D : UInventoryItemData) (Items : List FInventoryItem)
    (i q out : Int) (b : Bool) (hq : 0 ≤ q) :
    0 ≤ (TryStackItemFrom D Items i q out b).Quantity ∧
    (TryStackItemFrom D Items i q out b).Quantity ≤ q ∧
    (TryStackItemFrom D Items i q out b).Items.length = Items.length ∧
    weightOf (TryStackItemFrom D Items i q out b).Items =
      weightOf Items + D.Weight * ((q - (TryStackItemFrom D Items i q out b).Quantity : Int) : ℚ) := by
  induction Items generalizing i q out b with
  | nil => simp [TryStackItemFrom, hq]
  | cons it rest ih =>
    by_cases hq0 : 0 < q
    · by_cases hc : holds D it = true
      · have hc2 : (it.IsValid && decide (it.ItemData = some D)) = true := hc
        by_cases hpos : 0 < D.MaxStackSize - it.Quantity
        · obtain ⟨h1, h2, h3, h4⟩ :=
            ih (i + 1) (q - min (D.MaxStackSize - it.Quantity) q) i true (by omega)
          have hv : holds D { it with Quantity := it.Quantity + min (D.MaxStackSize - it.Quantity) q }
              = true := by
            simp only [holds, Bool.and_eq_true, decide_eq_true_eq, FInventoryItem.IsValid] at hc ⊢
            refine ⟨⟨hc.1.1, ?_⟩, hc.2⟩
            have := hc.1.2
            omega
          simp only [TryStackItemFrom, hq0, hc2, hpos, if_true]
          refine ⟨h1, by omega, by simp [h3], ?_⟩
          rw [weightOf_cons, weightOf_cons, h4, slotWeight_holds D _ hv, slotWeight_holds D _ hc]
          push_cast
          ring
        · obtain ⟨h1, h2, h3, h4⟩ := ih (i + 1) q out b hq
          simp only [TryStackItemFrom, hq0, hc2, hpos, if_true, if_false]
          refine ⟨h1, h2, by simp [h3], ?_⟩
          rw [weightOf_cons, weightOf_cons, h4]
          ring
      · have hc2 : (it.IsValid && decide (it.ItemData = some D)) = false := by
          simpa [holds] using hc
        obtain ⟨h1, h2, h3, h4⟩ := ih (i + 1) q out b hq
        simp only [TryStackItemFrom, hq0, hc2, if_true, if_false, Bool.false_eq_true]
        refine ⟨h1, h2, by simp [h3], ?_⟩
        rw [weightOf_cons, weightOf_cons, h4]
        ring
    · have hq1 : q = 0 := by omega
      subst hq1
      simp only [TryStackItemFrom, lt_irrefl, if_false]
      refine ⟨le_rfl, le_rfl, trivial, by simp⟩

/-- With `MaxStackSize ≤ 0` the while loop of `AddItem` never leaves through
`return true`: the remaining quantity does not decrease. -/
theorem AddItemLoop_never_true (D : UInventoryItemData) (hM : D.MaxStackSize ≤ 0) (fuel : Nat) :
    ∀ (S : UInventoryComponent) (R out : Int), 0 < R →
      ∀ o S1, AddItemLoop D fuel S R out ≠ some (true, o, S1) := by
  induction fuel with
  | zero =>
    intro S R out hR o S1
    rw [AddItemLoop]
    simp [hR]
  | succ f ih =>
    intro S R out hR o S1
    rw [AddItemLoop]
    simp only [hR, if_true]
    split
    · simp
    · exact ih _ _ _ (by
        have : min R D.MaxStackSize ≤ 0 := le_trans (min_le_right _ _) hM
        omega) o S1

/-- A successful run of the while loop of `AddItem` adds `D.Weight * R` to the
weight of the slots. -/
theorem AddItemLoop_true_weight (D : UInventoryItemData) (fuel : Nat) :
    ∀ (S : UInventoryComponent) (R out : Int) (o : Int) (S1 : UInventoryComponent), 0 ≤ R →
      AddItemLoop D fuel S R out = some (true, o, S1) →
      weightOf S1.Items = weightOf S.Items + D.Weight * (R : ℚ) ∧ S1.MaxWeight = S.MaxWeight := by
  induction fuel with
  | zero =>
    intro S R out o S1 h0 h
    rw [AddItemLoop] at h
    by_cases hR : 0 < R
    · simp [hR] at h
    · have : R = 0 := by omega
      subst this
      simp only [lt_irrefl, if_false, Option.some.injEq, Prod.mk.injEq, true_and] at h
      rw [← h.2]
      simp
  | succ f ih =>
    intro S R out o S1 h0 h
    by_cases hR : 0 < R
    · rcases le_or_lt D.MaxStackSize 0 with hM | hM
      · exact absurd h (AddItemLoop_never_true D hM _ S R out hR o S1)
      · rw [AddItemLoop] at h
        simp only [hR, if_true] at h
        rcases FindEmptySlotFrom_spec S.Items 0 with ⟨_, h2⟩ | ⟨pre, it, post, h1, h2, h3, h4⟩
        · have hfind : S.FindEmptySlot = -1 := h2
          simp [hfind] at h
        · have hfind : S.FindEmptySlot = (pre.length : Int) := by
            simp [FindEmptySlot, h4]
          have hne : ¬ ((pre.length : Int) = -1) := by omega
          simp only [hfind, hne, if_false, Int.toNat_ofNat] at h
          have hmin : 0 < min R D.MaxStackSize := by
            simp only [lt_min_iff]
            omega
          obtain ⟨e1, e2⟩ := ih _ _ _ _ _ (by
            have := min_le_left R D.MaxStackSize
            omega) h
          simp only [h1, set_append_mid] at e1 e2
          refine ⟨?_, e2⟩
          have hh : holds D (FInventoryItem.mk2 (some D) (min R D.MaxStackSize) S.NextGuid)
              = true := by
            have hv := mk2_valid D _ S.NextGuid hmin
            simp only [holds, hv, Bool.true_and, decide_eq_true_eq]
            rfl
          rw [e1, h1, weightOf_append, weightOf_append, weightOf_cons, weightOf_cons,
            slotWeight_holds D _ hh, slotWeight_invalid it h3]
          simp only [FInventoryItem.mk2]
          push_cast
          ring
    · have : R = 0 := by omega
      subst this
      rw [AddItemLoop] at h
      simp only [lt_irrefl, if_false, Option.some.injEq, Prod.mk.injEq, true_and] at h
      rw [← h.2]
      simp

/-- A successful `AddItem` passed `CanAddItem` and added `D.Weight * q` to the
weight of the slots, in every state. -/
theorem AddItem_true_weight (S : UInventoryComponent) (D : Option UInventoryItemData)
    (q out : Int) (fuel : Nat) (slot : Int) (S1 : UInventoryComponent)
    (h : AddItem fuel S D q out = some (true, slot, S1)) :
    ∃ d, D = some d ∧ S.CanAddItem (some d) q = true ∧
      weightOf S1.Items = weightOf S.Items + d.Weight * (q : ℚ) ∧
      S1.MaxWeight = S.MaxWeight := by
  cases D with
  | none => simp [AddItem] at h
  | some d =>
    by_cases hq : q ≤ 0
    · simp [AddItem, hq] at h
    · cases hcan : S.CanAddItem (some d) q with
      | false => simp [AddItem, hq, hcan] at h
      | true =>
        refine ⟨d, rfl, hcan, ?_⟩
        simp only [AddItem, hq, if_false, hcan, Bool.not_true, Bool.false_eq_true] at h
        by_cases h1 : 1 < d.MaxStackSize
        · simp only [h1, if_true, TryStackItem] at h
          obtain ⟨t1, t2, t3, t4⟩ := TryStackItemFrom_general d S.Items 0 q out false (by omega)
          split at h
          · rename_i hb
            simp only [Bool.and_eq_true, decide_eq_true_eq] at hb
            simp only [Option.some.injEq, Prod.mk.injEq, true_and] at h
            rw [← h.2]
            simp only []
            refine ⟨?_, trivial⟩
            have : (TryStackItemFrom d S.Items 0 q out false).Quantity = 0 := by
              have := hb.2
              omega
            rw [t4, this]
            simp
          · obtain ⟨e1, e2⟩ := AddItemLoop_true_weight d fuel _ _ _ _ _ t1 h
            simp only [] at e1 e2
            refine ⟨?_, e2⟩
            rw [e1, t4]
            push_cast
            ring
        · simp only [h1, if_false] at h
          exact AddItemLoop_true_weight d fuel _ _ _ _ _ (by omega) h

theorem CanAddItem_weight_ok (S : UInventoryComponent) (d : UInventoryItemData) (q : Int)
    (h : S.CanAddItem (some d) q = true) (hM : 0 < S.MaxWeight) :
    S.GetCurrentWeight + d.Weight * (q : ℚ) ≤ S.MaxWeight := by
  by_contra hcon
  have hq := (CanAddItem_pos S _ q h).1
  have hq' : ¬ q ≤ 0 := by omega
  have hw : 0 < S.MaxWeight ∧ S.GetCurrentWeight + d.Weight * (q : ℚ) > S.MaxWeight :=
    ⟨hM, not_le.1 hcon⟩
  simp [CanAddItem, hq', hw] at h

theorem StackOK_mk2 (D : UInventoryItemData) (n : Int) (g : FGuid) (h : n ≤ D.MaxStackSize) :
    StackOK (FInventoryItem.mk2 (some D) n g) = true := by
  simp [StackOK, FInventoryItem.mk2, h]

/-- With `MaxStackSize ≥ 1` the while loop of `AddItem` returns within `R`
iterations and keeps the length of the slot list and the bound on the
quantities. -/
theorem AddItemLoop_total_inv (D : UInventoryItemData) (hM : 1 ≤ D.MaxStackSize) (fuel : Nat) :
    ∀ (S : UInventoryComponent) (R out : Int), R.toNat ≤ fuel →
      (∀ it ∈ S.Items, StackOK it = true) →
      ∃ b o S1, AddItemLoop D fuel S R out = some (b, o, S1) ∧
        S1.Items.length = S.Items.length ∧ (∀ it ∈ S1.Items, StackOK it = true) ∧
        S1.MaxSlots = S.MaxSlots := by
  induction fuel with
  | zero =>
    intro S R out hf hok
    have hR : ¬ 0 < R := by omega
    refine ⟨true, out, S, ?_, rfl, hok, rfl⟩
    rw [AddItemLoop]
    simp [hR]
  | succ f ih =>
    intro S R out hf hok
    by_cases hR : 0 < R
    · rw [AddItemLoop]
      simp only [hR, if_true]
      by_cases hfind : S.FindEmptySlot = -1
      · simp only [hfind, if_true]
        exact ⟨false, -1, S, rfl, rfl, hok, rfl⟩
      · simp only [hfind, if_false]
        have hmin : 0 < min R D.MaxStackSize := by
          simp only [lt_min_iff]
          omega
        obtain ⟨b, o, S1, e, e1, e2, e3⟩ := ih
          { S with Items := S.Items.set S.FindEmptySlot.toNat
                      (FInventoryItem.mk2 (some D) (min R D.MaxStackSize) S.NextGuid),
                   NextGuid := S.NextGuid + 1,
                   Broadcasts := S.Broadcasts ++
                     [Notification.InventoryUpdated S.FindEmptySlot
                       (FInventoryItem.mk2 (some D) (min R D.MaxStackSize) S.NextGuid)] }
          (R - min R D.MaxStackSize) S.FindEmptySlot (by omega)
          (StackOK_set _ _ _ hok (StackOK_mk2 D _ _ (min_le_right _ _)))
        refine ⟨b, o, S1, e, ?_, e2, e3⟩
        rw [e1]
        simp
    · refine ⟨true, out, S, ?_, rfl, hok, rfl⟩
      rw [AddItemLoop]
      simp [hR]

/-- `AddItem` keeps the store invariants and returns, for a definition with
`MaxStackSize ≥ 1` and a loop bound of at least `q`. -/
theorem AddItem_inv (S : UInventoryComponent) (hinv : StoreInv S)
    (D : Option UInventoryItemData) (q out : Int) (fuel : Nat)
    (hM : ∀ d, D = some d → 1 ≤ d.MaxStackSize) (hfuel : q.toNat ≤ fuel) :
    ∃ r, AddItem fuel S D q out = some r ∧ StoreInv r.2.2 := by
  cases D with
  | none => exact ⟨(false, -1, S), rfl, hinv⟩
  | some d =>
    have hM1 := hM d rfl
    by_cases hq : q ≤ 0
    · exact ⟨(false, -1, S), by simp [AddItem, hq], hinv⟩
    · cases hcan : S.CanAddItem (some d) q with
      | false => exact ⟨(false, -1, S), by simp [AddItem, hq, hcan], hinv⟩
      | true =>
        simp only [AddItem, hq, if_false, hcan, Bool.not_true, Bool.false_eq_true]
        by_cases h1 : 1 < d.MaxStackSize
        · simp only [h1, if_true, TryStackItem]
          obtain ⟨t1, t2, t3, t4, t5⟩ :=
            TryStackItemFrom_spec d S.Items hinv.2 0 q out false (by omega)
          obtain ⟨g1, g2, _, _⟩ := TryStackItemFrom_general d S.Items 0 q out false (by omega)
          split
          · refine ⟨_, rfl, ?_, t5⟩
            simp only [t3]
            exact hinv.1
          · obtain ⟨b, o, S1, e, e1, e2, e3⟩ := AddItemLoop_total_inv d hM1 fuel
              { S with Items := (TryStackItemFrom d S.Items 0 q out false).Items,
                       Broadcasts := S.Broadcasts ++
                         (TryStackItemFrom d S.Items 0 q out false).Broadcasts }
              (TryStackItemFrom d S.Items 0 q out false).Quantity
              (TryStackItemFrom d S.Items 0 q out false).OutSlotIndex (by omega) t5
            refine ⟨_, e, ?_, e2⟩
            simp only [] at e1 e3
            rw [e1, t3, e3]
            exact hinv.1
        · simp only [h1, if_false]
          obtain ⟨b, o, S1, e, e1, e2, e3⟩ := AddItemLoop_total_inv d hM1 fuel S q out hfuel hinv.2
          refine ⟨_, e, ?_, e2⟩
          rw [e1, e3]
          exact hinv.1

theorem SplitStack_inv (S : UInventoryComponent) (hinv : StoreInv S) (s t q : Int) :
    StoreInv (S.SplitStack s t q).2 := by
  cases hr : (S.SplitStack s t q).1 with
  | false => rw [SplitStack_false S s t q hr]; exact hinv
  | true =>
    obtain ⟨hs, ht, hsv, htv, hq0, hq1⟩ := (SplitStack_true_iff S s t q).1 hr
    obtain ⟨D, hD, hle, hpos⟩ := StackOK_at S hinv s hs hsv
    rw [SplitStack_eq S s t q hr]
    apply StoreInv_set S hinv
    · simp
    · apply StackOK_set
      · apply StackOK_set _ _ _ hinv.2
        simp only [StackOK, hD, Bool.or_eq_true, decide_eq_true_eq]
        right
        omega
      · exact StackOK_lower _ _ (ItemAt_StackOK _ _ hinv.2) (by omega)

theorem MergeStacks_inv (S : UInventoryComponent) (hinv : StoreInv S) (s t : Int) :
    StoreInv (S.MergeStacks s t).2 := by
  unfold MergeStacks
  split
  · exact hinv
  · split
    · exact hinv
    · rename_i hidx hcs
      have hidx' : S.IsValidIndex s = true ∧ S.IsValidIndex t = true := by simpa using hidx
      have hcs' : CanStack (ItemAt S.Items s) (ItemAt S.Items t) = true := by simpa using hcs
      obtain ⟨hsv, htv, D, hsD, htD, hD⟩ := (CanStack_iff _ _).1 hcs'
      obtain ⟨Dt, htD', htle, htpos⟩ := StackOK_at S hinv t hidx'.2 htv
      obtain ⟨Ds, hsD', hsle, hspos⟩ := StackOK_at S hinv s hidx'.1 hsv
      split
      · exact hinv
      · rename_i TargetData hTD
        have e1 : TargetData = Dt := Option.some.inj (hTD.symm.trans htD')
        subst e1
        have hm0 : 0 ≤ min (TargetData.MaxStackSize - (ItemAt S.Items t).Quantity)
            (ItemAt S.Items s).Quantity := by
          simp only [le_min_iff]
          omega
        have hm1 : min (TargetData.MaxStackSize - (ItemAt S.Items t).Quantity)
            (ItemAt S.Items s).Quantity ≤ TargetData.MaxStackSize - (ItemAt S.Items t).Quantity :=
          min_le_left _ _
        have hok1 : ∀ it ∈ S.Items.set t.toNat
            { ItemAt S.Items t with
              Quantity := (ItemAt S.Items t).Quantity +
                min (TargetData.MaxStackSize - (ItemAt S.Items t).Quantity)
                  (ItemAt S.Items s).Quantity }, StackOK it = true := by
          apply StackOK_set _ _ _ hinv.2
          simp only [StackOK, hTD, Bool.or_eq_true, decide_eq_true_eq]
          right
          omega
        have hok2 := StackOK_set _ s.toNat _ hok1
          (StackOK_lower _ ((ItemAt (S.Items.set t.toNat
            { ItemAt S.Items t with
              Quantity := (ItemAt S.Items t).Quantity +
                min (TargetData.MaxStackSize - (ItemAt S.Items t).Quantity)
                  (ItemAt S.Items s).Quantity }) s).Quantity -
            min (TargetData.MaxStackSize - (ItemAt S.Items t).Quantity)
              (ItemAt S.Items s).Quantity)
            (ItemAt_StackOK _ s hok1) (by omega))
        dsimp only
        split
        · apply StoreInv_set S hinv
          · simp
          · exact StackOK_set _ _ _ hok2 (StackOK_mkDefault _)
        · apply StoreInv_set S hinv
          · simp
          · exact hok2

/-- The five ways `MoveItem` ends. -/
theorem MoveItem_cases (S : UInventoryComponent) (f t q : Int) :
    S.MoveItem f t q = (false, S) ∨
    (S.IsValidIndex f = true ∧ S.IsValidIndex t = true ∧ (ItemAt S.Items f).IsValid = true ∧
      (ItemAt S.Items t).IsValid = false ∧
      S.MoveItem f t q = (true,
        { S with
          Items := (S.Items.set t.toNat (ItemAt S.Items f)).set f.toNat
            (FInventoryItem.mkDefault S.NextGuid),
          NextGuid := S.NextGuid + 1,
          Broadcasts := S.Broadcasts ++
            [Notification.InventoryUpdated f
              (ItemAt ((S.Items.set t.toNat (ItemAt S.Items f)).set f.toNat
                (FInventoryItem.mkDefault S.NextGuid)) f),
             Notification.InventoryUpdated t
              (ItemAt ((S.Items.set t.toNat (ItemAt S.Items f)).set f.toNat
                (FInventoryItem.mkDefault S.NextGuid)) t)] })) ∨
    (∃ q1, S.MoveItem f t q = S.SplitStack f t q1) ∨
    S.MoveItem f t q = S.MergeStacks f t ∨
    (S.IsValidIndex f = true ∧ S.IsValidIndex t = true ∧ (ItemAt S.Items f).IsValid = true ∧
      (ItemAt S.Items t).IsValid = true ∧
      S.MoveItem f t q = (true,
        { S with
          Items := (S.Items.set f.toNat (ItemAt S.Items t)).set t.toNat (ItemAt S.Items f),
          Broadcasts := S.Broadcasts ++
            [Notification.InventoryUpdated f
              (ItemAt ((S.Items.set f.toNat (ItemAt S.Items t)).set t.toNat
                (ItemAt S.Items f)) f),
             Notification.InventoryUpdated t
              (ItemAt ((S.Items.set f.toNat (ItemAt S.Items t)).set t.toNat
                (ItemAt S.Items f)) t)] })) := by
  by_cases hidx : (!S.IsValidIndex f || !S.IsValidIndex t) = true
  · left
    simp only [MoveItem, hidx, if_true]
  · have hidx' : S.IsValidIndex f = true ∧ S.IsValidIndex t = true := by simpa using hidx
    by_cases hfv : (ItemAt S.Items f).IsValid = true
    · by_cases htv : (ItemAt S.Items t).IsValid = true
      · by_cases hcs : CanStack (ItemAt S.Items f) (ItemAt S.Items t) = true
        · right; right; right; left
          simp only [MoveItem, hidx, hfv, htv, hcs, Bool.not_true, Bool.false_eq_true, if_false,
            if_true]
        · right; right; right; right
          refine ⟨hidx'.1, hidx'.2, hfv, htv, ?_⟩
          simp only [MoveItem, hidx, hfv, htv, hcs, Bool.not_true, Bool.false_eq_true, if_false]
      · have htv' : (ItemAt S.Items t).IsValid = false := by simpa using htv
        by_cases hq : (if q ≤ 0 then (ItemAt S.Items f).Quantity
            else min q (ItemAt S.Items f).Quantity) = (ItemAt S.Items f).Quantity
        · right; left
          refine ⟨hidx'.1, hidx'.2, hfv, htv', ?_⟩
          simp only [MoveItem, hidx, hfv, htv', hq, Bool.not_true, Bool.not_false,
            Bool.false_eq_true, if_false, if_true]
        · right; right; left
          refine ⟨if q ≤ 0 then (ItemAt S.Items f).Quantity
            else min q (ItemAt S.Items f).Quantity, ?_⟩
          simp only [MoveItem, hidx, hfv, htv', hq, Bool.not_true, Bool.not_false,
            Bool.false_eq_true, if_false, if_true]
    · left
      have hfv' : (ItemAt S.Items f).IsValid = false := by simpa using hfv
      simp only [MoveItem, hidx, hfv', Bool.not_false, Bool.false_eq_true, if_false, if_true]

theorem MoveItem_inv (S : UInventoryComponent) (hinv : StoreInv S) (f t q : Int) :
    StoreInv (S.MoveItem f t q).2 := by
  rcases MoveItem_cases S f t q with h | ⟨_, _, _, _, h⟩ | ⟨q1, h⟩ | h | ⟨_, _, _, _, h⟩
  · rw [h]; exact hinv
  · rw [h]
    apply StoreInv_set S hinv
    · simp
    · exact StackOK_set _ _ _
        (StackOK_set _ _ _ hinv.2 (ItemAt_StackOK _ _ hinv.2)) (StackOK_mkDefault _)
  · rw [h]; exact SplitStack_inv S hinv _ _ _
  · rw [h]; exact MergeStacks_inv S hinv _ _
  · rw [h]
    apply StoreInv_set S hinv
    · simp
    · exact StackOK_set _ _ _
        (StackOK_set _ _ _ hinv.2 (ItemAt_StackOK _ _ hinv.2)) (ItemAt_StackOK _ _ hinv.2)

theorem RemoveItemByInstanceID_inv (S : UInventoryComponent) (hinv : StoreInv S) (g : FGuid)
    (q : Int) : StoreInv (S.RemoveItemByInstanceID g q).2 := by
  unfold RemoveItemByInstanceID
  split
  · exact RemoveItemAtSlot_inv S hinv _ _
  · exact hinv

theorem SortInventory_inv (S : UInventoryComponent) (hinv : StoreInv S) (b : Bool) :
    StoreInv (S.SortInventory b) := by
  rw [SortInventory_eq]
  have hle := SortedStacks_length_le S b
  apply StoreInv_set S hinv
  · simp only [List.length_append, List.length_replicate]
    omega
  · intro it hit
    rcases List.mem_append.1 hit with h | h
    · have h1 := (SortedStacks_perm S b).mem_iff.1 h
      exact hinv.2 it (List.mem_filter.1 h1).1
    · rw [List.eq_of_mem_replicate h]
      exact StackOK_mkDefault _

theorem SetNum_StackOK (Items : List FInventoryItem) (n g : Nat)
    (hok : ∀ it ∈ Items, StackOK it = true) :
    ∀ it ∈ (SetNum Items n g).1, StackOK it = true := by
  unfold SetNum
  split
  · intro it hit
    exact hok it (List.mem_of_mem_take hit)
  · intro it hit
    rcases List.mem_append.1 hit with h | h
    · exact hok it h
    · obtain ⟨j, _, rfl⟩ := List.mem_map.1 h
      exact StackOK_mkDefault _

theorem SetMaxSlots_inv (S : UInventoryComponent) (hinv : StoreInv S) (n : Int) (hn : 0 ≤ n) :
    ∃ S1, S.SetMaxSlots n = some S1 ∧ StoreInv S1 := by
  have hn' : ¬ n < 0 := by omega
  have hresize : ∃ S1, S.SetMaxSlotsResize n = some S1 ∧ StoreInv S1 := by
    simp only [SetMaxSlotsResize, hn', if_false]
    refine ⟨_, rfl, ?_, SetNum_StackOK _ _ _ hinv.2⟩
    simp only [(SetNum_spec S.Items n.toNat S.NextGuid).1]
    omega
  unfold SetMaxSlots
  split
  · simp only [hn', if_false]
    split
    · exact ⟨S, rfl, hinv⟩
    · exact hresize
  · exact hresize

theorem ClearFrom_spec (Items : List FInventoryItem) (i : Int) (g : Nat) :
    (ClearFrom Items i g).1.length = Items.length ∧
    (∀ it ∈ (ClearFrom Items i g).1, it.IsValid = false) := by
  induction Items generalizing i g with
  | nil => simp [ClearFrom]
  | cons it rest ih =>
    rw [ClearFrom]
    by_cases hv : it.IsValid = true
    · obtain ⟨h1, h2⟩ := ih (i + 1) (g + 1)
      simp only [hv, if_true, List.length_cons, h1, List.mem_cons, true_and]
      rintro x (rfl | hx)
      · rfl
      · exact h2 x hx
    · obtain ⟨h1, h2⟩ := ih (i + 1) g
      have hv' : it.IsValid = false := by simpa using hv
      simp only [hv', Bool.false_eq_true, if_false, List.length_cons, h1, List.mem_cons, true_and]
      rintro x (rfl | hx)
      · exact hv'
      · exact h2 x hx

theorem StackOK_of_invalid (it : FInventoryItem) (h : it.IsValid = false) : StackOK it = true := by
  unfold StackOK
  cases it.ItemData <;> simp [h]

theorem ClearInventory_inv (S : UInventoryComponent) (hinv : StoreInv S) :
    StoreInv S.ClearInventory := by
  obtain ⟨h1, h2⟩ := ClearFrom_spec S.Items 0 S.NextGuid
  unfold ClearInventory
  apply StoreInv_set S hinv _ _ _ h1
  intro it hit
  exact StackOK_of_invalid it (h2 it hit)

/-- C16. The store invariants (`Items.Num() = MaxSlots`, and every valid stack,
whose quantity is positive, holds at most its definition's `MaxStackSize`) are
kept by every mutation, whatever it returns: `AddItem` (for a definition with
`MaxStackSize ≥ 1`; it returns within `q` iterations of its loop),
`RemoveItemAtSlot`, `RemoveItemByInstanceID`, `MoveItem`, `SplitStack`,
`MergeStacks`, `SortInventory`, `SetMaxSlots` with a non-negative size, and
`ClearInventory`. -/
theorem C16_StoreInv_preserved (S : UInventoryComponent) (hinv : StoreInv S) :
    (∀ (D : Option UInventoryItemData) (q out : Int) (fuel : Nat),
      (∀ d, D = some d → 1 ≤ d.MaxStackSize) → q.toNat ≤ fuel →
      ∃ r, AddItem fuel S D q out = some r ∧ StoreInv r.2.2) ∧
    (∀ i q : Int, StoreInv (S.RemoveItemAtSlot i q).2) ∧
    (∀ (g : FGuid) (q : Int), StoreInv (S.RemoveItemByInstanceID g q).2) ∧
    (∀ f t q : Int, StoreInv (S.MoveItem f t q).2) ∧
    (∀ s t q : Int, StoreInv (S.SplitStack s t q).2) ∧
    (∀ s t : Int, StoreInv (S.MergeStacks s t).2) ∧
    (∀ b : Bool, StoreInv (S.SortInventory b)) ∧
    (∀ n : Int, 0 ≤ n → ∃ S1, S.SetMaxSlots n = some S1 ∧ StoreInv S1) ∧
    StoreInv S.ClearInventory ∧
    (∀ it ∈ S.Items, it.IsValid = true → 0 < it.Quantity) := by
  refine ⟨fun D q out fuel hM hf => AddItem_inv S hinv D q out fuel hM hf,
    RemoveItemAtSlot_inv S hinv, RemoveItemByInstanceID_inv S hinv, MoveItem_inv S hinv,
    SplitStack_inv S hinv, MergeStacks_inv S hinv, SortInventory_inv S hinv,
    SetMaxSlots_inv S hinv, ClearInventory_inv S hinv, ?_⟩
  intro it _ hv
  exact (valid_data it hv).choose_spec.2

/-- Witness of C16: the store `[5 of exD, empty]` satisfies the invariants, and
so does what `MoveItem(0, 1, 3)` leaves. -/
theorem C16_StoreInv_witness :
    StoreInv exFive2 ∧ StoreInv (exFive2.MoveItem 0 1 3).2 ∧
    StoreInv (exFive2.SortInventory true) :=
  ⟨exFive2_inv, (C16_StoreInv_preserved exFive2 exFive2_inv).2.2.2.1 0 1 3,
    (C16_StoreInv_preserved exFive2 exFive2_inv).2.2.2.2.2.2.1 true⟩

theorem set_ItemAt_self (l : List FInventoryItem) (i : Int) (h0 : 0 ≤ i)
    (h1 : i < (l.length : Int)) : l.set i.toNat (ItemAt l i) = l := by
  have hn : i.toNat < l.length := by omega
  apply List.ext_getElem?
  intro j
  by_cases hj : i.toNat = j
  · subst hj
    simp [ItemAt, List.getD_eq_getElem?_getD, List.getElem?_set, hn]
  · simp [List.getElem?_set, hj]

theorem weightOf_set2 (l : List FInventoryItem) (a b : Int) (x y : FInventoryItem)
    (ha0 : 0 ≤ a) (ha1 : a < (l.length : Int)) (hb0 : 0 ≤ b) (hb1 : b < (l.length : Int))
    (hab : a ≠ b) :
    weightOf ((l.set a.toNat x).set b.toNat y) =
      weightOf l - slotWeight (ItemAt l a) - slotWeight (ItemAt l b)
        + slotWeight x + slotWeight y := by
  have hne : a.toNat ≠ b.toNat := toNat_ne_of_ne a b ha0 hb0 hab
  rw [weightOf_set _ b y hb0 (by simpa using hb1), ItemAt_set_ne _ _ _ _ hne,
    weightOf_set _ a x ha0 ha1]
  ring

theorem SplitStack_weight (S : UInventoryComponent) (s t q : Int)
    (h : (S.SplitStack s t q).1 = true) :
    weightOf (S.SplitStack s t q).2.Items = weightOf S.Items ∧
      (S.SplitStack s t q).2.MaxWeight = S.MaxWeight := by
  obtain ⟨hs, ht, hsv, htv, hq0, hq1⟩ := (SplitStack_true_iff S s t q).1 h
  obtain ⟨hs0, hs1⟩ := (IsValidIndex_iff S s).1 hs
  obtain ⟨ht0, ht1⟩ := (IsValidIndex_iff S t).1 ht
  obtain ⟨d, hd, hpos⟩ := valid_data _ hsv
  have hne : t ≠ s := by
    rintro rfl
    rw [hsv] at htv
    exact absurd htv (by simp)
  rw [SplitStack_eq S s t q h]
  refine ⟨?_, rfl⟩
  simp only []
  have hv1 : FInventoryItem.IsValid
      { ItemData := (ItemAt S.Items s).ItemData, Quantity := q, InstanceID := S.NextGuid,
        InstanceMetadata := (ItemAt S.Items s).InstanceMetadata } = true := by
    simp [FInventoryItem.IsValid, hd, hq0]
  have hv2 : FInventoryItem.IsValid
      { ItemAt S.Items s with Quantity := (ItemAt S.Items s).Quantity - q } = true := by
    simp only [FInventoryItem.IsValid, hd, Option.isSome_some, Bool.true_and, decide_eq_true_eq]
    omega
  rw [weightOf_set2 _ t s _ _ ht0 ht1 hs0 hs1 hne, slotWeight_invalid _ htv,
    slotWeight_valid _ d hsv hd, slotWeight_valid _ d hv1 hd, slotWeight_valid _ d hv2 hd]
  push_cast
  ring

theorem MergeStacks_self (S : UInventoryComponent) (s : Int) :
    (S.MergeStacks s s).2.Items = S.Items ∧ (S.MergeStacks s s).2.MaxWeight = S.MaxWeight := by
  unfold MergeStacks
  split
  · exact ⟨rfl, rfl⟩
  · rename_i hidx
    have hidx' : S.IsValidIndex s = true := by simpa using hidx
    obtain ⟨hs0, hs1⟩ := (IsValidIndex_iff S s).1 hidx'
    split
    · exact ⟨rfl, rfl⟩
    · rename_i hcs
      have hcs' : CanStack (ItemAt S.Items s) (ItemAt S.Items s) = true := by simpa using hcs
      obtain ⟨hsv, _, D, hsD, _, hD⟩ := (CanStack_iff _ _).1 hcs'
      obtain ⟨_, _, hpos⟩ := valid_data _ hsv
      split
      · exact ⟨rfl, rfl⟩
      · rename_i TargetData hTD
        dsimp only
        have hself : ∀ x, ItemAt (S.Items.set s.toNat x) s = x :=
          fun x => ItemAt_set_self _ s x hs0 hs1
        have hself2 : ∀ x y, ItemAt ((S.Items.set s.toNat x).set s.toNat y) s = y :=
          fun x y => ItemAt_set_self _ s y hs0 (by simpa using hs1)
        simp only [hself, hself2, List.set_set]
        have hq : ¬ ((ItemAt S.Items s).Quantity
            + min (TargetData.MaxStackSize - (ItemAt S.Items s).Quantity)
                (ItemAt S.Items s).Quantity
            - min (TargetData.MaxStackSize - (ItemAt S.Items s).Quantity)
                (ItemAt S.Items s).Quantity ≤ 0) := by omega
        rw [if_neg hq]
        refine ⟨?_, rfl⟩
        simp only []
        have e : ({ ItemAt S.Items s with
            Quantity := (ItemAt S.Items s).Quantity
              + min (TargetData.MaxStackSize - (ItemAt S.Items s).Quantity)
                  (ItemAt S.Items s).Quantity
              - min (TargetData.MaxStackSize - (ItemAt S.Items s).Quantity)
                  (ItemAt S.Items s).Quantity } : FInventoryItem) = ItemAt S.Items s := by
          cases hit : ItemAt S.Items s
          simp
        rw [e]
        exact set_ItemAt_self _ s hs0 hs1

theorem MergeStacks_true (S : UInventoryComponent) (s t : Int)
    (h : (S.MergeStacks s t).1 = true) :
    S.IsValidIndex s = true ∧ S.IsValidIndex t = true ∧
      CanStack (ItemAt S.Items s) (ItemAt S.Items t) = true := by
  unfold MergeStacks at h
  split at h
  · exact absurd h (by simp)
  · rename_i hidx
    split at h
    · exact absurd h (by simp)
    · rename_i hcs
      have hidx' : S.IsValidIndex s = true ∧ S.IsValidIndex t = true := by simpa using hidx
      exact ⟨hidx'.1, hidx'.2, by simpa using hcs⟩

theorem MergeStacks_weight (S : UInventoryComponent) (s t : Int)
    (h : (S.MergeStacks s t).1 = true) :
    weightOf (S.MergeStacks s t).2.Items = weightOf S.Items ∧
      (S.MergeStacks s t).2.MaxWeight = S.MaxWeight := by
  by_cases hst : s = t
  · subst hst
    obtain ⟨e1, e2⟩ := MergeStacks_self S s
    rw [e1]
    exact ⟨rfl, e2⟩
  · obtain ⟨hs, ht, hcs⟩ := MergeStacks_true S s t h
    obtain ⟨hsv, htv, D, hsD, htD, hD⟩ := (CanStack_iff _ _).1 hcs
    obtain ⟨hs0, hs1⟩ := (IsValidIndex_iff S s).1 hs
    obtain ⟨ht0, ht1⟩ := (IsValidIndex_iff S t).1 ht
    obtain ⟨_, _, hqs⟩ := valid_data _ hsv
    obtain ⟨_, _, hqt⟩ := valid_data _ htv
    have hm1 : min (D.MaxStackSize - (ItemAt S.Items t).Quantity) (ItemAt S.Items s).Quantity
        ≤ (ItemAt S.Items s).Quantity := min_le_right _ _
    have hqt' : 0 < (ItemAt S.Items t).Quantity
        + min (D.MaxStackSize - (ItemAt S.Items t).Quantity) (ItemAt S.Items s).Quantity := by
      rcases le_total (D.MaxStackSize - (ItemAt S.Items t).Quantity)
        (ItemAt S.Items s).Quantity with hle | hle
      · rw [min_eq_left hle]; omega
      · rw [min_eq_right hle]; omega
    have hvt : FInventoryItem.IsValid
        { ItemAt S.Items t with
          Quantity := (ItemAt S.Items t).Quantity +
            min (D.MaxStackSize - (ItemAt S.Items t).Quantity) (ItemAt S.Items s).Quantity }
        = true := by
      simp only [FInventoryItem.IsValid, htD, Option.isSome_some, Bool.true_and,
        decide_eq_true_eq]
      exact hqt'
    rw [MergeStacks_eq S s t D hs ht hst hcs htD]
    simp only []
    split
    · rename_i hz
      refine ⟨?_, rfl⟩
      simp only []
      rw [weightOf_set2 _ t s _ _ ht0 ht1 hs0 hs1 (Ne.symm hst), slotWeight_valid _ D htv htD,
        slotWeight_valid _ D hsv hsD, slotWeight_valid _ D hvt htD,
        slotWeight_invalid (FInventoryItem.mkDefault S.NextGuid) rfl]
      have : min (D.MaxStackSize - (ItemAt S.Items t).Quantity) (ItemAt S.Items s).Quantity
          = (ItemAt S.Items s).Quantity := by omega
      rw [this]
      push_cast
      ring
    · rename_i hz
      refine ⟨?_, rfl⟩
      simp only []
      have hvs : FInventoryItem.IsValid
          { ItemAt S.Items s with
            Quantity := (ItemAt S.Items s).Quantity -
              min (D.MaxStackSize - (ItemAt S.Items t).Quantity) (ItemAt S.Items s).Quantity }
          = true := by
        simp only [FInventoryItem.IsValid, hsD, Option.isSome_some, Bool.true_and,
          decide_eq_true_eq]
        omega
      rw [weightOf_set2 _ t s _ _ ht0 ht1 hs0 hs1 (Ne.symm hst), slotWeight_valid _ D htv htD,
        slotWeight_valid _ D hsv hsD, slotWeight_valid _ D hvt htD, slotWeight_valid _ D hvs hsD]
      push_cast
      ring

theorem MoveItem_weight (S : UInventoryComponent) (f t q : Int)
    (h : (S.MoveItem f t q).1 = true) :
    weightOf (S.MoveItem f t q).2.Items = weightOf S.Items ∧
      (S.MoveItem f t q).2.MaxWeight = S.MaxWeight := by
  rcases MoveItem_cases S f t q with e | ⟨hf, ht, hfv, htv, e⟩ | ⟨q1, e⟩ | e |
    ⟨hf, ht, hfv, htv, e⟩
  · rw [e] at h
    exact absurd h (by simp)
  · obtain ⟨hf0, hf1⟩ := (IsValidIndex_iff S f).1 hf
    obtain ⟨ht0, ht1⟩ := (IsValidIndex_iff S t).1 ht
    have hne : t ≠ f := by
      rintro rfl
      rw [hfv] at htv
      exact absurd htv (by simp)
    rw [e]
    refine ⟨?_, rfl⟩
    simp only []
    rw [weightOf_set2 _ t f _ _ ht0 ht1 hf0 hf1 hne,
      slotWeight_invalid (FInventoryItem.mkDefault S.NextGuid) rfl, slotWeight_invalid _ htv]
    ring
  · rw [e] at h ⊢
    exact SplitStack_weight S f t q1 h
  · rw [e] at h ⊢
    exact MergeStacks_weight S f t h
  · obtain ⟨hf0, hf1⟩ := (IsValidIndex_iff S f).1 hf
    obtain ⟨ht0, ht1⟩ := (IsValidIndex_iff S t).1 ht
    rw [e]
    refine ⟨?_, rfl⟩
    simp only []
    by_cases hft : f = t
    · subst hft
      rw [set_ItemAt_self _ f hf0 hf1, set_ItemAt_self _ f hf0 hf1]
    · rw [weightOf_set2 _ f t _ _ hf0 hf1 ht0 ht1 hft]
      ring

theorem weightOf_filter_valid (l : List FInventoryItem) :
    weightOf (l.filter (fun Item => Item.IsValid)) = weightOf l := by
  induction l with
  | nil => rfl
  | cons it rest ih =>
    by_cases hv : it.IsValid = true
    · simp [List.filter_cons, hv, ih]
    · have hv' : it.IsValid = false := by simpa using hv
      simp [List.filter_cons, hv', ih, slotWeight_invalid it hv']

theorem weightOf_perm (l₁ l₂ : List FInventoryItem) (h : l₁.Perm l₂) :
    weightOf l₁ = weightOf l₂ := by
  unfold weightOf
  exact (h.map slotWeight).sum_eq

theorem weightOf_invalid (l : List FInventoryItem) (h : ∀ it ∈ l, it.IsValid = false) :
    weightOf l = 0 := by
  induction l with
  | nil => rfl
  | cons it rest ih =>
    rw [weightOf_cons, slotWeight_invalid it (h it (List.mem_cons_self _ _)),
      ih (fun x hx => h x (List.mem_cons_of_mem _ hx))]
    ring

theorem SortInventory_weight (S : UInventoryComponent) (b : Bool) :
    weightOf (S.SortInventory b).Items = weightOf S.Items ∧
      (S.SortInventory b).MaxWeight = S.MaxWeight := by
  rw [SortInventory_eq]
  refine ⟨?_, rfl⟩
  simp only []
  rw [weightOf_append, weightOf_perm _ _ (SortedStacks_perm S b), weightOf_filter_valid,
    weightOf_invalid (List.replicate _ _) (fun it hit => by
      rw [List.eq_of_mem_replicate hit]
      rfl)]
  ring

theorem ClearInventory_weight (S : UInventoryComponent) :
    weightOf S.ClearInventory.Items = 0 ∧ S.ClearInventory.MaxWeight = S.MaxWeight := by
  unfold ClearInventory
  exact ⟨weightOf_invalid _ (ClearFrom_spec S.Items 0 S.NextGuid).2, rfl⟩

theorem weightOf_nonneg (l : List FInventoryItem) (h : ∀ it ∈ l, 0 ≤ slotWeight it) :
    0 ≤ weightOf l := by
  induction l with
  | nil => simp
  | cons it rest ih =>
    rw [weightOf_cons]
    exact add_nonneg (h it (List.mem_cons_self _ _))
      (ih (fun x hx => h x (List.mem_cons_of_mem _ hx)))

theorem SetNum_weight_le (Items : List FInventoryItem) (n g : Nat)
    (h : ∀ it ∈ Items, 0 ≤ slotWeight it) :
    weightOf (SetNum Items n g).1 ≤ weightOf Items := by
  unfold SetNum
  split
  · have e : weightOf Items = weightOf (Items.take n) + weightOf (Items.drop n) := by
      rw [← weightOf_append, List.take_append_drop]
    have := weightOf_nonneg (Items.drop n) (fun it hit => h it (List.mem_of_mem_drop hit))
    simp only []
    linarith
  · simp only []
    have hz : weightOf ((List.range (n - Items.length)).map
        (fun j => FInventoryItem.mkDefault (g + j))) = 0 := by
      apply weightOf_invalid
      intro it hit
      obtain ⟨j, _, rfl⟩ := List.mem_map.1 hit
      rfl
    rw [weightOf_append, hz]
    simp

theorem SetMaxSlots_weight_le (S : UInventoryComponent) (n : Int) (S1 : UInventoryComponent)
    (hnn : NonNegWeights S) (h : S.SetMaxSlots n = some S1) :
    weightOf S1.Items ≤ weightOf S.Items ∧ S1.MaxWeight = S.MaxWeight := by
  have hresize : ∀ S2, S.SetMaxSlotsResize n = some S2 →
      weightOf S2.Items ≤ weightOf S.Items ∧ S2.MaxWeight = S.MaxWeight := by
    intro S2 h2
    unfold SetMaxSlotsResize at h2
    split at h2
    · exact absurd h2 (by simp)
    · simp only [Option.some.injEq] at h2
      rw [← h2]
      exact ⟨SetNum_weight_le _ _ _ hnn, rfl⟩
  unfold SetMaxSlots at h
  split at h
  · split at h
    · exact absurd h (by simp)
    · dsimp only at h
      split at h
      · simp only [Option.some.injEq] at h
        rw [← h]
        exact ⟨le_rfl, rfl⟩
      · exact hresize S1 h
  · exact hresize S1 h

theorem RemoveItemAtSlot_weight_le (S : UInventoryComponent) (i q : Int)
    (hnn : NonNegWeights S) (h : (S.RemoveItemAtSlot i q).1 = true) :
    weightOf (S.RemoveItemAtSlot i q).2.Items ≤ weightOf S.Items ∧
      (S.RemoveItemAtSlot i q).2.MaxWeight = S.MaxWeight := by
  rcases RemoveItemAtSlot_cases S i q with h1 | ⟨hi, hv, hq0, hq1, h1⟩
  · rw [h1] at h
    exact absurd h (by simp)
  · obtain ⟨i0, i1⟩ := (IsValidIndex_iff S i).1 hi
    obtain ⟨d, hd, hpos⟩ := valid_data _ hv
    have hw := hnn _ (ItemAt_mem S.Items i i0 i1)
    rw [slotWeight_valid _ d hv hd] at hw
    have hposq : (0 : ℚ) < ((ItemAt S.Items i).Quantity : ℚ) := by exact_mod_cast hpos
    have hdw : 0 ≤ d.Weight := nonneg_of_mul_nonneg_left hw hposq
    have hq0q : (0 : ℚ) ≤ (q : ℚ) := by exact_mod_cast hq0.le
    refine ⟨?_, ?_⟩
    · rw [RemoveItemAtSlot_weight S i q d hd h]
      have := mul_nonneg hdw hq0q
      linarith
    · rw [h1]

theorem RemoveItemByInstanceID_weight_le (S : UInventoryComponent) (g : FGuid) (q : Int)
    (hnn : NonNegWeights S) (h : (S.RemoveItemByInstanceID g q).1 = true) :
    weightOf (S.RemoveItemByInstanceID g q).2.Items ≤ weightOf S.Items ∧
      (S.RemoveItemByInstanceID g q).2.MaxWeight = S.MaxWeight := by
  unfold RemoveItemByInstanceID at h ⊢
  split
  · rename_i i hi
    rw [hi] at h
    exact RemoveItemAtSlot_weight_le S i q hnn h
  · exact ⟨le_rfl, rfl⟩

theorem SetNum_weight_eq (Items : List FInventoryItem) (n g : Nat)
    (h : ∀ it ∈ Items.drop n, it.IsValid = false) :
    weightOf (SetNum Items n g).1 = weightOf Items := by
  unfold SetNum
  split
  · have e : weightOf Items = weightOf (Items.take n) + weightOf (Items.drop n) := by
      rw [← weightOf_append, List.take_append_drop]
    simp only []
    rw [e, weightOf_invalid _ h]
    ring
  · have hz : weightOf ((List.range (n - Items.length)).map
        (fun j => FInventoryItem.mkDefault (g + j))) = 0 := by
      apply weightOf_invalid
      intro it hit
      obtain ⟨j, _, rfl⟩ := List.mem_map.1 hit
      rfl
    simp only []
    rw [weightOf_append, hz]
    ring

theorem SetMaxSlots_weight_eq (S : UInventoryComponent) (n : Int) (S1 : UInventoryComponent)
    (hlen : (S.Items.length : Int) ≤ S.MaxSlots) (h : S.SetMaxSlots n = some S1) :
    weightOf S1.Items = weightOf S.Items ∧ S1.MaxWeight = S.MaxWeight := by
  have hresize : ∀ S2, (∀ it ∈ S.Items.drop n.toNat, it.IsValid = false) →
      S.SetMaxSlotsResize n = some S2 →
      weightOf S2.Items = weightOf S.Items ∧ S2.MaxWeight = S.MaxWeight := by
    intro S2 hdrop h2
    unfold SetMaxSlotsResize at h2
    split at h2
    · exact absurd h2 (by simp)
    · simp only [Option.some.injEq] at h2
      rw [← h2]
      exact ⟨SetNum_weight_eq _ _ _ hdrop, rfl⟩
  unfold SetMaxSlots at h
  split at h
  · split at h
    · exact absurd h (by simp)
    · dsimp only at h
      split at h
      · simp only [Option.some.injEq] at h
        rw [← h]
        exact ⟨rfl, rfl⟩
      · rename_i hany
        refine hresize S1 ?_ h
        intro it hit
        by_contra hv
        exact hany (List.any_eq_true.2 ⟨it, hit, by simpa using hv⟩)
  · rename_i hge
    by_cases hneg : n < 0
    · simp [SetMaxSlotsResize, hneg] at h
    · refine hresize S1 ?_ h
      have : S.Items.length ≤ n.toNat := by omega
      rw [List.drop_of_length_le this]
      simp

/-- Claim C17, as amended.  In a store with `MaxWeight > 0` whose current weight
is at most `MaxWeight`, the weight is still at most `MaxWeight` after a
successful `AddItem`, `MoveItem`, `SplitStack`, `MergeStacks`, after
`SortInventory` and after `ClearInventory`; after a successful
`RemoveItemAtSlot` or `RemoveItemByInstanceID` it is so when no slot has a
negative weight; after `SetMaxSlots` it is so when no slot has a negative
weight or the slot list is not longer than `MaxSlots`.  No operation changes
`MaxWeight`. -/
theorem C17_weight_within_limit (S : UInventoryComponent) (hM : 0 < S.MaxWeight)
    (hw : S.GetCurrentWeight ≤ S.MaxWeight) :
    (∀ (fuel : Nat) (D : Option UInventoryItemData) (q out slot : Int)
        (S1 : UInventoryComponent), AddItem fuel S D q out = some (true, slot, S1) →
      S1.GetCurrentWeight ≤ S1.MaxWeight ∧ S1.MaxWeight = S.MaxWeight) ∧
    (∀ i q : Int, NonNegWeights S → (S.RemoveItemAtSlot i q).1 = true →
      (S.RemoveItemAtSlot i q).2.GetCurrentWeight ≤ (S.RemoveItemAtSlot i q).2.MaxWeight ∧
      (S.RemoveItemAtSlot i q).2.MaxWeight = S.MaxWeight) ∧
    (∀ (g : FGuid) (q : Int), NonNegWeights S → (S.RemoveItemByInstanceID g q).1 = true →
      (S.RemoveItemByInstanceID g q).2.GetCurrentWeight
        ≤ (S.RemoveItemByInstanceID g q).2.MaxWeight ∧
      (S.RemoveItemByInstanceID g q).2.MaxWeight = S.MaxWeight) ∧
    (∀ f t q : Int, (S.MoveItem f t q).1 = true →
      (S.MoveItem f t q).2.GetCurrentWeight ≤ (S.MoveItem f t q).2.MaxWeight ∧
      (S.MoveItem f t q).2.MaxWeight = S.MaxWeight) ∧
    (∀ s t q : Int, (S.SplitStack s t q).1 = true →
      (S.SplitStack s t q).2.GetCurrentWeight ≤ (S.SplitStack s t q).2.MaxWeight ∧
      (S.SplitStack s t q).2.MaxWeight = S.MaxWeight) ∧
    (∀ s t : Int, (S.MergeStacks s t).1 = true →
      (S.MergeStacks s t).2.GetCurrentWeight ≤ (S.MergeStacks s t).2.MaxWeight ∧
      (S.MergeStacks s t).2.MaxWeight = S.MaxWeight) ∧
    (∀ b : Bool, (S.SortInventory b).GetCurrentWeight ≤ (S.SortInventory b).MaxWeight ∧
      (S.SortInventory b).MaxWeight = S.MaxWeight) ∧
    (∀ (n : Int) (S1 : UInventoryComponent),
      NonNegWeights S ∨ (S.Items.length : Int) ≤ S.MaxSlots → S.SetMaxSlots n = some S1 →
      S1.GetCurrentWeight ≤ S1.MaxWeight ∧ S1.MaxWeight = S.MaxWeight) ∧
    (S.ClearInventory.GetCurrentWeight ≤ S.ClearInventory.MaxWeight ∧
      S.ClearInventory.MaxWeight = S.MaxWeight) := by
  rw [GetCurrentWeight_eq] at hw
  refine ⟨?_, ?_, ?_, ?_, ?_, ?_, ?_, ?_, ?_⟩
  · intro fuel D q out slot S1 h
    obtain ⟨d, _, hcan, e1, e2⟩ := AddItem_true_weight S D q out fuel slot S1 h
    have := CanAddItem_weight_ok S d q hcan hM
    rw [GetCurrentWeight_eq] at this
    rw [GetCurrentWeight_eq, e1, e2]
    exact ⟨this, rfl⟩
  · intro i q hnn h
    obtain ⟨e1, e2⟩ := RemoveItemAtSlot_weight_le S i q hnn h
    rw [GetCurrentWeight_eq, e2]
    exact ⟨e1.trans hw, rfl⟩
  · intro g q hnn h
    obtain ⟨e1, e2⟩ := RemoveItemByInstanceID_weight_le S g q hnn h
    rw [GetCurrentWeight_eq, e2]
    exact ⟨e1.trans hw, rfl⟩
  · intro f t q h
    obtain ⟨e1, e2⟩ := MoveItem_weight S f t q h
    rw [GetCurrentWeight_eq, e1, e2]
    exact ⟨hw, rfl⟩
  · intro s t q h
    obtain ⟨e1, e2⟩ := SplitStack_weight S s t q h
    rw [GetCurrentWeight_eq, e1, e2]
    exact ⟨hw, rfl⟩
  · intro s t h
    obtain ⟨e1, e2⟩ := MergeStacks_weight S s t h
    rw [GetCurrentWeight_eq, e1, e2]
    exact ⟨hw, rfl⟩
  · intro b
    obtain ⟨e1, e2⟩ := SortInventory_weight S b
    rw [GetCurrentWeight_eq, e1, e2]
    exact ⟨hw, rfl⟩
  · intro n S1 hor h
    rcases hor with hnn | hlen
    · obtain ⟨e1, e2⟩ := SetMaxSlots_weight_le S n S1 hnn h
      rw [GetCurrentWeight_eq, e2]
      exact ⟨e1.trans hw, rfl⟩
    · obtain ⟨e1, e2⟩ := SetMaxSlots_weight_eq S n S1 hlen h
      rw [GetCurrentWeight_eq, e1, e2]
      exact ⟨hw, rfl⟩
  · obtain ⟨e1, e2⟩ := ClearInventory_weight S
    rw [GetCurrentWeight_eq, e1, e2]
    exact ⟨hM.le, rfl⟩

theorem exLift_weight : exLift.GetCurrentWeight = 9 := by
  simp [GetCurrentWeight, exLift, FInventoryItem.mk2, FInventoryItem.IsValid,
    FInventoryItem.GetTotalWeight, exLiftD, exHeavyD]
  norm_num

theorem exLift_build :
    AddItem 1 exEmpty3 (some exLiftD) 1 (-1) = some (true, 0, exLift1) ∧
    AddItem 1 exLift1 (some exHeavyD) 1 (-1) = some (true, 1, exLift2) ∧
    AddItem 1 exLift2 (some exHeavyD) 1 (-1) = some (true, 2, exLift) := by
  have c1 : exEmpty3.CanAddItem (some exLiftD) 1 = true := by
    simp [CanAddItem, exEmpty3, CanAddItemLoop, CanAddItemSlots, GetOccupiedSlots,
      GetCurrentWeight, FInventoryItem.mkDefault, FInventoryItem.IsValid, exLiftD]
    rw [CeilToInt_FloatDiv_small 1 1 (by norm_num) (by norm_num)]
    norm_num
  have c2 : exLift1.CanAddItem (some exHeavyD) 1 = true := by
    simp [CanAddItem, exLift1, CanAddItemLoop, CanAddItemSlots, GetOccupiedSlots,
      GetCurrentWeight, FInventoryItem.mkDefault, FInventoryItem.mk2, FInventoryItem.IsValid,
      FInventoryItem.GetTotalWeight, exLiftD, exHeavyD]
    rw [CeilToInt_FloatDiv_small 1 1 (by norm_num) (by norm_num)]
    norm_num
  have c3 : exLift2.CanAddItem (some exHeavyD) 1 = true := by
    simp [CanAddItem, exLift2, CanAddItemLoop, CanAddItemSlots, GetOccupiedSlots,
      GetCurrentWeight, FInventoryItem.mkDefault, FInventoryItem.mk2, FInventoryItem.IsValid,
      FInventoryItem.GetTotalWeight, exLiftD, exHeavyD]
    rw [CeilToInt_FloatDiv_small 1 1 (by norm_num) (by norm_num)]
    norm_num
  refine ⟨?_, ?_, ?_⟩
  · rw [AddItem]
    simp only [c1]
    rfl
  · rw [AddItem]
    simp only [c2]
    rfl
  · rw [AddItem]
    simp only [c3]
    rfl

/-- Counterexample to C17 as stated.  Three successful `AddItem` calls on an
empty store of three slots with `MaxWeight = 10` build `exLift`, whose weight
is `9 ≤ 10`; `RemoveItemAtSlot(0, 1)` on it succeeds and leaves the weight
`19 > 10`. -/
theorem C17_weight_counterexample :
    (AddItem 1 exEmpty3 (some exLiftD) 1 (-1) = some (true, 0, exLift1) ∧
      AddItem 1 exLift1 (some exHeavyD) 1 (-1) = some (true, 1, exLift2) ∧
      AddItem 1 exLift2 (some exHeavyD) 1 (-1) = some (true, 2, exLift)) ∧
    0 < exLift.MaxWeight ∧ exLift.GetCurrentWeight ≤ exLift.MaxWeight ∧
    (exLift.RemoveItemAtSlot 0 1).1 = true ∧
    (exLift.RemoveItemAtSlot 0 1).2.GetCurrentWeight = 19 ∧
    ¬ (exLift.RemoveItemAtSlot 0 1).2.GetCurrentWeight
        ≤ (exLift.RemoveItemAtSlot 0 1).2.MaxWeight := by
  have hr : exLift.RemoveItemAtSlot 0 1 = (true,
      { exLift with
        Items := [FInventoryItem.mkDefault 6, FInventoryItem.mk2 (some exHeavyD) 1 4,
                  FInventoryItem.mk2 (some exHeavyD) 1 5],
        NextGuid := 7,
        Broadcasts := exLift.Broadcasts ++
          [Notification.InventoryUpdated 0 (FInventoryItem.mkDefault 6)] }) := by
    rfl
  have hw2 : (exLift.RemoveItemAtSlot 0 1).2.GetCurrentWeight = 19 := by
    rw [hr]
    simp [GetCurrentWeight, FInventoryItem.mk2, FInventoryItem.mkDefault,
      FInventoryItem.IsValid, FInventoryItem.GetTotalWeight, exHeavyD]
  refine ⟨exLift_build, by simp [exLift], ?_, by rw [hr], hw2, ?_⟩
  · rw [exLift_weight]
    simp [exLift]
    norm_num
  · rw [hw2, hr]
    simp [exLift]
    norm_num

theorem exWeighted_nonneg : NonNegWeights exWeighted := by
  intro it hit
  simp only [exWeighted, List.mem_cons, List.mem_singleton, List.not_mem_nil, or_false] at hit
  rcases hit with rfl | rfl
  · simp [slotWeight, FInventoryItem.mk2, FInventoryItem.IsValid, FInventoryItem.GetTotalWeight,
      exHeavyD]
    norm_num
  · simp [slotWeight, FInventoryItem.mkDefault, FInventoryItem.IsValid]

/-- Witness of C17: the store `exWeighted` (`MaxWeight = 10`, weight 9.5) meets
the hypotheses, `RemoveItemAtSlot(0, 1)` and `MoveItem(0, 1, 1)` succeed on it,
and what they leave is within the limit. -/
theorem C17_weight_within_limit_witness :
    0 < exWeighted.MaxWeight ∧ exWeighted.GetCurrentWeight ≤ exWeighted.MaxWeight ∧
    (exWeighted.RemoveItemAtSlot 0 1).1 = true ∧
    (exWeighted.RemoveItemAtSlot 0 1).2.GetCurrentWeight
      ≤ (exWeighted.RemoveItemAtSlot 0 1).2.MaxWeight ∧
    (exWeighted.MoveItem 0 1 1).1 = true ∧
    (exWeighted.MoveItem 0 1 1).2.GetCurrentWeight ≤ (exWeighted.MoveItem 0 1 1).2.MaxWeight :=
  have hM : 0 < exWeighted.MaxWeight := by simp [exWeighted]
  have hw : exWeighted.GetCurrentWeight ≤ exWeighted.MaxWeight := by
    rw [exWeighted_weight]
    simp [exWeighted]
    norm_num
  ⟨hM, hw, rfl,
    ((C17_weight_within_limit exWeighted hM hw).2.1 0 1 exWeighted_nonneg rfl).1, rfl,
    ((C17_weight_within_limit exWeighted hM hw).2.2.2.1 0 1 1 rfl).1⟩

theorem slotSpace_le_stackSpace (D : UInventoryItemData) (Items : List FInventoryItem)
    (hok : ∀ it ∈ Items, StackOK it = true) (x : FInventoryItem) (hx : x ∈ Items) :
    slotSpace D x ≤ stackSpace D Items := by
  induction Items with
  | nil => simp at hx
  | cons it rest ih =>
    have hrest : ∀ it ∈ rest, StackOK it = true := fun y hy => hok y (List.mem_cons_of_mem _ hy)
    have h1 := holds_space_nonneg D it (hok it (List.mem_cons_self _ _))
    have h2 := stackSpace_nonneg D rest hrest
    rw [stackSpace_cons]
    rcases List.mem_cons.1 hx with rfl | hmem
    · omega
    · have := ih hrest hmem
      omega

theorem emptyCount_pos_of_mem (Items : List FInventoryItem) (x : FInventoryItem)
    (hx : x ∈ Items) (hv : x.IsValid = false) : 1 ≤ emptyCount Items := by
  unfold emptyCount
  exact List.countP_pos_iff.2 ⟨x, hx, by simp [hv]⟩

/-- Claim C11, as amended.  In a store that satisfies the store invariants and
is within its weight limit (`MaxWeight ≤ 0`, or current weight at most
`MaxWeight`): when `RemoveItemAtSlot(i, q)` succeeds on a stack of definition
`D`, the following `AddItem(D, q)` returns true (for every bound on its loop of
at least `q` iterations) and `GetCurrentWeight` afterwards equals its value
before the removal. -/
theorem C11_remove_then_add_restores_weight (S : UInventoryComponent) (i q out : Int)
    (fuel : Nat) (D : UInventoryItemData) (hinv : StoreInv S)
    (hw : S.MaxWeight ≤ 0 ∨ S.GetCurrentWeight ≤ S.MaxWeight)
    (hD : (ItemAt S.Items i).ItemData = some D)
    (hrem : (S.RemoveItemAtSlot i q).1 = true) (hfuel : q.toNat ≤ fuel) :
    ∃ slot S2, AddItem fuel (S.RemoveItemAtSlot i q).2 (some D) q out = some (true, slot, S2) ∧
      S2.GetCurrentWeight = S.GetCurrentWeight := by
  have hinv1 := RemoveItemAtSlot_inv S hinv i q
  have hwt := RemoveItemAtSlot_weight S i q D hD hrem
  rcases RemoveItemAtSlot_cases S i q with h1 | ⟨hi, hv, hq0, hq1, h1⟩
  · rw [h1] at hrem
    exact absurd hrem (by simp)
  · obtain ⟨i0, i1⟩ := (IsValidIndex_iff S i).1 hi
    have hok : StackOK (ItemAt S.Items i) = true := ItemAt_StackOK _ _ hinv.2
    have hmax : (ItemAt S.Items i).Quantity ≤ D.MaxStackSize := by
      simpa [StackOK, hD, hv] using hok
    have hM : 1 ≤ D.MaxStackSize := by omega
    have hMW : (S.RemoveItemAtSlot i q).2.MaxWeight = S.MaxWeight := by rw [h1]
    have hItems : (S.RemoveItemAtSlot i q).2.Items = S.Items.set i.toNat
        (if (ItemAt S.Items i).Quantity - q ≤ 0 then FInventoryItem.mkDefault S.NextGuid
         else { ItemAt S.Items i with Quantity := (ItemAt S.Items i).Quantity - q }) := by
      rw [h1]
    have hmem : (if (ItemAt S.Items i).Quantity - q ≤ 0 then FInventoryItem.mkDefault S.NextGuid
         else { ItemAt S.Items i with Quantity := (ItemAt S.Items i).Quantity - q })
        ∈ (S.RemoveItemAtSlot i q).2.Items := by
      rw [hItems]
      have := ItemAt_mem (S.Items.set i.toNat
        (if (ItemAt S.Items i).Quantity - q ≤ 0 then FInventoryItem.mkDefault S.NextGuid
         else { ItemAt S.Items i with Quantity := (ItemAt S.Items i).Quantity - q })) i i0
        (by simpa using i1)
      rwa [ItemAt_set_self _ _ _ i0 i1] at this
    have hnn := stackSpace_nonneg D (S.RemoveItemAtSlot i q).2.Items hinv1.2
    have hEM : (0:Int) ≤ (emptyCount (S.RemoveItemAtSlot i q).2.Items : Int) * D.MaxStackSize :=
      mul_nonneg (by omega) (by omega)
    have hroom : q ≤ (if 1 < D.MaxStackSize then stackSpace D (S.RemoveItemAtSlot i q).2.Items
          else 0) + (emptyCount (S.RemoveItemAtSlot i q).2.Items : Int) * D.MaxStackSize := by
      by_cases hz : (ItemAt S.Items i).Quantity - q ≤ 0
      · rw [if_pos hz] at hmem
        have hE := emptyCount_pos_of_mem _ _ hmem rfl
        have : D.MaxStackSize ≤
            (emptyCount (S.RemoveItemAtSlot i q).2.Items : Int) * D.MaxStackSize := by
          have h1E : (1 : Int) ≤ (emptyCount (S.RemoveItemAtSlot i q).2.Items : Int) := by
            exact_mod_cast hE
          nlinarith
        split <;> omega
      · rw [if_neg hz] at hmem
        have hsp := slotSpace_le_stackSpace D _ hinv1.2 _ hmem
        have hholds : holds D { ItemAt S.Items i with
            Quantity := (ItemAt S.Items i).Quantity - q } = true := by
          simp only [holds, FInventoryItem.IsValid, hD, Option.isSome_some, Bool.true_and,
            Bool.and_eq_true, decide_eq_true_eq, and_true]
          omega
        simp only [slotSpace, hholds, if_true] at hsp
        rw [if_pos (by omega)]
        omega
    have hcan : (S.RemoveItemAtSlot i q).2.CanAddItem (some D) q = true := by
      apply CanAddItem_of_room _ D q hinv1 hM hq0 (Or.inr (by omega)) _ hroom
      rw [hMW, GetCurrentWeight_eq, hwt]
      rcases hw with h | h
      · exact Or.inl h
      · right
        rw [GetCurrentWeight_eq] at h
        linarith
    obtain ⟨slot, S2, hadd, _⟩ :=
      AddItem_of_room _ D q out fuel hinv1 hM hcan (by omega) hfuel
    refine ⟨slot, S2, hadd, ?_⟩
    obtain ⟨d, hd, _, e1, _⟩ := AddItem_true_weight _ _ _ _ _ _ _ hadd
    cases hd
    rw [GetCurrentWeight_eq, GetCurrentWeight_eq, e1, hwt]
    ring

theorem exOver_inv : StoreInv exOver := by
  refine ⟨by decide, ?_⟩
  decide

/-- Counterexample to C11 as stated.  The store `exOver` is what
`RemoveItemAtSlot(0, 1)` leaves of `exLift`; it satisfies the store invariants
and weighs 19 with `MaxWeight = 10`.  `RemoveItemAtSlot(1, 1)` succeeds on its
stack of `exHeavyD`; the following `AddItem(exHeavyD, 1)` is refused by the
weight check and changes nothing, so the weight stays at 9.5. -/
theorem C11_remove_then_add_counterexample :
    (exLift.RemoveItemAtSlot 0 1).2 = exOver ∧ StoreInv exOver ∧
    (ItemAt exOver.Items 1).ItemData = some exHeavyD ∧
    exOver.RemoveItemAtSlot 1 1 = (true, exOver1) ∧
    (∀ (fuel : Nat) (out : Int),
      AddItem fuel exOver1 (some exHeavyD) 1 out = some (false, -1, exOver1)) ∧
    exOver.GetCurrentWeight = 19 ∧ exOver1.GetCurrentWeight = 19 / 2 ∧
    exOver1.GetCurrentWeight ≠ exOver.GetCurrentWeight := by
  have hc : exOver1.CanAddItem (some exHeavyD) 1 = false := by
    simp [CanAddItem, exOver1, GetCurrentWeight, FInventoryItem.mk2, FInventoryItem.mkDefault,
      FInventoryItem.IsValid, FInventoryItem.GetTotalWeight, exHeavyD]
    norm_num
  have w0 : exOver.GetCurrentWeight = 19 := by
    simp [GetCurrentWeight, exOver, FInventoryItem.mk2, FInventoryItem.mkDefault,
      FInventoryItem.IsValid, FInventoryItem.GetTotalWeight, exHeavyD]
  have w1 : exOver1.GetCurrentWeight = 19 / 2 := by
    simp [GetCurrentWeight, exOver1, FInventoryItem.mk2, FInventoryItem.mkDefault,
      FInventoryItem.IsValid, FInventoryItem.GetTotalWeight, exHeavyD]
  refine ⟨rfl, exOver_inv, rfl, rfl, ?_, w0, w1, ?_⟩
  · intro fuel out
    rw [AddItem]
    simp [hc]
  · rw [w0, w1]
    norm_num

/-- Witness of C11: in `exWeighted` (one `exHeavyD`, weight 9.5, limit 10)
`RemoveItemAtSlot(0, 1)` succeeds, and the following `AddItem(exHeavyD, 1)`
returns true and brings the weight back to that of `exWeighted`. -/
theorem C11_remove_then_add_witness :
    StoreInv exWeighted ∧
    (exWeighted.MaxWeight ≤ 0 ∨ exWeighted.GetCurrentWeight ≤ exWeighted.MaxWeight) ∧
    (ItemAt exWeighted.Items 0).ItemData = some exHeavyD ∧
    (exWeighted.RemoveItemAtSlot 0 1).1 = true ∧
    ∃ slot S2, AddItem 1 (exWeighted.RemoveItemAtSlot 0 1).2 (some exHeavyD) 1 (-1)
        = some (true, slot, S2) ∧
      S2.GetCurrentWeight = exWeighted.GetCurrentWeight :=
  have hw : exWeighted.MaxWeight ≤ 0 ∨ exWeighted.GetCurrentWeight ≤ exWeighted.MaxWeight := by
    right
    rw [exWeighted_weight]
    simp [exWeighted]
    norm_num
  ⟨exWeighted_inv, hw, rfl, rfl,
    C11_remove_then_add_restores_weight exWeighted 0 1 (-1) 1 exHeavyD exWeighted_inv hw rfl rfl
      (by decide)⟩

/-- `MergeStacks(s, s)` on a stack that stacks with itself: the quantity goes up
and down by the same amount, so the slots are as before; the two delegate
calls are made. -/
theorem MergeStacks_self_eq (S : UInventoryComponent) (s : Int)
    (hs : S.IsValidIndex s = true)
    (hcs : CanStack (ItemAt S.Items s) (ItemAt S.Items s) = true) :
    S.MergeStacks s s = (true,
      { S with Broadcasts := S.Broadcasts ++
          [Notification.InventoryUpdated s (ItemAt S.Items s),
           Notification.InventoryUpdated s (ItemAt S.Items s)] }) := by
  obtain ⟨hs0, hs1⟩ := (IsValidIndex_iff S s).1 hs
  obtain ⟨hsv, _, D, hsD, _, hD⟩ := (CanStack_iff _ _).1 hcs
  obtain ⟨_, _, hpos⟩ := valid_data _ hsv
  unfold MergeStacks
  simp only [hs, hcs, Bool.not_true, Bool.or_self, Bool.false_eq_true, if_false]
  split
  · rename_i hnone
    rw [hsD] at hnone
    exact absurd hnone (by simp)
  · rename_i TargetData hTD
    have hself : ∀ x, ItemAt (S.Items.set s.toNat x) s = x :=
      fun x => ItemAt_set_self _ s x hs0 hs1
    have hself2 : ∀ x y, ItemAt ((S.Items.set s.toNat x).set s.toNat y) s = y :=
      fun x y => ItemAt_set_self _ s y hs0 (by simpa using hs1)
    simp only [hself, hself2, List.set_set]
    have hq : ¬ ((ItemAt S.Items s).Quantity
        + min (TargetData.MaxStackSize - (ItemAt S.Items s).Quantity)
            (ItemAt S.Items s).Quantity
        - min (TargetData.MaxStackSize - (ItemAt S.Items s).Quantity)
            (ItemAt S.Items s).Quantity ≤ 0) := by omega
    rw [if_neg hq]
    have e : ({ ItemAt S.Items s with
        Quantity := (ItemAt S.Items s).Quantity
          + min (TargetData.MaxStackSize - (ItemAt S.Items s).Quantity)
              (ItemAt S.Items s).Quantity
          - min (TargetData.MaxStackSize - (ItemAt S.Items s).Quantity)
              (ItemAt S.Items s).Quantity } : FInventoryItem) = ItemAt S.Items s := by
      cases hit : ItemAt S.Items s
      simp
    rw [e, set_ItemAt_self _ s hs0 hs1]

/-- `MoveItem(i, i, q)` on a valid stack ends in `MergeStacks(i, i)` or in the
swap of the slot with itself; both leave the slots as they are. -/
theorem MoveItem_self_eq (S : UInventoryComponent) (i q : Int)
    (hi : S.IsValidIndex i = true) (hv : (ItemAt S.Items i).IsValid = true) :
    S.MoveItem i i q = (true,
      { S with Broadcasts := S.Broadcasts ++
          [Notification.InventoryUpdated i (ItemAt S.Items i),
           Notification.InventoryUpdated i (ItemAt S.Items i)] }) := by
  obtain ⟨hi0, hi1⟩ := (IsValidIndex_iff S i).1 hi
  unfold MoveItem
  simp only [hi, hv, Bool.not_true, Bool.or_self, Bool.false_eq_true, if_false]
  by_cases hcs : CanStack (ItemAt S.Items i) (ItemAt S.Items i) = true
  · simp only [hcs, if_true]
    exact MergeStacks_self_eq S i hi hcs
  · simp only [hcs, Bool.false_eq_true, if_false]
    rw [set_ItemAt_self _ i hi0 hi1, set_ItemAt_self _ i hi0 hi1]

/-- C22. For an in-range slot `i` holding a valid stack and every quantity
argument `q`, `MoveItem(i, i, q)` returns true and leaves the component as it
was apart from the two `OnInventoryUpdated` calls it makes for slot `i`: every
slot (definition, quantity, identifier, metadata), `MaxSlots`, `MaxWeight` and
the identifier counter are unchanged.  The same holds for `MergeStacks(i, i)`
when the stack is stackable, that is when its definition has
`MaxStackSize > 1`. -/
theorem C22_MoveItem_MergeStacks_same_slot (S : UInventoryComponent) (i q : Int)
    (hi : S.IsValidIndex i = true) (hv : (ItemAt S.Items i).IsValid = true) :
    (S.MoveItem i i q = (true,
        { S with Broadcasts := S.Broadcasts ++
            [Notification.InventoryUpdated i (ItemAt S.Items i),
             Notification.InventoryUpdated i (ItemAt S.Items i)] }) ∧
      (S.MoveItem i i q).2.Items = S.Items) ∧
    (∀ D, (ItemAt S.Items i).ItemData = some D → 1 < D.MaxStackSize →
      S.MergeStacks i i = (true,
        { S with Broadcasts := S.Broadcasts ++
            [Notification.InventoryUpdated i (ItemAt S.Items i),
             Notification.InventoryUpdated i (ItemAt S.Items i)] }) ∧
      (S.MergeStacks i i).2.Items = S.Items) := by
  refine ⟨⟨MoveItem_self_eq S i q hi hv, ?_⟩, ?_⟩
  · rw [MoveItem_self_eq S i q hi hv]
  · intro D hD hM
    have hcs : CanStack (ItemAt S.Items i) (ItemAt S.Items i) = true :=
      (CanStack_iff _ _).2 ⟨hv, hv, D, hD, hD, hM⟩
    refine ⟨MergeStacks_self_eq S i hi hcs, ?_⟩
    rw [MergeStacks_self_eq S i hi hcs]

/-- Witness of C22: in the store `[5 of exD, empty]`, `MoveItem(0, 0, 3)` and
`MergeStacks(0, 0)` return true and leave both slots as they are. -/
theorem C22_MoveItem_MergeStacks_same_slot_witness :
    exFive2.IsValidIndex 0 = true ∧ (ItemAt exFive2.Items 0).IsValid = true ∧
    (exFive2.MoveItem 0 0 3).1 = true ∧ (exFive2.MoveItem 0 0 3).2.Items = exFive2.Items ∧
    (exFive2.MergeStacks 0 0).1 = true ∧ (exFive2.MergeStacks 0 0).2.Items = exFive2.Items :=
  ⟨by decide, by decide,
    by rw [(C22_MoveItem_MergeStacks_same_slot exFive2 0 3 (by decide) (by decide)).1.1],
    (C22_MoveItem_MergeStacks_same_slot exFive2 0 3 (by decide) (by decide)).1.2,
    by rw [((C22_MoveItem_MergeStacks_same_slot exFive2 0 3 (by decide) (by decide)).2 exD rfl
        (by decide)).1],
    ((C22_MoveItem_MergeStacks_same_slot exFive2 0 3 (by decide) (by decide)).2 exD rfl
        (by decide)).2⟩

/-- One iteration of the while loop of `AddItem`, with an empty slot at hand. -/
theorem AddItemLoop_step (D : UInventoryItemData) (T : UInventoryComponent) (R o : Int)
    (n : Nat) (hR : 0 < R) (he : T.FindEmptySlot ≠ -1) :
    AddItemLoop D (n + 1) T R o =
      AddItemLoop D n
        { T with
          Items := T.Items.set T.FindEmptySlot.toNat
            (FInventoryItem.mk2 (some D) (min R D.MaxStackSize) T.NextGuid),
          NextGuid := T.NextGuid + 1,
          Broadcasts := T.Broadcasts ++
            [Notification.InventoryUpdated T.FindEmptySlot
              (FInventoryItem.mk2 (some D) (min R D.MaxStackSize) T.NextGuid)] }
        (R - min R D.MaxStackSize) T.FindEmptySlot := by
  rw [AddItemLoop]
  simp only [hR, if_true, he, if_false]

/-- The while loop of `AddItem` without an empty slot: it returns false. -/
theorem AddItemLoop_full (D : UInventoryItemData) (T : UInventoryComponent) (R o : Int)
    (n : Nat) (hR : 0 < R) (he : T.FindEmptySlot = -1) :
    AddItemLoop D (n + 1) T R o = some (false, -1, T) := by
  rw [AddItemLoop]
  simp only [hR, if_true, he]

/-- With `MaxStackSize ≥ 1` the while loop of `AddItem` ends within `R`
iterations, in every state, and its result does not depend on the bound. -/
theorem AddItemLoop_total (D : UInventoryItemData) (hM : 1 ≤ D.MaxStackSize) (m : Nat) :
    ∀ (T : UInventoryComponent) (R o : Int), R.toNat ≤ m →
      ∃ r, ∀ n : Nat, R.toNat ≤ n → AddItemLoop D n T R o = some r := by
  induction m with
  | zero =>
    intro T R o hm
    refine ⟨(true, o, T), fun n _ => ?_⟩
    rw [AddItemLoop.eq_def]
    have : ¬ 0 < R := by omega
    simp only [this, if_false]
  | succ m ih =>
    intro T R o hm
    by_cases hR : 0 < R
    · by_cases he : T.FindEmptySlot = -1
      · refine ⟨(false, -1, T), fun n hn => ?_⟩
        obtain ⟨k, rfl⟩ : ∃ k, n = k + 1 := ⟨n - 1, by omega⟩
        exact AddItemLoop_full D T R o k hR he
      · have hmin : 1 ≤ min R D.MaxStackSize := le_min (by omega) hM
        obtain ⟨r, hr⟩ := ih
          { T with
            Items := T.Items.set T.FindEmptySlot.toNat
              (FInventoryItem.mk2 (some D) (min R D.MaxStackSize) T.NextGuid),
            NextGuid := T.NextGuid + 1,
            Broadcasts := T.Broadcasts ++
              [Notification.InventoryUpdated T.FindEmptySlot
                (FInventoryItem.mk2 (some D) (min R D.MaxStackSize) T.NextGuid)] }
          (R - min R D.MaxStackSize) T.FindEmptySlot (by omega)
        refine ⟨r, fun n hn => ?_⟩
        obtain ⟨k, rfl⟩ : ∃ k, n = k + 1 := ⟨n - 1, by omega⟩
        rw [AddItemLoop_step D T R o k hR he]
        exact hr k (by omega)
    · refine ⟨(true, o, T), fun n _ => ?_⟩
      rw [AddItemLoop.eq_def]
      simp only [hR, if_false]

/-- With `MaxStackSize ≥ 1`, `AddItem` returns in every state, for every loop
bound of at least `q`, and the result does not depend on the bound. -/
theorem AddItem_total (S : UInventoryComponent) (D : UInventoryItemData) (q out : Int)
    (hM : 1 ≤ D.MaxStackSize) :
    ∃ r, ∀ fuel : Nat, q.toNat ≤ fuel → AddItem fuel S (some D) q out = some r := by
  by_cases hq : q ≤ 0
  · exact ⟨(false, -1, S), fun fuel _ => by simp [AddItem, hq]⟩
  · by_cases hcan : S.CanAddItem (some D) q = true
    · by_cases h1 : 1 < D.MaxStackSize
      · obtain ⟨t0, t1, _, _⟩ := TryStackItemFrom_general D S.Items 0 q out false (by omega)
        by_cases hb : ((TryStackItemFrom D S.Items 0 q out false).bStackedAny
            && decide ((TryStackItemFrom D S.Items 0 q out false).Quantity ≤ 0)) = true
        · refine ⟨(true, (TryStackItemFrom D S.Items 0 q out false).OutSlotIndex,
            { S with Items := (TryStackItemFrom D S.Items 0 q out false).Items,
                     Broadcasts := S.Broadcasts
                       ++ (TryStackItemFrom D S.Items 0 q out false).Broadcasts }),
            fun fuel _ => ?_⟩
          simp only [AddItem, hq, if_false, hcan, Bool.not_true, Bool.false_eq_true, h1, if_true,
            TryStackItem, hb]
        · obtain ⟨r, hr⟩ := AddItemLoop_total D hM q.toNat
            { S with Items := (TryStackItemFrom D S.Items 0 q out false).Items,
                     Broadcasts := S.Broadcasts
                       ++ (TryStackItemFrom D S.Items 0 q out false).Broadcasts }
            (TryStackItemFrom D S.Items 0 q out false).Quantity
            (TryStackItemFrom D S.Items 0 q out false).OutSlotIndex (by omega)
          refine ⟨r, fun fuel hf => ?_⟩
          simp only [AddItem, hq, if_false, hcan, Bool.not_true, Bool.false_eq_true, h1, if_true,
            TryStackItem, hb]
          exact hr fuel (by omega)
      · obtain ⟨r, hr⟩ := AddItemLoop_total D hM q.toNat S q out le_rfl
        refine ⟨r, fun fuel hf => ?_⟩
        simp only [AddItem, hq, if_false, hcan, Bool.not_true, Bool.false_eq_true, h1]
        exact hr fuel hf
    · refine ⟨(false, -1, S), fun fuel _ => ?_⟩
      have hcan' : S.CanAddItem (some D) q = false := by simpa using hcan
      simp [AddItem, hq, hcan']

theorem FindEmptySlotFrom_ne (Items : List FInventoryItem) (i : Int) (h0 : 0 ≤ i)
    (x : FInventoryItem) (hx : x ∈ Items) (hv : x.IsValid = false) :
    FindEmptySlotFrom Items i ≠ -1 := by
  rcases FindEmptySlotFrom_spec Items i with ⟨hall, _⟩ | ⟨pre, it, post, _, _, _, e⟩
  · rw [hall x hx] at hv
    exact absurd hv (by simp)
  · rw [e]
    omega

/-- With `MaxStackSize ≤ 0` the while loop of `AddItem` does not end once it
has an empty slot: the stack it writes has a quantity `≤ 0`, so the slot stays
empty and the remaining quantity does not decrease. -/
theorem AddItemLoop_no_progress (D : UInventoryItemData) (hM : D.MaxStackSize ≤ 0) (n : Nat) :
    ∀ (T : UInventoryComponent) (R o : Int), 0 < R → T.FindEmptySlot ≠ -1 →
      AddItemLoop D n T R o = none := by
  induction n with
  | zero =>
    intro T R o hR _
    rw [AddItemLoop]
    simp only [hR, if_true]
  | succ n ih =>
    intro T R o hR he
    have hmin : min R D.MaxStackSize ≤ 0 := le_trans (min_le_right _ _) hM
    rw [AddItemLoop_step D T R o n hR he]
    apply ih _ _ _ (by omega)
    unfold FindEmptySlot at he ⊢
    rcases FindEmptySlotFrom_spec T.Items 0 with ⟨_, e⟩ | ⟨pre, it, post, hItems, _, _, e⟩
    · exact absurd e he
    · simp only []
      rw [e, hItems]
      have : (0 + (pre.length : Int)).toNat = pre.length := by omega
      rw [this, set_append_mid]
      apply FindEmptySlotFrom_ne _ 0 le_rfl
        (FInventoryItem.mk2 (some D) (min R D.MaxStackSize) T.NextGuid)
      · simp
      · simp only [FInventoryItem.mk2, FInventoryItem.IsValid, Option.isSome_some, Bool.true_and,
          decide_eq_false_iff_not]
        omega

/-- C23. For a definition `D` with `MaxStackSize ≥ 1`, `AddItem(D, q)` ends in
every state of the component: for every bound of at least `q` on the
iterations of its while loop it returns, always with the same result.  An
iteration that finds an empty slot goes on with the remaining quantity
lowered by `min(remaining, MaxStackSize) ≥ 1`, and the loop alone returns
within `R` iterations when `R` is left to place.  For a definition with
`MaxStackSize ≤ 0` the loop, once it has an empty slot, returns for no bound
on its iterations. -/
theorem C23_AddItem_terminates (D : UInventoryItemData) (hM : 1 ≤ D.MaxStackSize) :
    (∀ (S : UInventoryComponent) (q out : Int),
      ∃ r, ∀ fuel : Nat, q.toNat ≤ fuel → AddItem fuel S (some D) q out = some r) ∧
    (∀ (T : UInventoryComponent) (R o : Int) (n : Nat), 0 < R → T.FindEmptySlot ≠ -1 →
      1 ≤ min R D.MaxStackSize ∧ R - min R D.MaxStackSize < R ∧
      ∃ T1, AddItemLoop D (n + 1) T R o
        = AddItemLoop D n T1 (R - min R D.MaxStackSize) T.FindEmptySlot) ∧
    (∀ (T : UInventoryComponent) (R o : Int),
      ∃ r, ∀ n : Nat, R.toNat ≤ n → AddItemLoop D n T R o = some r) ∧
    (∀ (D0 : UInventoryItemData) (T : UInventoryComponent) (R o : Int) (n : Nat),
      D0.MaxStackSize ≤ 0 → 0 < R → T.FindEmptySlot ≠ -1 → AddItemLoop D0 n T R o = none) := by
  refine ⟨fun S q out => AddItem_total S D q out hM, ?_,
    fun T R o => AddItemLoop_total D hM R.toNat T R o le_rfl,
    fun D0 T R o n h0 hR he => AddItemLoop_no_progress D0 h0 n T R o hR he⟩
  intro T R o n hR he
  have hmin : 1 ≤ min R D.MaxStackSize := le_min (by omega) hM
  exact ⟨hmin, by omega, _, AddItemLoop_step D T R o n hR he⟩

/-- Witness of C23: `exD` has `MaxStackSize = 10 ≥ 1`, and `AddItem(exD, 15)` on
the empty store of two slots returns for every bound of at least 15. -/
theorem C23_AddItem_terminates_witness :
    1 ≤ exD.MaxStackSize ∧
    ∃ r, ∀ fuel : Nat, (15 : Int).toNat ≤ fuel → AddItem fuel exEmpty2 (some exD) 15 0 = some r :=
  ⟨by decide, (C23_AddItem_terminates exD (by decide)).1 exEmpty2 15 0⟩

theorem holds_valid (D : UInventoryItemData) (it : FInventoryItem) (h : holds D it = true) :
    it.IsValid = true ∧ it.ItemData = some D := by
  simpa [holds] using h

theorem slotSpace_holds (D : UInventoryItemData) (it : FInventoryItem) (h : holds D it = true) :
    slotSpace D it = D.MaxStackSize - it.Quantity := by
  simp [slotSpace, h]

theorem slotSpace_not_holds (D : UInventoryItemData) (it : FInventoryItem)
    (h : holds D it = false) : slotSpace D it = 0 := by
  simp [slotSpace, h]

theorem quantity_add_zero (it : FInventoryItem) :
    ({ it with Quantity := it.Quantity + 0 } : FInventoryItem) = it := by
  cases it
  simp

/-- What the loop of `TryStackItem` leaves in slot `k`: a stack of `D` has gained
the smaller of its room and of what the stacks before it have left of `q`;
every other slot is as before. -/
theorem TryStackItemFrom_getElem? (D : UInventoryItemData) (Items : List FInventoryItem)
    (hok : ∀ it ∈ Items, StackOK it = true) :
    ∀ (i q out : Int) (b : Bool) (k : Nat), 0 ≤ q →
      (TryStackItemFrom D Items i q out b).Items[k]? =
        (Items[k]?).map (fun it =>
          if holds D it then
            { it with
              Quantity := it.Quantity +
                min (D.MaxStackSize - it.Quantity) (max 0 (q - stackSpace D (Items.take k))) }
          else it) := by
  induction Items with
  | nil =>
    intro i q out b k _
    simp [TryStackItemFrom]
  | cons it rest ih =>
    intro i q out b k hq
    have hrest : ∀ x ∈ rest, StackOK x = true := fun x hx => hok x (List.mem_cons_of_mem _ hx)
    have hsp := holds_space_nonneg D it (hok it (List.mem_cons_self _ _))
    by_cases hq0 : 0 < q
    · by_cases hh : holds D it = true
      · have hh2 : (it.IsValid && decide (it.ItemData = some D)) = true := hh
        have hs := slotSpace_holds D it hh
        by_cases hspace : 0 < D.MaxStackSize - it.Quantity
        · cases k with
          | zero =>
            simp only [TryStackItemFrom, hq0, if_true, hh2, hspace, List.getElem?_cons_zero,
              Option.map_some', hh, List.take_zero, stackSpace_nil, sub_zero]
            have : max 0 q = q := max_eq_right hq
            rw [this]
          | succ k =>
            have hnn := stackSpace_nonneg D (rest.take k)
              (fun x hx => hrest x (List.mem_of_mem_take hx))
            simp only [TryStackItemFrom, hq0, if_true, hh2, hspace, List.getElem?_cons_succ,
              List.take_succ_cons, stackSpace_cons]
            rw [ih hrest _ _ _ _ k (by omega)]
            have hkey : max 0 (q - min (D.MaxStackSize - it.Quantity) q
                - stackSpace D (rest.take k))
                = max 0 (q - (slotSpace D it + stackSpace D (rest.take k))) := by
              rw [hs]
              omega
            rw [hkey]
        · have hz : D.MaxStackSize - it.Quantity = 0 := by omega
          cases k with
          | zero =>
            simp only [TryStackItemFrom, hq0, if_true, hh2, hspace, if_false,
              List.getElem?_cons_zero, Option.map_some', hh]
            have : min (0 : Int) (max 0 (q - stackSpace D (List.take 0 (it :: rest)))) = 0 := by
              omega
            rw [hz, this, quantity_add_zero]
          | succ k =>
            simp only [TryStackItemFrom, hq0, if_true, hh2, hspace, if_false,
              List.getElem?_cons_succ, List.take_succ_cons, stackSpace_cons]
            rw [ih hrest _ _ _ _ k hq, hs, hz, zero_add]
      · have hh' : holds D it = false := by simpa using hh
        have hh2 : ¬ (it.IsValid && decide (it.ItemData = some D)) = true := hh
        have hs := slotSpace_not_holds D it hh'
        cases k with
        | zero =>
          simp only [TryStackItemFrom, hq0, if_true, hh2, if_false, List.getElem?_cons_zero,
            Option.map_some', hh', Bool.false_eq_true]
        | succ k =>
          simp only [TryStackItemFrom, hq0, if_true, hh2, if_false, List.getElem?_cons_succ,
            List.take_succ_cons, stackSpace_cons, Bool.false_eq_true]
          rw [ih hrest _ _ _ _ k hq, hs, zero_add]
    · have hq1 : q = 0 := by omega
      subst hq1
      simp only [TryStackItemFrom, hq0, if_false]
      cases hx : (it :: rest)[k]? with
      | none => rfl
      | some x =>
        have hxm : x ∈ it :: rest := List.getElem?_mem hx
        have hnn := stackSpace_nonneg D ((it :: rest).take k)
          (fun y hy => hok y (List.mem_of_mem_take hy))
        simp only [Option.map_some']
        by_cases hh : holds D x = true
        · have hsx := holds_space_nonneg D x (hok x hxm)
          rw [slotSpace_holds D x hh] at hsx
          have : min (D.MaxStackSize - x.Quantity)
              (max 0 (0 - stackSpace D ((it :: rest).take k))) = 0 := by omega
          rw [if_pos hh, this, quantity_add_zero]
        · rw [if_neg hh]

/-- A successful run of the while loop of `AddItem` leaves the slots that
`fillEmpty` describes. -/
theorem AddItemLoop_true_items (D : UInventoryItemData) (hM : 1 ≤ D.MaxStackSize) (fuel : Nat) :
    ∀ (T : UInventoryComponent) (R o o1 : Int) (T1 : UInventoryComponent),
      AddItemLoop D fuel T R o = some (true, o1, T1) →
      T1.Items = fillEmpty D T.Items R T.NextGuid := by
  induction fuel with
  | zero =>
    intro T R o o1 T1 h
    by_cases hR : 0 < R
    · rw [AddItemLoop] at h
      simp [hR] at h
    · rw [AddItemLoop] at h
      simp only [hR, if_false, Option.some.injEq, Prod.mk.injEq, true_and] at h
      rw [← h.2, fillEmpty_nonpos D _ _ _ (by omega)]
  | succ n ih =>
    intro T R o o1 T1 h
    by_cases hR : 0 < R
    · by_cases he : T.FindEmptySlot = -1
      · rw [AddItemLoop_full D T R o n hR he] at h
        simp at h
      · rw [AddItemLoop_step D T R o n hR he] at h
        have hrec := ih _ _ _ _ _ h
        simp only [] at hrec
        have hmin : 0 < min R D.MaxStackSize := lt_min hR (by omega)
        unfold FindEmptySlot at he hrec
        rcases FindEmptySlotFrom_spec T.Items 0 with ⟨_, e⟩ | ⟨pre, it, post, hItems, hpre, hit, e⟩
        · exact absurd e he
        · have hidx : (0 + (pre.length : Int)).toNat = pre.length := by omega
          rw [e, hidx, hItems, set_append_mid, fillEmpty_append_valid _ _ _ _ _ hpre] at hrec
          have hv := mk2_valid D (min R D.MaxStackSize) T.NextGuid hmin
          rw [hrec, hItems, fillEmpty_append_valid _ _ _ _ _ hpre]
          congr 1
          rw [fillEmpty, fillEmpty]
          have c1 : ¬ (0 < R - min R D.MaxStackSize ∧
              (FInventoryItem.mk2 (some D) (min R D.MaxStackSize) T.NextGuid).IsValid = false) := by
            rw [hv]
            simp
          rw [if_neg c1, if_pos ⟨hR, hit⟩]
    · rw [AddItemLoop.eq_def] at h
      simp only [hR, if_false, Option.some.injEq, Prod.mk.injEq, true_and] at h
      rw [← h.2, fillEmpty_nonpos D _ _ _ (by omega)]

/-- The room of the stacks of `D` before slot `i` and in slot `i` is part of
the room of all stacks of `D`. -/
theorem stackSpace_take_le (D : UInventoryItemData) (Items : List FInventoryItem)
    (hok : ∀ it ∈ Items, StackOK it = true) :
    ∀ (i : Nat) (it : FInventoryItem), Items[i]? = some it →
      stackSpace D (Items.take i) + slotSpace D it ≤ stackSpace D Items := by
  induction Items with
  | nil =>
    intro i it h
    simp at h
  | cons x rest ih =>
    intro i it h
    have hrest : ∀ y ∈ rest, StackOK y = true := fun y hy => hok y (List.mem_cons_of_mem _ hy)
    have hnn := stackSpace_nonneg D rest hrest
    cases i with
    | zero =>
      simp only [List.getElem?_cons_zero, Option.some.injEq] at h
      subst h
      simp only [List.take_zero, stackSpace_nil, stackSpace_cons]
      omega
    | succ i =>
      simp only [List.getElem?_cons_succ] at h
      have := ih hrest i it h
      simp only [List.take_succ_cons, stackSpace_cons]
      omega

/-- The slots after a successful `AddItem` of a stackable definition: what the
loop of `TryStackItem` leaves, with the rest placed by the while loop. -/
theorem AddItem_true_items (S : UInventoryComponent) (D : UInventoryItemData)
    (q out : Int) (fuel : Nat) (slot : Int) (S1 : UInventoryComponent)
    (hM : 1 < D.MaxStackSize)
    (hadd : AddItem fuel S (some D) q out = some (true, slot, S1)) :
    0 < q ∧
    S1.Items = fillEmpty D (TryStackItemFrom D S.Items 0 q out false).Items
      (TryStackItemFrom D S.Items 0 q out false).Quantity S.NextGuid := by
  by_cases hq : q ≤ 0
  · simp [AddItem, hq] at hadd
  · cases hcan : S.CanAddItem (some D) q with
    | false => simp [AddItem, hq, hcan] at hadd
    | true =>
      refine ⟨by omega, ?_⟩
      simp only [AddItem, hq, if_false, hcan, Bool.not_true, Bool.false_eq_true, hM, if_true,
        TryStackItem] at hadd
      split at hadd
      · rename_i hb
        simp only [Bool.and_eq_true, decide_eq_true_eq] at hb
        simp only [Option.some.injEq, Prod.mk.injEq, true_and] at hadd
        rw [← hadd.2, fillEmpty_nonpos D _ _ _ hb.2]
      · exact AddItemLoop_true_items D (by omega) fuel _ _ _ _ _ hadd

/-- C21. In a store that satisfies the store invariants, for a definition `D`
with `MaxStackSize > 1`, when `AddItem(D, q)` returns true: the slot list keeps
its length; a slot `i` that held a stack of `D` holds the same stack with its
quantity raised by the smaller of its room (`MaxStackSize - Quantity`) and of
the quantity still to place when the loop reaches it, which is `q` less the
room of the stacks of `D` in the slots before `i`, or 0 when that room exceeds
`q`; and when a slot that was empty holds a valid stack afterwards, every slot
that held a stack of `D` holds `MaxStackSize` units afterwards. -/
theorem C21_AddItem_fills_stacks_in_slot_order (S : UInventoryComponent)
    (D : UInventoryItemData) (q out : Int) (fuel : Nat) (slot : Int) (S1 : UInventoryComponent)
    (hinv : StoreInv S) (hM : 1 < D.MaxStackSize)
    (hadd : AddItem fuel S (some D) q out = some (true, slot, S1)) :
    S1.Items.length = S.Items.length ∧
    (∀ (i : Nat) (it : FInventoryItem), S.Items[i]? = some it → holds D it = true →
      S1.Items[i]? = some
        { it with
          Quantity := it.Quantity +
            min (D.MaxStackSize - it.Quantity) (max 0 (q - stackSpace D (S.Items.take i))) }) ∧
    ((∃ (j : Nat) (it it1 : FInventoryItem), S.Items[j]? = some it ∧ it.IsValid = false ∧
        S1.Items[j]? = some it1 ∧ it1.IsValid = true) →
      ∀ (i : Nat) (it it1 : FInventoryItem), S.Items[i]? = some it → holds D it = true →
        S1.Items[i]? = some it1 → it1.Quantity = D.MaxStackSize) := by
  obtain ⟨hq, hItems⟩ := AddItem_true_items S D q out fuel slot S1 hM hadd
  have hM1 : 1 ≤ D.MaxStackSize := by omega
  obtain ⟨t1, _, t3, _, _⟩ := TryStackItemFrom_spec D S.Items hinv.2 0 q out false hq.le
  have hslot : ∀ (i : Nat) (it : FInventoryItem), S.Items[i]? = some it → holds D it = true →
      S1.Items[i]? = some
        { it with
          Quantity := it.Quantity +
            min (D.MaxStackSize - it.Quantity)
              (max 0 (q - stackSpace D (S.Items.take i))) } := by
    intro i it hi hh
    have hmem : it ∈ S.Items := List.getElem?_mem hi
    have hsp := holds_space_nonneg D it (hinv.2 it hmem)
    rw [slotSpace_holds D it hh] at hsp
    obtain ⟨hv, hd⟩ := holds_valid D it hh
    obtain ⟨_, _, hpos⟩ := valid_data it hv
    rw [hItems, fillEmpty_getElem? D hM1,
      TryStackItemFrom_getElem? D S.Items hinv.2 0 q out false i hq.le, hi]
    simp only [Option.map_some', hh, if_true]
    have hv1 : FInventoryItem.IsValid
        { it with
          Quantity := it.Quantity +
            min (D.MaxStackSize - it.Quantity)
              (max 0 (q - stackSpace D (S.Items.take i))) } = true := by
      simp only [FInventoryItem.IsValid, hd, Option.isSome_some, Bool.true_and,
        decide_eq_true_eq]
      omega
    rw [if_neg (by rw [hv1]; simp)]
  refine ⟨by rw [hItems, fillEmpty_length, t3], hslot, ?_⟩
  rintro ⟨j, it, it1, hj, hjv, hj1, hj1v⟩ i it0 it2 hi hh hi2
  have hnh : holds D it = false := by simp [holds, hjv]
  rw [hItems, fillEmpty_getElem? D hM1,
    TryStackItemFrom_getElem? D S.Items hinv.2 0 q out false j hq.le, hj] at hj1
  simp only [Option.map_some', hnh, Bool.false_eq_true, if_false, Option.some.injEq] at hj1
  have hR : 0 < (TryStackItemFrom D S.Items 0 q out false).Quantity := by
    by_contra hcon
    have hno : ¬ (it.IsValid = false ∧
        (emptyCount ((TryStackItemFrom D S.Items 0 q out false).Items.take j) : Int)
          * D.MaxStackSize < (TryStackItemFrom D S.Items 0 q out false).Quantity) := by
      rintro ⟨_, hlt⟩
      have : (0 : Int) ≤ (emptyCount
          ((TryStackItemFrom D S.Items 0 q out false).Items.take j) : Int) * D.MaxStackSize :=
        mul_nonneg (by omega) (by omega)
      omega
    rw [if_neg hno] at hj1
    rw [← hj1, hjv] at hj1v
    exact absurd hj1v (by simp)
  rw [t1] at hR
  have hlt : stackSpace D S.Items < q := by omega
  have hle := stackSpace_take_le D S.Items hinv.2 i it0 hi
  rw [slotSpace_holds D it0 hh] at hle
  have hsp := holds_space_nonneg D it0 (hinv.2 it0 (List.getElem?_mem hi))
  rw [slotSpace_holds D it0 hh] at hsp
  rw [hslot i it0 hi hh] at hi2
  simp only [Option.some.injEq] at hi2
  rw [← hi2]
  simp only []
  omega

theorem exPartial2_add :
    AddItem 5 exPartial2 (some exD) 5 0 = some (true, 1,
      { Items := [FInventoryItem.mk2 (some exD) 10 0, FInventoryItem.mk2 (some exD) 2 2],
        MaxSlots := 2, MaxWeight := 0, NextGuid := 3,
        Broadcasts := [Notification.InventoryUpdated 0 (FInventoryItem.mk2 (some exD) 10 0),
                       Notification.InventoryUpdated 1 (FInventoryItem.mk2 (some exD) 2 2)] }) := by
  rw [AddItem]
  simp only [exPartial2_can]
  rfl

/-- Witness of C21: adding 5 of `exD` (`MaxStackSize = 10`) to the store
`[7 of exD, empty]` succeeds; slot 0 gains `min(3, 5) = 3` and is full, and the
empty slot 1 receives the remaining 2. -/
theorem C21_AddItem_fills_stacks_witness :
    StoreInv exPartial2 ∧ 1 < exD.MaxStackSize ∧
    AddItem 5 exPartial2 (some exD) 5 0 = some (true, 1,
      { Items := [FInventoryItem.mk2 (some exD) 10 0, FInventoryItem.mk2 (some exD) 2 2],
        MaxSlots := 2, MaxWeight := 0, NextGuid := 3,
        Broadcasts := [Notification.InventoryUpdated 0 (FInventoryItem.mk2 (some exD) 10 0),
                       Notification.InventoryUpdated 1 (FInventoryItem.mk2 (some exD) 2 2)] }) ∧
    (∀ (i : Nat) (it : FInventoryItem), exPartial2.Items[i]? = some it → holds exD it = true →
      [FInventoryItem.mk2 (some exD) 10 0, FInventoryItem.mk2 (some exD) 2 2][i]? = some
        { it with
          Quantity := it.Quantity +
            min (exD.MaxStackSize - it.Quantity)
              (max 0 (5 - stackSpace exD (exPartial2.Items.take i))) }) :=
  ⟨exPartial2_inv, by decide, exPartial2_add,
    (C21_AddItem_fills_stacks_in_slot_order exPartial2 exD 5 0 5 1 _ exPartial2_inv (by decide)
      exPartial2_add).2.1⟩

theorem exOne_inv : StoreInv exOne := ⟨by decide, by decide⟩

/-- For `2^24 + 1` units and stacks of `2^24` the slot count of `CanAddItem` is
1, the conversion to `float` having dropped the last unit, and the one empty
slot passes the check. -/
theorem exOne_can : exOne.CanAddItem (some exBigD) 16777217 = true := by
  simp [CanAddItem, exOne, CanAddItemLoop, CanAddItemSlots, GetOccupiedSlots,
    FInventoryItem.mkDefault, FInventoryItem.IsValid, exBigD]
  rw [CeilToInt_FloatDiv_16777217]

/-- `AddItem` on `exOne` with `2^24 + 1` units: the first iteration fills the
slot with `2^24`, the second finds no empty slot for the last unit. -/
theorem exOne_add (fuel : Nat) (out : Int) (hf : 2 ≤ fuel) :
    AddItem fuel exOne (some exBigD) 16777217 out = some (false, -1, exOneFilled) := by
  obtain ⟨f, rfl⟩ : ∃ f, fuel = f + 2 := ⟨fuel - 2, by omega⟩
  rw [AddItem]
  simp only [exOne_can]
  have ht : exOne.TryStackItem exBigD 16777217 out = (false, 16777217, out, exOne) := by
    rfl
  have h1 : (1 : Int) < exBigD.MaxStackSize := by decide
  simp only [h1, if_true, ht]
  have hne : ¬ (16777217 : Int) ≤ 0 := by decide
  simp only [hne, if_false, Bool.not_true, Bool.false_eq_true, Bool.false_and]
  rw [AddItemLoop_step exBigD exOne 16777217 out (f + 1) (by decide) (by decide)]
  exact AddItemLoop_full exBigD _ _ _ f (by decide) (by decide)

theorem exOne_no_room :
    ¬ ((16777217 : Int) ≤ (if 1 < exBigD.MaxStackSize then stackSpace exBigD exOne.Items else 0)
        + (emptyCount exOne.Items : Int) * exBigD.MaxStackSize) := by
  decide

theorem exUnready_can : exUnready.CanAddItem (some exD) 1 = true := by
  simp [CanAddItem, exUnready, CanAddItemLoop, CanAddItemSlots, GetOccupiedSlots, exD]
  rw [CeilToInt_FloatDiv_small 1 10 (by norm_num) (by norm_num)]
  norm_num

theorem exUnready_add (fuel : Nat) (out : Int) (hf : 1 ≤ fuel) :
    AddItem fuel exUnready (some exD) 1 out = some (false, -1, exUnready) := by
  obtain ⟨f, rfl⟩ : ∃ f, fuel = f + 1 := ⟨fuel - 1, by omega⟩
  rw [AddItem]
  simp only [exUnready_can]
  have ht : exUnready.TryStackItem exD 1 out = (false, 1, out, exUnready) := by
    rfl
  have h1 : (1 : Int) < exD.MaxStackSize := by decide
  simp only [h1, if_true, ht]
  have hne : ¬ (1 : Int) ≤ 0 := by decide
  simp only [hne, if_false, Bool.not_true, Bool.false_eq_true, Bool.false_and]
  exact AddItemLoop_full exD _ _ _ f (by decide) (by decide)

/-- C1 on the code.  In a store that satisfies the store invariants, for a
definition with `MaxStackSize ≥ 1` and a quantity of at most `2^24`: when
`CanAddItem(D, q)` is true, `AddItem(D, q)` returns true (for every bound on the
while loop of at least `q` iterations) and `GetCurrentWeight` afterwards is the
weight before plus `D.Weight * q`, weights taken as exact numbers.  Above
`2^24` this fails: for one empty slot, `MaxStackSize = 2^24` and
`q = 2^24 + 1` the store invariants hold and `CanAddItem` is true, its slot
count being computed in `float`, yet `AddItem` fills the slot with `2^24`
units, finds no slot for the last one and returns `(false, -1)`. -/
theorem C1_AddItem_after_CanAddItem :
    (∀ (S : UInventoryComponent) (D : UInventoryItemData) (q out : Int) (fuel : Nat),
      StoreInv S → 1 ≤ D.MaxStackSize → q ≤ 2 ^ 24 → S.CanAddItem (some D) q = true →
      q.toNat ≤ fuel →
      ∃ slot S1, AddItem fuel S (some D) q out = some (true, slot, S1) ∧
        S1.GetCurrentWeight = S.GetCurrentWeight + D.Weight * (q : ℚ)) ∧
    (StoreInv exOne ∧ 1 ≤ exBigD.MaxStackSize ∧
      exOne.CanAddItem (some exBigD) 16777217 = true ∧
      (∀ (fuel : Nat) (out : Int), 2 ≤ fuel →
        AddItem fuel exOne (some exBigD) 16777217 out = some (false, -1, exOneFilled)) ∧
      exOneFilled.Items ≠ exOne.Items) := by
  refine ⟨fun S D q out fuel hinv hM hq24 hcan hfuel =>
      AddItem_of_room S D q out fuel hinv hM hcan
        (CanAddItem_room S D q hinv hM (Or.inl hq24) hcan) hfuel,
    exOne_inv, by decide, exOne_can, fun fuel out hf => exOne_add fuel out hf, by decide⟩

/-- Witness of C1: adding 5 of `exD` to a store holding 7 of 10 and one empty slot. -/
theorem C1_AddItem_witness :
    StoreInv exPartial2 ∧ exPartial2.CanAddItem (some exD) 5 = true ∧
    ∃ slot S1, AddItem 5 exPartial2 (some exD) 5 0 = some (true, slot, S1) ∧
      S1.GetCurrentWeight = exPartial2.GetCurrentWeight + exD.Weight * ((5 : Int) : ℚ) :=
  ⟨exPartial2_inv, exPartial2_can,
    C1_AddItem_after_CanAddItem.1 exPartial2 exD 5 0 5 exPartial2_inv (by decide)
      (by norm_num) exPartial2_can (by decide)⟩

/-- Counterexamples to C2 as stated.  Before `BeginPlay` the slot list is empty
while `MaxSlots` is 30: the store holds no stack of `exD`, `CanAddItem(exD, 1)`
is true, and `AddItem(exD, 1)` finds no empty slot and returns `(false, -1)`.
With one empty slot, `MaxStackSize = 2^24` and `q = 2^24 + 1`, `CanAddItem`
is true, and `AddItem` creates one stack and returns `(false, -1)`. -/
theorem C2_AddItem_counterexample :
    ((∀ it ∈ exUnready.Items, holds exD it = false) ∧
      exUnready.CanAddItem (some exD) 1 = true ∧
      (∀ (fuel : Nat) (out : Int), 1 ≤ fuel →
        AddItem fuel exUnready (some exD) 1 out = some (false, -1, exUnready))) ∧
    ((∀ it ∈ exOne.Items, holds exBigD it = false) ∧
      (exOne.Items.length : Int) = exOne.MaxSlots ∧
      exOne.CanAddItem (some exBigD) 16777217 = true ∧
      (∀ (fuel : Nat) (out : Int), 2 ≤ fuel →
        AddItem fuel exOne (some exBigD) 16777217 out = some (false, -1, exOneFilled))) := by
  refine ⟨⟨by decide, exUnready_can, fun fuel out hf => exUnready_add fuel out hf⟩,
    by decide, by decide, exOne_can, fun fuel out hf => exOne_add fuel out hf⟩

/-- C4 on the code.  Under the store invariants, for definitions with
`MaxStackSize ≥ 1` and a quantity of at most `2^24`, `CanAddItem(D, q)` is true
exactly when `D` is non-null, `q > 0`, the weight limit is respected
(`MaxWeight ≤ 0`, or the current weight plus `D.Weight * q` is at most
`MaxWeight`, weights taken as exact numbers) and `q ≤ S + E * D.MaxStackSize`,
with `E` the number of slots without a valid stack and `S` the room left in
the stacks of `D` when `D.MaxStackSize > 1` and 0 otherwise.  Above `2^24`
this fails: for one empty slot, no weight limit, `MaxStackSize = 2^24` and
`q = 2^24 + 1`, `CanAddItem` is true although `q > S + E * MaxStackSize`. -/
theorem C4_CanAddItem_iff :
    (∀ (S : UInventoryComponent) (D : Option UInventoryItemData) (q : Int),
      StoreInv S → (∀ d, D = some d → 1 ≤ d.MaxStackSize) → q ≤ 2 ^ 24 →
      (S.CanAddItem D q = true ↔
        ∃ d, D = some d ∧ 0 < q ∧
          (S.MaxWeight ≤ 0 ∨ S.GetCurrentWeight + d.Weight * (q : ℚ) ≤ S.MaxWeight) ∧
          q ≤ (if 1 < d.MaxStackSize then stackSpace d S.Items else 0)
                + (emptyCount S.Items : Int) * d.MaxStackSize)) ∧
    (StoreInv exOne ∧ 1 ≤ exBigD.MaxStackSize ∧ exOne.MaxWeight ≤ 0 ∧
      exOne.CanAddItem (some exBigD) 16777217 = true ∧
      ¬ ((16777217 : Int)
          ≤ (if 1 < exBigD.MaxStackSize then stackSpace exBigD exOne.Items else 0)
            + (emptyCount exOne.Items : Int) * exBigD.MaxStackSize)) := by
  refine ⟨fun S D q hinv hM hq24 => CanAddItem_iff_room S D q hinv hM hq24,
    exOne_inv, by decide, by simp [exOne], exOne_can, exOne_no_room⟩

/-- Witness of C4, the weight scenario of the specification: `MaxWeight = 10`,
current weight 9.5, `D.Weight = 1`, `q = 1` gives false. -/
theorem C4_CanAddItem_witness :
    StoreInv exWeighted ∧ exWeighted.GetCurrentWeight = 19 / 2 ∧
    exWeighted.CanAddItem (some exD) 1 = false ∧
    (exWeighted.CanAddItem (some exD) 1 = true ↔
      ∃ d, some exD = some d ∧ 0 < (1 : Int) ∧
        (exWeighted.MaxWeight ≤ 0 ∨
          exWeighted.GetCurrentWeight + d.Weight * ((1 : Int) : ℚ) ≤ exWeighted.MaxWeight) ∧
        (1 : Int) ≤ (if 1 < d.MaxStackSize then stackSpace d exWeighted.Items else 0)
              + (emptyCount exWeighted.Items : Int) * d.MaxStackSize) :=
  ⟨exWeighted_inv, exWeighted_weight, exWeighted_cannot,
    C4_CanAddItem_iff.1 exWeighted (some exD) 1 exWeighted_inv
      (fun d hd => by cases hd; decide) (by norm_num)⟩

end Outercorp
